import Mathlib

/-!
# Verification of the cooklang parser / analyzer core

A shallow embedding of the cooklang-rs core (parser, analyzer, quantity
model and unit converter) in Lean 4, together with theorems settling the
frozen claims about its specification.

Conventions of the embedding:
* Rust `f64` values are modelled as exact rationals (`ℚ`); all arithmetic
  claims are settled in this exact-arithmetic idealization.
* Byte offsets are modelled as character offsets (a uniform reindexing).
* Fallible code returns `Except`/`Option`; Rust panics are modelled as
  `Except.error msg` with a distinguishing message string.
* `OnceCell` caches are modelled as `Option` fields.
-/

namespace Cooklang

/-! ## Kernel-computable string helpers

`String.trim` and friends are implemented on `Substring` with well-founded
recursion and do not reduce in the kernel; the embedding uses these
character-list equivalents of the Rust `str` operations instead. -/

/-- Drop leading whitespace characters. -/
def charTrimLeft : List Char → List Char
  | [] => []
  | c :: rest => if c.isWhitespace then charTrimLeft rest else c :: rest

/-- `str::trim_start`. -/
def strTrimLeft (s : String) : String := (charTrimLeft s.toList).asString

/-- `str::trim_end`. -/
def strTrimRight (s : String) : String :=
  ((charTrimLeft s.toList.reverse).reverse).asString

/-- `str::trim`. -/
def strTrim (s : String) : String :=
  ((charTrimLeft (charTrimLeft s.toList).reverse).reverse).asString

/-- `str::to_lowercase` (character-wise). -/
def strToLower (s : String) : String := (s.toList.map Char.toLower).asString

/-- `str::starts_with`. -/
def strStartsWith (s pre : String) : Bool :=
  s.toList.take pre.toList.length == pre.toList

/-- `str::ends_with`. -/
def strEndsWith (s suf : String) : Bool :=
  s.toList.drop (s.toList.length - suf.toList.length) == suf.toList

/-- Drop the first `n` characters. -/
def strDrop (s : String) (n : Nat) : String := (s.toList.drop n).asString

/-- Drop the last `n` characters. -/
def strDropRight (s : String) (n : Nat) : String :=
  (s.toList.take (s.toList.length - n)).asString

/-- Parse a non-empty all-digit string as a natural number
(`str::parse::<u32>` restricted to plain digit runs). -/
def strToNat? (s : String) : Option Nat :=
  if s.toList.isEmpty || !s.toList.all Char.isDigit then none
  else some (s.toList.foldl (fun acc c => acc * 10 + (c.toNat - 48)) 0)

/-- Split on a separator character (`str::split`). -/
def charSplit (sep : Char) : List Char → List (List Char)
  | [] => [[]]
  | c :: rest =>
    if c == sep then [] :: charSplit sep rest
    else
      match charSplit sep rest with
      | [] => [[c]]
      | g :: gs => (c :: g) :: gs

/-- Split a string on a separator character. -/
def strSplit (s : String) (sep : Char) : List String :=
  (charSplit sep s.toList).map List.asString

/-- Half-open byte range `[start, stop)` into the original source
(`Span` in `src/span.rs`; the Rust field `end` is called `stop` here). -/
structure Span where
  start : Nat
  stop : Nat
deriving DecidableEq, Repr

/-- `Span::pos`: an empty span at a position. -/
def Span.pos (p : Nat) : Span := ⟨p, p⟩

/-- A value tagged with its source span (`Located` in `src/located.rs`). -/
structure Located (α : Type) where
  val : α
  span : Span
deriving DecidableEq, Repr

/-- The component modifier bitset (`ast::Modifiers`): `RECIPE (@)`,
`REF (&)`, `HIDDEN (-)`, `OPT (?)`, `NEW (+)`, one `Bool` per flag. -/
structure Modifiers where
  recipe : Bool
  ref : Bool
  hidden : Bool
  opt : Bool
  new : Bool
deriving DecidableEq, Repr

/-- `Modifiers::empty()`. -/
def Modifiers.empty : Modifiers := ⟨false, false, false, false, false⟩

/-- `Modifiers::RECIPE`. -/
def Modifiers.RECIPE : Modifiers := ⟨true, false, false, false, false⟩

/-- `Modifiers::REF`. -/
def Modifiers.REF : Modifiers := ⟨false, true, false, false, false⟩

/-- `Modifiers::HIDDEN`. -/
def Modifiers.HIDDEN : Modifiers := ⟨false, false, true, false, false⟩

/-- `Modifiers::OPT`. -/
def Modifiers.OPT : Modifiers := ⟨false, false, false, true, false⟩

/-- `Modifiers::NEW`. -/
def Modifiers.NEW : Modifiers := ⟨false, false, false, false, true⟩

/-- Bitwise or of modifier sets (`a | b`). -/
def Modifiers.union (a b : Modifiers) : Modifiers :=
  ⟨a.recipe || b.recipe, a.ref || b.ref, a.hidden || b.hidden,
   a.opt || b.opt, a.new || b.new⟩

/-- Bitwise and of modifier sets (`a & b`). -/
def Modifiers.inter (a b : Modifiers) : Modifiers :=
  ⟨a.recipe && b.recipe, a.ref && b.ref, a.hidden && b.hidden,
   a.opt && b.opt, a.new && b.new⟩

/-- Bit clearing (`a & !b`). -/
def Modifiers.diff (a b : Modifiers) : Modifiers :=
  ⟨a.recipe && !b.recipe, a.ref && !b.ref, a.hidden && !b.hidden,
   a.opt && !b.opt, a.new && !b.new⟩

/-- `a.contains(b)`: every flag of `b` is set in `a`. -/
def Modifiers.contains (a b : Modifiers) : Bool :=
  (!b.recipe || a.recipe) && (!b.ref || a.ref) && (!b.hidden || a.hidden)
    && (!b.opt || a.opt) && (!b.new || a.new)

/-- `a.intersects(b)`: some flag is set in both. -/
def Modifiers.intersects (a b : Modifiers) : Bool :=
  (a.recipe && b.recipe) || (a.ref && b.ref) || (a.hidden && b.hidden)
    || (a.opt && b.opt) || (a.new && b.new)

/-- `a.is_empty()`. -/
def Modifiers.isEmpty (a : Modifiers) : Bool :=
  !a.recipe && !a.ref && !a.hidden && !a.opt && !a.new

/-- The extension flag bitset (`Extensions` in `src/lib.rs`), one `Bool`
per flag. -/
structure Extensions where
  modes : Bool
  multiline_steps : Bool
  component_modifiers : Bool
  component_alias : Bool
  component_note : Bool
  advanced_units : Bool
  timer_requires_time : Bool
  temperature : Bool
deriving DecidableEq, Repr

/-- All extensions disabled (`Extensions::empty()`). -/
def Extensions.empty : Extensions :=
  ⟨false, false, false, false, false, false, false, false⟩

/-! ## Quantity model (`src/quantity.rs`) and converter (`src/convert/mod.rs`) -/

/-- `convert::PhysicalQuantity`. -/
inductive PhysicalQuantity where
  | volume
  | mass
  | length
  | temperature
  | time
deriving DecidableEq, Repr

/-- `convert::System`. -/
inductive System where
  | metric
  | imperial
deriving DecidableEq, Repr

/-- A registry unit (`convert::Unit`).  Conversion is affine:
`norm = (v + difference) * ratio` into the base, `norm / ratio - difference`
out of it.  Rust `f64` fields are modelled as `ℚ`. -/
structure Unit where
  names : List String
  symbols : List String
  aliases : List String
  ratio : ℚ
  difference : ℚ
  physical_quantity : PhysicalQuantity
  system : Option System
deriving DecidableEq, Repr

/-- `Unit::symbol()`: first symbol, or first name, or first alias; the Rust
code panics when all are empty, modelled by `none`. -/
def Unit.symbolStr (u : Unit) : Option String :=
  match u.symbols.head? with
  | some s => some s
  | none =>
    match u.names.head? with
    | some s => some s
    | none => u.aliases.head?

/-- `quantity::Value`: number, inclusive range, or free text. -/
inductive Value where
  | number (value : ℚ)
  | range (rstart rstop : ℚ)
  | text (value : String)
deriving DecidableEq, Repr

/-- `Value::is_text`. -/
def Value.is_text : Value → Bool
  | .text _ => true
  | _ => false

/-- `quantity::QuantityValue`: fixed, linear-scaling, or by-servings. -/
inductive QuantityValue where
  | fixed (value : Value)
  | linear (value : Value)
  | byServings (values : List Value)
deriving DecidableEq, Repr

/-- `QuantityValue::contains_text_value`. -/
def QuantityValue.contains_text_value : QuantityValue → Bool
  | .fixed value | .linear value => value.is_text
  | .byServings values => values.any Value.is_text

/-- `quantity::UnitInfo`: parsed unit information. -/
inductive UnitInfo where
  | known (unit : Unit)
  | unknown
deriving DecidableEq, Repr

/-- `quantity::QuantityUnit`: unit text with its lazily parsed info
(the `OnceCell` cache is an `Option`). -/
structure QuantityUnit where
  text : String
  info : Option UnitInfo
deriving DecidableEq, Repr

/-- `quantity::Quantity`: a value plus an optional unit. -/
structure Quantity where
  value : QuantityValue
  unit : Option QuantityUnit
deriving DecidableEq, Repr

/-- `Quantity::new`: build a quantity with an unparsed unit. -/
def Quantity.new (value : QuantityValue) (unit : Option String) : Quantity :=
  ⟨value, unit.map fun text => ⟨text, none⟩⟩

/-- Best-unit table: sorted `(threshold, unit index)` pairs
(`convert::BestConversions`). -/
structure BestConversions where
  entries : List (ℚ × Nat)
deriving DecidableEq, Repr

/-- `convert::BestConversionsStore`. -/
inductive BestConversionsStore where
  | unified (u : BestConversions)
  | bySystem (metric imperial : BestConversions)
deriving DecidableEq, Repr

/-- The per-physical-quantity map of best-conversion stores
(the Rust `EnumMap<PhysicalQuantity, BestConversionsStore>`). -/
structure BestStore where
  volume : BestConversionsStore
  mass : BestConversionsStore
  length : BestConversionsStore
  temperature : BestConversionsStore
  time : BestConversionsStore
deriving DecidableEq, Repr

/-- Look a physical quantity up in the enum map. -/
def BestStore.get (b : BestStore) : PhysicalQuantity → BestConversionsStore
  | .volume => b.volume
  | .mass => b.mass
  | .length => b.length
  | .temperature => b.temperature
  | .time => b.time

/-- The unit registry (`convert::Converter`); `unit_index` is the
symbol-to-index map, `best` the best-conversion tables.  The lazily built
temperature regex is handled separately (see the analyzer embedding). -/
structure Converter where
  all_units : List Unit
  unit_index : List (String × Nat)
  best : BestStore
  default_system : System

/-- An empty converter (`Converter::empty()`): knows no units. -/
def Converter.empty : Converter :=
  ⟨[], [], ⟨.unified ⟨[]⟩, .unified ⟨[]⟩, .unified ⟨[]⟩, .unified ⟨[]⟩,
    .unified ⟨[]⟩⟩, .metric⟩

/-- `UnitIndex::get_unit_id`: look a key up in the symbol map. -/
def Converter.get_unit_id (c : Converter) (key : String) : Option Nat :=
  (c.unit_index.find? fun p => p.1 == key).map (·.2)

/-- `Converter::get_unit` for a string key: id lookup then registry index.
An out-of-bounds id (impossible for well-formed registries) is treated as
unknown. -/
def Converter.get_unit_key (c : Converter) (key : String) : Option Unit :=
  match c.get_unit_id key with
  | none => none
  | some id => c.all_units[id]?

/-- `UnitInfo::new`: parse a unit text with the converter. -/
def UnitInfo.new (text : String) (converter : Converter) : UnitInfo :=
  match converter.get_unit_key text with
  | some unit => .known unit
  | none => .unknown

/-- `QuantityUnit::unit_info_or_parse`: cached info or a fresh parse. -/
def QuantityUnit.unit_info_or_parse (u : QuantityUnit) (converter : Converter) :
    UnitInfo :=
  match u.info with
  | some i => i
  | none => UnitInfo.new u.text converter

/-- `Quantity::with_known_unit`: build a quantity whose unit cache is
already filled. -/
def Quantity.with_known_unit (value : QuantityValue) (unit_text : String)
    (unit : Option Unit) : Quantity :=
  ⟨value, some ⟨unit_text, some (match unit with
    | some u => .known u
    | none => .unknown)⟩⟩

/-- `quantity::IncompatibleUnits`: why two quantities cannot be added.
`Either::Left`/`Right` is `Sum.inl`/`Sum.inr`. -/
inductive IncompatibleUnits where
  | missingUnit (found : QuantityUnit ⊕ QuantityUnit)
  | differentPhysicalQuantities (a b : PhysicalQuantity)
  | unknownDifferentUnits (a b : String)
deriving DecidableEq, Repr

/-- `Quantity::compatible_unit`: check whether two quantities can be added
and return the common unit, if any. -/
def Quantity.compatible_unit (self rhs : Quantity) (converter : Converter) :
    Except IncompatibleUnits (Option Unit) :=
  match self.unit, rhs.unit with
  | none, none => .ok none
  | none, some u => .error (.missingUnit (.inr u))
  | some u, none => .error (.missingUnit (.inl u))
  | some a, some b =>
    match a.unit_info_or_parse converter, b.unit_info_or_parse converter with
    | .known a_unit, .known b_unit =>
      if a_unit.physical_quantity ≠ b_unit.physical_quantity then
        .error (.differentPhysicalQuantities a_unit.physical_quantity
          b_unit.physical_quantity)
      else
        .ok (some a_unit)
    | _, _ =>
      if a.text ≠ b.text then
        .error (.unknownDifferentUnits a.text b.text)
      else
        .ok none

/-- `convert::ConvertValue`: number or range input for a conversion. -/
inductive ConvertValue where
  | number (n : ℚ)
  | range (rstart rstop : ℚ)
deriving DecidableEq, Repr

/-- `TryFrom<&Value> for ConvertValue`: text values are rejected. -/
def ConvertValue.ofValue : Value → Except String ConvertValue
  | .number n => .ok (.number n)
  | .range s e => .ok (.range s e)
  | .text t => .error t

/-- `From<ConvertValue> for Value`. -/
def ConvertValue.toValue : ConvertValue → Value
  | .number n => .number n
  | .range s e => .range s e

/-- `convert::ConvertTo`: the conversion target.  The Rust
`ConvertTo::Unit(ConvertUnit)` is split into the direct-unit and key
variants. -/
inductive ConvertTo where
  | sameSystem
  | best (system : System)
  | toUnit (unit : Unit)
  | toKey (key : String)
deriving Repr

/-- `convert::ConvertError` (plus a `panicked` constructor modelling Rust
panics on the conversion path). -/
inductive ConvertError where
  | noUnit (q : Quantity)
  | textValue (t : String)
  | mixedQuantities (a b : PhysicalQuantity)
  | bestUnitNotFound (pq : PhysicalQuantity) (system : Option System)
  | unknownUnit (key : String)
  | panicked (msg : String)
deriving DecidableEq, Repr

/-- `convert_f64`: the affine conversion
`(value + from.difference) * from.ratio / to.ratio - to.difference`. -/
def convert_f64 (value : ℚ) (a b : Unit) : ℚ :=
  (value + a.difference) * a.ratio / b.ratio - b.difference

/-- `Converter::convert_f64`: identical units short-circuit (the Rust
pointer-equality fast path, modelled as structural equality). -/
def Converter.convert_f64 (_ : Converter) (value : ℚ) (a b : Unit) : ℚ :=
  if a = b then value else Cooklang.convert_f64 value a b

/-- `Converter::convert_value`: apply the numeric conversion to a number or
to both ends of a range. -/
def Converter.convert_value (c : Converter) (value : ConvertValue) (a b : Unit) :
    ConvertValue :=
  match value with
  | .number n => .number (c.convert_f64 n a b)
  | .range s e => .range (c.convert_f64 s a b) (c.convert_f64 e a b)

/-- `Converter::convert_to_unit`: reject mixed physical quantities, then
convert. -/
def Converter.convert_to_unit (c : Converter) (value : ConvertValue)
    (unit target_unit : Unit) : Except ConvertError ConvertValue :=
  if unit.physical_quantity ≠ target_unit.physical_quantity then
    .error (.mixedQuantities unit.physical_quantity target_unit.physical_quantity)
  else
    .ok (c.convert_value value unit target_unit)

/-- `BestConversions::base`: the base unit id of a best-conversion table. -/
def BestConversions.base (bc : BestConversions) : Option Nat :=
  bc.entries.head?.map (·.2)

/-- `BestConversions::best_unit`: the largest threshold not exceeding the
normalized magnitude, falling back to the smallest unit. -/
def BestConversions.best_unit (bc : BestConversions) (c : Converter)
    (value : ConvertValue) (unit : Unit) : Option Unit :=
  let v := match value with
    | .number n => |n|
    | .range s _ => |s|
  match bc.base with
  | none => none
  | some base_unit_id =>
    match c.all_units[base_unit_id]? with
    | none => none
    | some base_unit =>
      let norm := c.convert_f64 v unit base_unit
      let best_id : Option Nat := match bc.entries.reverse.find? (fun p => decide (norm ≥ p.1)) with
        | some p => some p.2
        | none => bc.entries.head?.map (·.2)
      match best_id with
      | none => none
      | some id => c.all_units[id]?

/-- `Converter::convert_to_best`: choose the best unit of the system and
convert to it. -/
def Converter.convert_to_best (c : Converter) (value : ConvertValue)
    (unit : Unit) (system : System) : Except ConvertError (ConvertValue × Unit) :=
  let conversions := match c.best.get unit.physical_quantity with
    | .unified u => u
    | .bySystem metric imperial =>
      match system with
      | .metric => metric
      | .imperial => imperial
  match conversions.best_unit c value unit with
  | none => .error (.bestUnitNotFound unit.physical_quantity unit.system)
  | some best_unit => .ok (c.convert_value value unit best_unit, best_unit)

/-- `Converter::convert2`: dispatch on the conversion target. -/
def Converter.convert2 (c : Converter) (value : ConvertValue) (unit : Unit)
    (tgt : ConvertTo) : Except ConvertError (ConvertValue × Unit) :=
  match tgt with
  | .toUnit target_unit =>
    match c.convert_to_unit value unit target_unit with
    | .ok val => .ok (val, target_unit)
    | .error e => .error e
  | .toKey key =>
    match c.get_unit_key key with
    | none => .error (.unknownUnit key)
    | some target_unit =>
      match c.convert_to_unit value unit target_unit with
      | .ok val => .ok (val, target_unit)
      | .error e => .error e
  | .best system => c.convert_to_best value unit system
  | .sameSystem =>
    c.convert_to_best value unit (unit.system.getD c.default_system)

/-- The `ByServings` loop inside `Converter::convert_`: convert each value,
remembering the last produced unit. -/
def Converter.convertServingsLoop (c : Converter) (unit : Unit) (tgt : ConvertTo) :
    List Value → Except ConvertError (List Value × Option Unit)
  | [] => .ok ([], none)
  | v :: rest =>
    match ConvertValue.ofValue v with
    | .error t => .error (.textValue t)
    | .ok cv =>
      match c.convert2 cv unit tgt with
      | .error e => .error e
      | .ok (value, u) =>
        match c.convertServingsLoop unit tgt rest with
        | .error e => .error e
        | .ok (values, lastu) =>
          .ok (value.toValue :: values, some (Option.getD lastu u))

/-- `Converter::convert_` (the body of `Converter::convert`): parse the
source unit, convert every sub-value, and rebuild the quantity with the
produced unit marked as known.  Rust panics (`expect` on an empty
`ByServings`, `Unit::symbol` with no name) are `panicked` errors. -/
def Converter.convert_ (c : Converter) (q : Quantity) (tgt : ConvertTo) :
    Except ConvertError Quantity :=
  match q.unit with
  | none => .error (.noUnit q)
  | some qu =>
    match qu.unit_info_or_parse c with
    | .unknown => .error (.unknownUnit qu.text)
    | .known u =>
      let conv : Except ConvertError (QuantityValue × Unit) :=
        match q.value with
        | .fixed value =>
          match ConvertValue.ofValue value with
          | .error t => .error (.textValue t)
          | .ok cv =>
            match c.convert2 cv u tgt with
            | .error e => .error e
            | .ok (value, unit) => .ok (.fixed value.toValue, unit)
        | .linear value =>
          match ConvertValue.ofValue value with
          | .error t => .error (.textValue t)
          | .ok cv =>
            match c.convert2 cv u tgt with
            | .error e => .error e
            | .ok (value, unit) => .ok (.linear value.toValue, unit)
        | .byServings values =>
          match c.convertServingsLoop u tgt values with
          | .error e => .error e
          | .ok (_, none) => .error (.panicked "QuantityValue::ByServings empty")
          | .ok (new_values, some unit) => .ok (.byServings new_values, unit)
      match conv with
      | .error e => .error e
      | .ok (value, unit) =>
        match unit.symbolStr with
        | none => .error (.panicked "symbol, name or alias in unit")
        | some text => .ok (Quantity.with_known_unit value text (some unit))

/-- `quantity::QuantityAddError`. -/
inductive QuantityAddError where
  | incompatibleUnits (e : IncompatibleUnits)
  | textValue (v : Value)
  | convert (e : ConvertError)
  | notScaled (v : QuantityValue)
deriving DecidableEq, Repr

/-- `Value::try_add`: numbers add, a number shifts a range, ranges add
pointwise, text is an error. -/
def Value.try_add (self rhs : Value) : Except QuantityAddError Value :=
  match self, rhs with
  | .number a, .number b => .ok (.number (a + b))
  | .number n, .range s e | .range s e, .number n => .ok (.range (s + n) (e + n))
  | .range a b, .range s e => .ok (.range (a + s) (b + e))
  | t@(.text _), _ | _, t@(.text _) => .error (.textValue t)

/-- `QuantityValue::extract_value`: only `Fixed` values can be operated
on; scalable values raise `NotScaled`. -/
def QuantityValue.extract_value (self : QuantityValue) :
    Except QuantityAddError Value :=
  match self with
  | .fixed value => .ok value
  | v => .error (.notScaled v)

/-- `QuantityValue::try_add`. -/
def QuantityValue.try_add (self rhs : QuantityValue) :
    Except QuantityAddError QuantityValue :=
  match self.extract_value with
  | .error e => .error e
  | .ok a =>
    match rhs.extract_value with
    | .error e => .error e
    | .ok b =>
      match a.try_add b with
      | .error e => .error e
      | .ok value => .ok (.fixed value)

/-- `Quantity::try_add`: check unit compatibility, convert the right side
into the common unit when there is one, sum the values, and keep the left
quantity's unit. -/
def Quantity.try_add (self rhs : Quantity) (converter : Converter) :
    Except QuantityAddError Quantity :=
  match self.compatible_unit rhs converter with
  | .error e => .error (.incompatibleUnits e)
  | .ok convert_to =>
    let rhs' : Except QuantityAddError Quantity :=
      match convert_to with
      | some cu =>
        match converter.convert_ rhs (.toUnit cu) with
        | .error e => .error (.convert e)
        | .ok q => .ok q
      | none => .ok rhs
    match rhs' with
    | .error e => .error e
    | .ok rhs' =>
      match self.value.try_add rhs'.value with
      | .error e => .error e
      | .ok value => .ok ⟨value, self.unit⟩


/-! ## Source text fragments (`ast::Text`) -/

/-- One borrowed slice of the source plus its start offset
(`ast::TextFragment`). -/
structure TextFragment where
  text : String
  offset : Nat
deriving DecidableEq, Repr

/-- End offset of a fragment. -/
def TextFragment.stop (f : TextFragment) : Nat := f.offset + f.text.length

/-- A sequence of fragments that may have holes (stripped comments) or
substitutions (escapes), plus the offset the text starts at (`ast::Text`). -/
structure Text where
  offset : Nat
  fragments : List TextFragment
deriving DecidableEq, Repr

/-- `Text::empty`. -/
def Text.empty (offset : Nat) : Text := ⟨offset, []⟩

/-- `Text::span`: from the start offset to the end of the last fragment. -/
def Text.span (t : Text) : Span :=
  match t.fragments.getLast? with
  | none => Span.pos t.offset
  | some f => ⟨t.offset, f.stop⟩

/-- `Text::append_str` (the parser-side two-argument form, appending a
fragment at an explicit offset); empty fragments are skipped. -/
def Text.append_str (t : Text) (s : String) (offset : Nat) : Text :=
  if s = "" then t else ⟨t.offset, t.fragments ++ [⟨s, offset⟩]⟩

/-- `Text::from_str`. -/
def Text.from_str (s : String) (offset : Nat) : Text :=
  (Text.empty offset).append_str s offset

/-- `Text::text`: the joined string. -/
def Text.text (t : Text) : String :=
  String.join (t.fragments.map (·.text))

/-- `Text::text_trimmed`. -/
def Text.text_trimmed (t : Text) : String := strTrim t.text

/-- `Text::is_text_empty`: all fragments trim to nothing. -/
def Text.is_text_empty (t : Text) : Bool :=
  t.fragments.all fun f => strTrim f.text == ""

/-- Modelled from the spec: trailing-whitespace trimming of a fragment
list (`Text::trim_fragments_end`, not present under `src/`): drop
whitespace-only fragments from the end and right-trim the last remaining
fragment. -/
def trimFragsEnd : List TextFragment → List TextFragment
  | [] => []
  | f :: rest =>
    match trimFragsEnd rest with
    | [] =>
      if strTrimRight f.text = "" then []
      else [⟨strTrimRight f.text, f.offset⟩]
    | r => f :: r

/-- Modelled from the spec: leading-whitespace trimming of a fragment list
(`Text::trim_fragments_start`, not present under `src/`): drop
whitespace-only fragments from the front and left-trim the first remaining
fragment, adjusting its offset. -/
def trimFragsStart : List TextFragment → List TextFragment
  | [] => []
  | f :: rest =>
    if strTrimLeft f.text = "" then trimFragsStart rest
    else ⟨strTrimLeft f.text,
      f.offset + (f.text.toList.length - (strTrimLeft f.text).toList.length)⟩ :: rest

/-- `Text::trim_fragments_end` lifted to `Text`. -/
def Text.trim_fragments_end (t : Text) : Text := ⟨t.offset, trimFragsEnd t.fragments⟩

/-- `Text::trim_fragments_start` lifted to `Text`. -/
def Text.trim_fragments_start (t : Text) : Text := ⟨t.offset, trimFragsStart t.fragments⟩

/-! ## AST (`src/ast.rs`, plus the intermediate-reference data used by the
analyzer) -/

/-- `ast::IntermediateTargetKind`. -/
inductive IntermediateTargetKind where
  | step
  | section
deriving DecidableEq, Repr

/-- `ast::IntermediateRefMode`. -/
inductive IntermediateRefMode where
  | index
  | relative
deriving DecidableEq, Repr

/-- `ast::IntermediateData`. -/
structure IntermediateData where
  target_kind : IntermediateTargetKind
  ref_mode : IntermediateRefMode
  val : Int
deriving DecidableEq, Repr

/-- `ast::QuantityValue`: a single value with an optional auto-scale
marker, or multiple `|`-separated values. -/
inductive AstQuantityValue where
  | single (value : Located Value) (auto_scale : Option Span)
  | many (values : List (Located Value))
deriving DecidableEq, Repr

/-- `ast::QuantityValue::span` (the Rust code asserts `Many` non-empty;
an empty `Many` gets a dummy empty span here). -/
def AstQuantityValue.span : AstQuantityValue → Span
  | .single value auto_scale =>
    match auto_scale with
    | some marker => ⟨value.span.start, marker.stop⟩
    | none => value.span
  | .many v =>
    match v.head?, v.getLast? with
    | some f, some l => ⟨f.span.start, l.span.stop⟩
    | _, _ => Span.pos 0

/-- `ast::Quantity`. -/
structure AstQuantity where
  value : AstQuantityValue
  unit : Option Text
deriving DecidableEq, Repr

/-- `ast::Ingredient` (with the analyzer's intermediate-reference data;
the parser always produces `none` there). -/
structure AstIngredient where
  modifiers : Located Modifiers
  name : Text
  alias' : Option Text
  quantity : Option (Located AstQuantity)
  note : Option Text
  intermediate_data : Option (Located IntermediateData)
deriving DecidableEq, Repr

/-- `ast::Cookware`. -/
structure AstCookware where
  modifiers : Located Modifiers
  name : Text
  alias' : Option Text
  quantity : Option (Located AstQuantityValue)
  note : Option Text
deriving DecidableEq, Repr

/-- `ast::Timer`. -/
structure AstTimer where
  name : Option Text
  quantity : Option (Located AstQuantity)
deriving DecidableEq, Repr

/-- `ast::Component`. -/
inductive AstComponent where
  | ingredient (i : AstIngredient)
  | cookware (c : AstCookware)
  | timer (t : AstTimer)
deriving DecidableEq, Repr

/-- `ast::Item`. -/
inductive AstItem where
  | text (t : Text)
  | component (c : Located AstComponent)
deriving DecidableEq, Repr

/-- `ast::Item::span`. -/
def AstItem.span : AstItem → Span
  | .text t => t.span
  | .component c => c.span

/-- `ast::Line` (`section'` is the `Section` variant). -/
inductive Line where
  | metadata (key value : Text)
  | step (is_text : Bool) (items : List AstItem)
  | section' (name : Option Text)
deriving DecidableEq, Repr

/-- `QuantityValue::from_ast`: `Single` without marker is `Fixed`, with
marker `Linear`, `Many` is `ByServings`. -/
def QuantityValue.from_ast : AstQuantityValue → QuantityValue
  | .single value none => .fixed value.val
  | .single value (some _) => .linear value.val
  | .many v => .byServings (v.map (·.val))

/-! ## Recipe model (`src/model.rs` is not under `src/`; these shapes are
modelled from the spec data model and the walker's uses) -/

/-- `model::ComponentKind`. -/
inductive ComponentKind where
  | ingredientKind
  | cookwareKind
  | timerKind
deriving DecidableEq, Repr

/-- `model::Item`: a resolved step item. -/
inductive Item where
  | text (value : String)
  | inlineQuantity (index : Nat)
  | itemComponent (kind : ComponentKind) (index : Nat)
deriving DecidableEq, Repr

/-- `model::Step`: resolved items plus the step number (absent for
text-only steps). -/
structure Step where
  items : List Item
  number : Option Nat
deriving DecidableEq, Repr

/-- Modelled from the spec: `Step::is_text` — a step is a text step when
it has no number. -/
def Step.is_text (s : Step) : Bool := s.number.isNone

/-- `model::Section`. -/
structure Section where
  name : Option String
  steps : List Step
deriving DecidableEq, Repr

/-- `Section::new`. -/
def Section.new (name : Option String) : Section := ⟨name, []⟩

/-- Modelled from the spec: `Section::is_empty` — no name and no steps
(empty sections are skipped when flushing). -/
def Section.is_empty (s : Section) : Bool := s.name.isNone && s.steps.isEmpty

/-- `model::IngredientReferenceTarget`. -/
inductive IngredientReferenceTarget where
  | ingredientTarget
  | stepTarget
  | sectionTarget
deriving DecidableEq, Repr

/-- `model::IngredientRelation`. -/
inductive IngredientRelation where
  | definition (referenced_from : List Nat)
  | reference (references_to : Nat) (target_kind : IngredientReferenceTarget)
deriving DecidableEq, Repr

/-- `IngredientRelation::definition`. -/
def IngredientRelation.mkDefinition (referenced_from : List Nat) :
    IngredientRelation := .definition referenced_from

/-- Modelled from the spec: `IngredientRelation::referenced_from` — the
back-link list of a definition (`none` for a reference). -/
def IngredientRelation.referencedFrom : IngredientRelation → Option (List Nat)
  | .definition referenced_from => some referenced_from
  | .reference _ _ => none

/-- `model::ComponentRelation` (for cookware). -/
inductive ComponentRelation where
  | definition (referenced_from : List Nat)
  | reference (references_to : Nat)
deriving DecidableEq, Repr

/-- `model::Ingredient`. -/
structure Ingredient where
  name : String
  alias' : Option String
  quantity : Option Quantity
  note : Option String
  modifiers : Modifiers
  relation : IngredientRelation
  defined_in_step : Bool
deriving DecidableEq, Repr

/-- `model::Cookware`. -/
structure Cookware where
  name : String
  alias' : Option String
  quantity : Option QuantityValue
  note : Option String
  modifiers : Modifiers
  relation : ComponentRelation
deriving DecidableEq, Repr

/-- `model::Timer`. -/
structure Timer where
  name : Option String
  quantity : Option Quantity
deriving DecidableEq, Repr

/-- Modelled from the spec: recipe metadata (`src/metadata.rs` is not
under `src/`) — the structured `servings` count plus the plain key/value
map. -/
structure Metadata where
  servings : Option (List Nat)
  map : List (String × String)
deriving DecidableEq, Repr

/-- Modelled from the spec: `Metadata::insert` — non-special keys are
stored as plain key/value pairs; the conventional key `servings` must
validate as a `|`-separated list of positive integers (stored as the
structured servings count).  The returned flag is `false` when
validation fails, which makes the walker warn. -/
def Metadata.insert (m : Metadata) (key value : String) : Metadata × Bool :=
  if key == "servings" then
    let parts := (strSplit value '|').map fun s => strToNat? (strTrim s)
    if parts.all (fun p => match p with | some n => decide (0 < n) | none => false) then
      ({ m with servings := some (parts.map (fun p => p.getD 0)),
                map := m.map ++ [(key, value)] }, true)
    else
      (m, false)
  else
    ({ m with map := m.map ++ [(key, value)] }, true)

/-- `analysis::RecipeContent`. -/
structure RecipeContent where
  metadata : Metadata
  sections : List Section
  ingredients : List Ingredient
  cookware : List Cookware
  timers : List Timer
  inline_quantities : List Quantity
deriving DecidableEq, Repr

/-- The empty recipe content (`Default`). -/
def RecipeContent.default : RecipeContent := ⟨⟨none, []⟩, [], [], [], [], []⟩

/-! ## Analyzer diagnostics (`src/analysis/mod.rs`) -/

/-- `analysis::AnalysisError` (payloads slimmed to the data the claims
depend on: spans, names and flags). -/
inductive AnalysisError where
  | invalidSpecialMetadataValue (key value : String) (possible_values : List String)
  | referenceNotFound (name : String) (reference_span : Span)
  | conflictingReferenceQuantities (ingredient_name : String)
      (definition_span reference_span : Span)
  | unknownTimerUnit (unit : String) (timer_span : Span)
  | badTimerUnit (unit : Unit) (timer_span : Span)
  | scalableValueManyConflict (reason : String) (value_span : Span)
      (servings_meta_span : Option Span)
  | scaleTextValue (value_span : Span) (auto_scale_marker : Span)
  | conflictingModifiersInReference (modifiers : Located Modifiers)
      (conflict : Modifiers) (implicit : Bool)
  | componentPartNotAllowedInReference (container what : String)
      (to_remove : Span) (implicit : Bool)
  | invalidIntermediateReference (reference_span : Span) (reason : String)
deriving DecidableEq, Repr

/-- `analysis::AnalysisWarning`. -/
inductive AnalysisWarning where
  | unknownSpecialMetadataKey (key : String)
  | textDefiningIngredients (text_span : Span)
  | textValueInReference (quantity_span : Span)
  | incompatibleUnits (a b : Span) (source : IncompatibleUnits)
  | invalidMetadataValue (key value : String)
  | componentInTextMode (component_span : Span)
  | temperatureRegexCompile
  | redundantAutoScaleMarker (quantity_span : Span)
  | redundantReferenceModifier (modifiers : Located Modifiers)
  | recipeNotFound (ref_span : Span) (name : String)
deriving DecidableEq, Repr

/-! ## The AST walker (`src/analysis/ast_walker.rs`) -/

/-- `ast_walker::DefineMode`. -/
inductive DefineMode where
  | all
  | components
  | steps
  | text
deriving DecidableEq, Repr

/-- `ast_walker::DuplicateMode`. -/
inductive DuplicateMode where
  | new
  | reference
deriving DecidableEq, Repr

/-- The walker state (`ast_walker::Walker`).  The compiled temperature
regex is modelled by the optional matcher `temp_find`, which plays the
role of `find_temperature` partially applied to the regex. -/
structure WalkerSt where
  extensions : Extensions
  temp_find : Option (String → Option (String × Quantity × String))
  converter : Converter
  recipe_ref_checker : Option (String → Bool)
  content : RecipeContent
  current_section : Section
  define_mode : DefineMode
  duplicate_mode : DuplicateMode
  auto_scale_ingredients : Bool
  errors : List AnalysisError
  warnings : List AnalysisWarning
  ingredient_locations : List (Located AstIngredient)
  metadata_locations : List (String × (Text × Text))
  step_counter : Nat

/-- `Context::error`. -/
def WalkerSt.error (st : WalkerSt) (e : AnalysisError) : WalkerSt :=
  { st with errors := st.errors ++ [e] }

/-- `Context::warn`. -/
def WalkerSt.warn (st : WalkerSt) (w : AnalysisWarning) : WalkerSt :=
  { st with warnings := st.warnings ++ [w] }

/-- The walker's initial state (built in `parse_ast`). -/
def initWalker (extensions : Extensions) (converter : Converter)
    (temp_find : Option (String → Option (String × Quantity × String)))
    (recipe_ref_checker : Option (String → Bool)) : WalkerSt :=
  { extensions := extensions
    temp_find := if extensions.temperature then temp_find else none
    converter := converter
    recipe_ref_checker := recipe_ref_checker
    content := RecipeContent.default
    current_section := Section.new none
    define_mode := .all
    duplicate_mode := .new
    auto_scale_ingredients := false
    errors := []
    warnings := []
    ingredient_locations := []
    metadata_locations := []
    step_counter := 1 }

namespace Walker

/-- `Walker::metadata`: record the entry location, interpret bracketed
special keys when `MODES` is on, otherwise insert as plain metadata. -/
def metadata (st : WalkerSt) (key value : Text) : WalkerSt :=
  let key_t := key.text_trimmed
  let value_t := value.text_trimmed
  let st := { st with
    metadata_locations := (key_t, (key, value)) :: st.metadata_locations }
  if st.extensions.modes && strStartsWith key_t "[" && strEndsWith key_t "]" then
    let special_key := strDropRight (strDrop key_t 1) 1
    if special_key == "define" || special_key == "mode" then
      if value_t == "all" || value_t == "default" then
        { st with define_mode := .all }
      else if value_t == "components" || value_t == "ingredients" then
        { st with define_mode := .components }
      else if value_t == "steps" then
        { st with define_mode := .steps }
      else if value_t == "text" then
        { st with define_mode := .text }
      else
        st.error (.invalidSpecialMetadataValue key_t value_t
          ["all", "components", "steps", "text"])
    else if special_key == "duplicate" then
      if value_t == "new" || value_t == "default" then
        { st with duplicate_mode := .new }
      else if value_t == "reference" || value_t == "ref" then
        { st with duplicate_mode := .reference }
      else
        st.error (.invalidSpecialMetadataValue key_t value_t ["new", "reference"])
    else if special_key == "auto scale" || special_key == "auto_scale" then
      if value_t == "true" then
        { st with auto_scale_ingredients := true }
      else if value_t == "false" || value_t == "default" then
        { st with auto_scale_ingredients := false }
      else
        st.error (.invalidSpecialMetadataValue key_t value_t ["true", "false"])
    else
      st.warn (.unknownSpecialMetadataKey key_t)
  else
    match st.content.metadata.insert key_t value_t with
    | (m, true) => { st with content := { st.content with metadata := m } }
    | (m, false) =>
      ({ st with content := { st.content with metadata := m } }).warn
        (.invalidMetadataValue key_t value_t)

/-- `Walker::value`: lower an AST quantity value, emitting the
`ScaleTextValue` / `ScalableValueManyConflict` errors and applying the
`auto scale` metadata flag to ingredient values. -/
def value (st : WalkerSt) (value : AstQuantityValue) (is_ingredient : Bool) :
    WalkerSt × QuantityValue :=
  let st := match value with
    | .single v (some auto_scale_marker) =>
      st.error (.scaleTextValue v.span auto_scale_marker)
    | .many v =>
      match st.content.metadata.servings with
      | some s =>
        let servings_meta_span :=
          (st.metadata_locations.find? fun p => p.1 == "servings").map
            fun p => p.2.2.span
        if s.length ≠ v.length then
          st.error (.scalableValueManyConflict
            (toString s.length ++ " servings defined but " ++
              toString v.length ++ " values in the quantity")
            (AstQuantityValue.many v).span servings_meta_span)
        else st
      | none =>
        st.error (.scalableValueManyConflict
          ("no servings defined but " ++ toString v.length ++ " values in quantity")
          (AstQuantityValue.many v).span none)
    | _ => st
  let value_span := value.span
  let v := QuantityValue.from_ast value
  if is_ingredient && st.auto_scale_ingredients then
    match v with
    | .fixed value =>
      if !value.is_text then (st, .linear value) else (st, v)
    | .linear _ =>
      (st.warn (.redundantAutoScaleMarker ⟨value_span.stop, value_span.stop + 1⟩), v)
    | _ => (st, v)
  else
    (st, v)

/-- `Walker::quantity`. -/
def quantity (st : WalkerSt) (q : Located AstQuantity) (is_ingredient : Bool) :
    WalkerSt × Quantity :=
  let (st, v) := value st q.val.value is_ingredient
  (st, Quantity.new v (q.val.unit.map (·.text_trimmed)))

/-- `Walker::resolve_intermediate_ref`.  The Rust `assert!` on a negative
value is a panic (`Except.error`); recoverable failures are the inner
`Except AnalysisError`. -/
def resolve_intermediate_ref (st : WalkerSt) (inter_data : Located IntermediateData) :
    Except String (Except AnalysisError IngredientRelation) :=
  if inter_data.val.val < 0 then
    .error "negative intermediate reference value"
  else
    let v := inter_data.val.val.toNat
    if v == 0 && inter_data.val.ref_mode == .relative then
      .ok (.error (.invalidIntermediateReference inter_data.span
        "relative reference not positive"))
    else
      match inter_data.val.target_kind, inter_data.val.ref_mode with
      | .step, .index =>
        if v ≥ st.current_section.steps.length then
          .ok (.error (.invalidIntermediateReference inter_data.span
            "step index out of bounds"))
        else
          .ok (.ok (.reference v .stepTarget))
      | .step, .relative =>
        let index :=
          (((st.current_section.steps.enum.reverse.filter
            fun p => !p.2.is_text).drop (v - 1)).head?).map (·.1)
        match index with
        | some index => .ok (.ok (.reference index .stepTarget))
        | none =>
          .ok (.error (.invalidIntermediateReference inter_data.span
            "relative step index out of bounds"))
      | .section, .index =>
        if v ≥ st.content.sections.length then
          .ok (.error (.invalidIntermediateReference inter_data.span
            "section index out of bounds"))
        else
          .ok (.ok (.reference v .sectionTarget))
      | .section, .relative =>
        if v > st.content.sections.length then
          .ok (.error (.invalidIntermediateReference inter_data.span
            "relative section index out of bounds"))
        else
          .ok (.ok (.reference (st.content.sections.length - v) .sectionTarget))

end Walker

/-- The `RefComponent` trait: uniform access to modifiers, name and the
reference setter of ingredients and cookware. -/
structure RefOps (C : Type) where
  modifiers : C → Modifiers
  setModifiers : C → Modifiers → C
  name : C → String
  inherit_modifiers : Modifiers
  set_reference : C → Nat → C

/-- Index of the last element satisfying a predicate
(`Iterator::rposition`). -/
def rposition {α : Type} (p : α → Bool) : List α → Option Nat
  | [] => none
  | x :: xs =>
    match rposition p xs with
    | some i => some (i + 1)
    | none => if p x then some 0 else none

namespace Walker

/-- `Walker::resolve_reference`, generic over the component kind via
`RefOps`.  Returns the (possibly modified) new component, the optional
`(target index, implicit)` pair, and the emitted diagnostics. -/
def resolve_reference {C : Type} (ops : RefOps C) (all : List C)
    (define_mode : DefineMode) (duplicate_mode : DuplicateMode)
    (new : C) (location modifiers_location : Span) :
    C × Option (Nat × Bool) × List AnalysisError × List AnalysisWarning :=
  let new_name := strToLower (ops.name new)
  let same_name := rposition (fun other =>
    !(ops.modifiers other).ref && new_name == strToLower (ops.name other)) all
  let warns :=
    if (duplicate_mode == .reference || define_mode == .steps)
        && (ops.modifiers new).ref && !(ops.modifiers new).new then
      [AnalysisWarning.redundantReferenceModifier
        ⟨ops.modifiers new, modifiers_location⟩]
    else []
  if (ops.modifiers new).contains (Modifiers.NEW.union Modifiers.REF) then
    (new, none,
      [.conflictingModifiersInReference ⟨ops.modifiers new, modifiers_location⟩
        (ops.modifiers new) false], warns)
  else
    let treat_as_reference := !(ops.modifiers new).new
      && ((ops.modifiers new).ref || define_mode == .steps
          || (same_name.isSome && duplicate_mode == .reference))
    if treat_as_reference then
      match same_name with
      | some references_to =>
        match all[references_to]? with
        | none => (new, none, [], warns)
        | some referenced =>
          let inherited := (ops.modifiers referenced).inter ops.inherit_modifiers
          let conflict :=
            (((ops.modifiers new).diff inherited).diff Modifiers.REF).union
              ((ops.modifiers new).inter Modifiers.NEW)
          let new := ops.setModifiers new ((ops.modifiers new).union inherited)
          let implicit := !(ops.modifiers new).ref
          let new := ops.setModifiers new ((ops.modifiers new).union Modifiers.REF)
          let new := ops.set_reference new references_to
          let errs :=
            if !conflict.isEmpty then
              [AnalysisError.conflictingModifiersInReference
                ⟨ops.modifiers new, modifiers_location⟩ conflict implicit]
            else []
          (new, some (references_to, implicit), errs, warns)
      | none =>
        (new, none, [.referenceNotFound (ops.name new) location], warns)
    else
      (new, none, [], warns)

end Walker

/-- The message of the invariant panic in `set_referenced_from`. -/
def referenceToReferencePanic : String := "Reference to reference"

/-- `<Ingredient as RefComponent>::set_referenced_from`: push the
back-link onto the target definition; panics (`Except.error`) when the
target is itself a reference. -/
def Ingredient.set_referenced_from (all : List Ingredient) (references_to : Nat) :
    Except String (List Ingredient) :=
  let new_index := all.length
  match all[references_to]? with
  | none => .error "index out of bounds"
  | some igr =>
    match igr.relation with
    | .definition referenced_from =>
      .ok (all.set references_to
        { igr with relation := .definition (referenced_from ++ [new_index]) })
    | .reference _ _ => .error referenceToReferencePanic

/-- `<Cookware as RefComponent>::set_referenced_from`. -/
def Cookware.set_referenced_from (all : List Cookware) (references_to : Nat) :
    Except String (List Cookware) :=
  let new_index := all.length
  match all[references_to]? with
  | none => .error "index out of bounds"
  | some cw =>
    match cw.relation with
    | .definition referenced_from =>
      .ok (all.set references_to
        { cw with relation := .definition (referenced_from ++ [new_index]) })
    | .reference _ => .error referenceToReferencePanic

/-- `RefOps` for ingredients (inherits `HIDDEN | OPT | RECIPE`). -/
def ingredientOps : RefOps Ingredient :=
  { modifiers := Ingredient.modifiers
    setModifiers := fun i m => { i with modifiers := m }
    name := Ingredient.name
    inherit_modifiers := (Modifiers.HIDDEN.union Modifiers.OPT).union Modifiers.RECIPE
    set_reference := fun i k =>
      { i with relation := .reference k .ingredientTarget } }

/-- `RefOps` for cookware (inherits `HIDDEN | OPT`). -/
def cookwareOps : RefOps Cookware :=
  { modifiers := Cookware.modifiers
    setModifiers := fun c m => { c with modifiers := m }
    name := Cookware.name
    inherit_modifiers := Modifiers.HIDDEN.union Modifiers.OPT
    set_reference := fun c k => { c with relation := .reference k } }

/-- Span of a located AST quantity's unit, or of the whole quantity when
it has no unit (used for the incompatible-units warning). -/
def quantityUnitSpan (q : Located AstQuantity) : Span :=
  match q.val.unit with
  | some t => t.span
  | none => q.span

namespace Walker

/-- Tail of `Walker::ingredient`: the `RECIPE`-without-`REF` existence
check, then pushing the location and the ingredient. -/
def pushIngredient (st : WalkerSt) (located_ingredient : Located AstIngredient)
    (new_igr : Ingredient) (location : Span) : WalkerSt × Nat :=
  let st :=
    if new_igr.modifiers.recipe && !new_igr.modifiers.ref then
      match st.recipe_ref_checker with
      | some checker =>
        if !(checker new_igr.name) then
          st.warn (.recipeNotFound location new_igr.name)
        else st
      | none => st
    else st
  let st := { st with
    ingredient_locations := st.ingredient_locations ++ [located_ingredient]
    content := { st.content with
      ingredients := st.content.ingredients ++ [new_igr] } }
  (st, st.content.ingredients.length - 1)

/-- The unit-compatibility warning pass over the existing quantities of a
referenced ingredient (the body of the `for` loop in `Walker::ingredient`
under `ADVANCED_UNITS`). -/
def incompatWarnStep (igr : AstIngredient) (location : Span)
    (new_quantity : Quantity) (st : WalkerSt) (p : Nat × Quantity) : WalkerSt :=
  match p.2.compatible_unit new_quantity st.converter with
  | .error e =>
    let a :=
      match st.ingredient_locations[p.1]? with
      | some li =>
        match li.val.quantity with
        | some q => quantityUnitSpan q
        | none => li.span
      | none => Span.pos 0
    let b :=
      match igr.quantity with
      | some q => quantityUnitSpan q
      | none => location
    st.warn (.incompatibleUnits a b e)
  | .ok _ => st

/-- `Walker::ingredient`: materialize the model ingredient, resolve
intermediate references or same-name references, run the per-reference
checks, and push. -/
def ingredient (st : WalkerSt) (located_ingredient : Located AstIngredient) :
    Except String (WalkerSt × Nat) :=
  let location := located_ingredient.span
  let igr := located_ingredient.val
  let name := igr.name.text_trimmed
  let (st, quantity) := match igr.quantity with
    | some q =>
      let (st, q') := Walker.quantity st q true
      (st, some q')
    | none => (st, none)
  let new_igr : Ingredient :=
    { name := name
      alias' := igr.alias'.map (·.text_trimmed)
      quantity := quantity
      note := igr.note.map (·.text_trimmed)
      modifiers := igr.modifiers.val
      relation := .definition []
      defined_in_step := st.define_mode != .components }
  match igr.intermediate_data with
  | some inter_data =>
    match resolve_intermediate_ref st inter_data with
    | .error msg => .error msg
    | .ok (.ok relation) =>
      let new_igr := { new_igr with relation := relation }
      if !new_igr.modifiers.contains Modifiers.REF then
        .error "intermediate reference without REF modifier"
      else
        let invalid_modifiers :=
          (Modifiers.RECIPE.union Modifiers.HIDDEN).union Modifiers.NEW
        let st :=
          if new_igr.modifiers.intersects invalid_modifiers then
            st.error (.invalidIntermediateReference igr.modifiers.span
              "Invalid combination of modifiers")
          else st
        .ok (pushIngredient st located_ingredient new_igr location)
    | .ok (.error e) =>
      .ok (pushIngredient (st.error e) located_ingredient new_igr location)
  | none =>
    let (new_igr, res, errs, warns) :=
      resolve_reference ingredientOps st.content.ingredients st.define_mode
        st.duplicate_mode new_igr location igr.modifiers.span
    let st := { st with errors := st.errors ++ errs,
                        warnings := st.warnings ++ warns }
    match res with
    | none => .ok (pushIngredient st located_ingredient new_igr location)
    | some (references_to, implicit) =>
      match st.content.ingredients[references_to]? with
      | none => .error "index out of bounds"
      | some referenced =>
        let st :=
          if referenced.quantity.isSome && new_igr.quantity.isSome
              && !referenced.defined_in_step then
            let definition_span :=
              ((st.ingredient_locations[references_to]?).map (·.span)).getD
                (Span.pos 0)
            st.error (.conflictingReferenceQuantities new_igr.name
              definition_span location)
          else st
        let st :=
          if st.extensions.advanced_units then
            match new_igr.quantity with
            | some new_quantity =>
              let all_quantities :=
                (references_to :: (referenced.relation.referencedFrom.getD [])).filterMap
                  fun index =>
                    (st.content.ingredients[index]?).bind fun i =>
                      i.quantity.map fun q => (index, q)
              all_quantities.foldl (incompatWarnStep igr location new_quantity) st
            | none => st
          else st
        let st :=
          match igr.note with
          | some note =>
            st.error (.componentPartNotAllowedInReference "ingredient" "note"
              note.span implicit)
          | none => st
        let st :=
          match new_igr.quantity with
          | some quantity =>
            if quantity.value.contains_text_value then
              let qspan := match igr.quantity with
                | some q => q.span
                | none => Span.pos 0
              st.warn (.textValueInReference qspan)
            else st
          | none => st
        match Ingredient.set_referenced_from st.content.ingredients references_to with
        | .error msg => .error msg
        | .ok ingredients =>
          let st := { st with content :=
            { st.content with ingredients := ingredients } }
          .ok (pushIngredient st located_ingredient new_igr location)

/-- Tail of `Walker::cookware`: push the cookware. -/
def pushCookware (st : WalkerSt) (new_cw : Cookware) : WalkerSt × Nat :=
  let st := { st with content :=
    { st.content with cookware := st.content.cookware ++ [new_cw] } }
  (st, st.content.cookware.length - 1)

/-- `Walker::cookware`. -/
def cookware (st : WalkerSt) (located_cookware : Located AstCookware) :
    Except String (WalkerSt × Nat) :=
  let location := located_cookware.span
  let cw := located_cookware.val
  let (st, quantity) := match cw.quantity with
    | some q =>
      let (st, v) := Walker.value st q.val false
      (st, some v)
    | none => (st, none)
  let new_cw : Cookware :=
    { name := cw.name.text_trimmed
      alias' := cw.alias'.map (·.text_trimmed)
      quantity := quantity
      note := cw.note.map (·.text_trimmed)
      modifiers := cw.modifiers.val
      relation := .definition [] }
  let (new_cw, res, errs, warns) :=
    resolve_reference cookwareOps st.content.cookware st.define_mode
      st.duplicate_mode new_cw location cw.modifiers.span
  let st := { st with errors := st.errors ++ errs,
                      warnings := st.warnings ++ warns }
  match res with
  | none => .ok (pushCookware st new_cw)
  | some (references_to, implicit) =>
    let st :=
      match cw.note with
      | some note =>
        st.error (.componentPartNotAllowedInReference "cookware" "note"
          note.span implicit)
      | none => st
    let st :=
      match cw.quantity with
      | some q =>
        st.error (.componentPartNotAllowedInReference "cookware" "quantity"
          q.span implicit)
      | none => st
    match Cookware.set_referenced_from st.content.cookware references_to with
    | .error msg => .error msg
    | .ok cws =>
      let st := { st with content := { st.content with cookware := cws } }
      .ok (pushCookware st new_cw)

/-- `Walker::timer`: lower the quantity, validating the unit when
`ADVANCED_UNITS` is on, and push. -/
def timer (st : WalkerSt) (located_timer : Located AstTimer) : WalkerSt × Nat :=
  let span := located_timer.span
  let t := located_timer.val
  let (st, quantity) := match t.quantity with
    | some q =>
      let (st, quantity) := Walker.quantity st q false
      let st :=
        if st.extensions.advanced_units then
          match quantity.unit with
          | some unit =>
            match unit.unit_info_or_parse st.converter with
            | .known u =>
              if u.physical_quantity ≠ PhysicalQuantity.time then
                let timer_span :=
                  match t.quantity with
                  | some lq =>
                    match lq.val.unit with
                    | some ut => ut.span
                    | none => span
                  | none => span
                st.error (.badTimerUnit u timer_span)
              else st
            | .unknown => st.error (.unknownTimerUnit unit.text span)
          | none => st
        else st
      (st, some quantity)
    | none => (st, none)
  let new_timer : Timer := { name := t.name.map (·.text_trimmed), quantity := quantity }
  let st := { st with content :=
    { st.content with timers := st.content.timers ++ [new_timer] } }
  (st, st.content.timers.length - 1)

/-- `Walker::component`: dispatch on the component kind. -/
def component (st : WalkerSt) (c : Located AstComponent) :
    Except String (WalkerSt × ComponentKind × Nat) :=
  match c.val with
  | .ingredient i =>
    match ingredient st ⟨i, c.span⟩ with
    | .error m => .error m
    | .ok (st, index) => .ok (st, .ingredientKind, index)
  | .cookware cw =>
    match cookware st ⟨cw, c.span⟩ with
    | .error m => .error m
    | .ok (st, index) => .ok (st, .cookwareKind, index)
  | .timer t =>
    let (st, index) := timer st ⟨t, c.span⟩
    .ok (st, .timerKind, index)

/-- One iteration of the item loop in `Walker::step`. -/
def walkOneItem (st : WalkerSt) (is_text : Bool) (item : AstItem) :
    Except String (WalkerSt × List Item) :=
  match item with
  | .text text =>
    let t := text.text
    if st.define_mode == .components then
      if t.toList.any (fun c => c.isAlphanum) then
        .ok (st.warn (.textDefiningIngredients text.span), [])
      else
        .ok (st, [])
    else
      match st.temp_find with
      | some f =>
        match f t with
        | some (before, temperature, after) =>
          let items₁ := if before ≠ "" then [Item.text before] else []
          let idx := st.content.inline_quantities.length
          let st := { st with content := { st.content with
            inline_quantities := st.content.inline_quantities ++ [temperature] } }
          let items₃ := if after ≠ "" then [Item.text after] else []
          .ok (st, items₁ ++ [Item.inlineQuantity idx] ++ items₃)
        | none => .ok (st, [Item.text t])
      | none => .ok (st, [Item.text t])
  | .component c =>
    if is_text then
      .ok (st.warn (.componentInTextMode c.span), [])
    else
      match component st c with
      | .error m => .error m
      | .ok (st, kind, index) => .ok (st, [Item.itemComponent kind index])

/-- The item loop of `Walker::step`. -/
def walkItems (st : WalkerSt) (is_text : Bool) :
    List AstItem → Except String (WalkerSt × List Item)
  | [] => .ok (st, [])
  | item :: rest =>
    match walkOneItem st is_text item with
    | .error m => .error m
    | .ok (st, new) =>
      match walkItems st is_text rest with
      | .error m => .error m
      | .ok (st, tail) => .ok (st, new ++ tail)

/-- `Walker::step`: effective text mode, item processing, and the step
number (`None` for text steps). -/
def step (st : WalkerSt) (is_text : Bool) (items : List AstItem) :
    Except String (WalkerSt × Step) :=
  let is_text := is_text || st.define_mode == .text
  match walkItems st is_text items with
  | .error m => .error m
  | .ok (st, new_items) =>
    let number := if !is_text then some st.step_counter else none
    .ok (st, { items := new_items, number := number })

/-- One iteration of the line loop in `Walker::ast`: steps are dropped in
components define mode, the step counter advances only for non-text AST
steps, and section lines flush the current section. -/
def walkLine (st : WalkerSt) (line : Line) : Except String WalkerSt :=
  match line with
  | .metadata key value => .ok (metadata st key value)
  | .step is_text items =>
    match step st is_text items with
    | .error m => .error m
    | .ok (st, new_step) =>
      if st.define_mode != .components then
        let st := if !is_text then { st with step_counter := st.step_counter + 1 }
          else st
        .ok { st with current_section :=
          { st.current_section with steps := st.current_section.steps ++ [new_step] } }
      else
        .ok st
  | .section' name =>
    let st := { st with step_counter := 1 }
    let st :=
      if !st.current_section.is_empty then
        { st with content := { st.content with
          sections := st.content.sections ++ [st.current_section] } }
      else st
    .ok { st with current_section := Section.new (name.map (·.text_trimmed)) }

/-- The line loop of `Walker::ast`. -/
def walkLines (st : WalkerSt) : List Line → Except String WalkerSt
  | [] => .ok st
  | l :: ls =>
    match walkLine st l with
    | .error m => .error m
    | .ok st' => walkLines st' ls

/-- The final flush of `Walker::ast`. -/
def finishContent (st : WalkerSt) : WalkerSt :=
  if !st.current_section.is_empty then
    { st with content := { st.content with
      sections := st.content.sections ++ [st.current_section] } }
  else st

/-- `Walker::ast`: walk all lines and flush the last section. -/
def ast (st : WalkerSt) (lines : List Line) : Except String WalkerSt :=
  match walkLines st lines with
  | .error m => .error m
  | .ok st => .ok (finishContent st)

end Walker

/-- `analysis::parse_ast`: run the walker from its initial state and apply
the context `finish` (the content is yielded only when no errors were
recorded). -/
def parse_ast (lines : List Line) (extensions : Extensions)
    (converter : Converter)
    (temp_find : Option (String → Option (String × Quantity × String)))
    (recipe_ref_checker : Option (String → Bool)) :
    Except String (Option RecipeContent × List AnalysisError × List AnalysisWarning) :=
  match Walker.ast (initWalker extensions converter temp_find recipe_ref_checker) lines with
  | .error m => .error m
  | .ok st =>
    .ok (if st.errors.isEmpty then some st.content else none, st.errors, st.warnings)


/-! ## Parser (`src/parser/mod.rs`, `src/parser/step.rs`) -/

/-- The lexed token kinds the parser dispatches on (`lexer::TokenKind`,
named after their sigils). -/
inductive TokenKind where
  | word
  | ws
  | lineComment
  | blockComment
  | newline
  | eofTok
  | metaMark
  | gtMark
  | eqMark
  | atMark
  | hashMark
  | tildeMark
  | ampMark
  | questionMark
  | plusMark
  | minusMark
  | starMark
  | percentMark
  | slashMark
  | orMark
  | openBrace
  | closeBrace
  | openParen
  | closeParen
  | intTok
  | floatTok
  | escaped
  | colon
deriving DecidableEq, Repr

/-- A lexed token: kind plus source span. -/
structure Token where
  kind : TokenKind
  span : Span
deriving DecidableEq, Repr

/-- Character-offset slice of the input (`&input[a..b]`). -/
def strSlice (s : String) (a b : Nat) : String :=
  ((s.toList.drop a).take (b - a)).asString

/-- `tokens_span`: span of a token slice (the Rust code asserts
non-emptiness; an empty slice gets a dummy span). -/
def tokens_span (tokens : List Token) : Span :=
  match tokens.head?, tokens.getLast? with
  | some f, some l => ⟨f.span.start, l.span.stop⟩
  | _, _ => Span.pos 0

/-- `parser::ParserError` (payloads slimmed to spans, names and reasons;
includes the `ExtensionNotEnabled` variant used by `step.rs`). -/
inductive ParserError where
  | componentPartMissing (container what : String) (expected_pos : Span)
  | componentPartNotAllowed (container what : String) (to_remove : Span)
  | componentPartInvalid (container what reason : String)
  | duplicateModifiers (modifiers_span : Span) (dup : String)
  | parseIntError (bad_bit : Span)
  | parseFloatError (bad_bit : Span)
  | divisionByZero (bad_bit : Span)
  | quantityScalingConflict (bad_bit : Span)
  | extensionNotEnabled (span : Span) (extension_name : String)
deriving DecidableEq, Repr

/-- `parser::ParserWarning`. -/
inductive ParserWarning where
  | emptyMetadataValue (key : String)
  | componentPartIgnored (container what : String) (ignored : Span)
deriving DecidableEq, Repr

/-- `parser::LineParser`: a slice of tokens of one line, the cursor, the
whole input, the diagnostics context and the enabled extensions. -/
structure LineParser where
  base_offset : Nat
  tokens : List Token
  current : Nat
  input : String
  errors : List ParserError
  warnings : List ParserWarning
  extensions : Extensions
deriving DecidableEq, Repr

/-- `LineParser::new`. -/
def LineParser.new (base_offset : Nat) (tokens : List Token) (input : String)
    (extensions : Extensions) : LineParser :=
  ⟨base_offset, tokens, 0, input, [], [], extensions⟩

/-- `LineParser::parsed`. -/
def LineParser.parsed (lp : LineParser) : List Token := lp.tokens.take lp.current

/-- `LineParser::rest`. -/
def LineParser.rest (lp : LineParser) : List Token := lp.tokens.drop lp.current

/-- `LineParser::current_offset`. -/
def LineParser.current_offset (lp : LineParser) : Nat :=
  match lp.parsed.getLast? with
  | some t => t.span.stop
  | none => lp.base_offset

/-- `LineParser::tokens_consumed`. -/
def LineParser.tokens_consumed (lp : LineParser) : Nat := lp.current

/-- `LineParser::consume_rest`. -/
def LineParser.consume_rest (lp : LineParser) : List Token × LineParser :=
  let r := lp.rest
  (r, { lp with current := lp.current + r.length })

/-- `LineParser::peek`. -/
def LineParser.peek (lp : LineParser) : TokenKind :=
  match lp.tokens[lp.current]? with
  | some t => t.kind
  | none => .eofTok

/-- `LineParser::at`. -/
def LineParser.atKind (lp : LineParser) (kind : TokenKind) : Bool :=
  lp.peek == kind

/-- `LineParser::next_token`. -/
def LineParser.next_token (lp : LineParser) : Option Token × LineParser :=
  match lp.tokens[lp.current]? with
  | some t => (some t, { lp with current := lp.current + 1 })
  | none => (none, lp)

/-- `LineParser::bump_any` (panics when no token is left). -/
def LineParser.bump_any (lp : LineParser) : Except String (Token × LineParser) :=
  match lp.next_token with
  | (some t, lp) => .ok (t, lp)
  | (none, _) => .error "Expected token, but there was none"

/-- `LineParser::bump` (panics when the next token is not `expected`). -/
def LineParser.bump (lp : LineParser) (expected : TokenKind) :
    Except String (Token × LineParser) :=
  match lp.bump_any with
  | .error m => .error m
  | .ok (t, lp) =>
    if t.kind == expected then .ok (t, lp) else .error "bump: unexpected token kind"

/-- `LineParser::until`: take up to the first token satisfying `f`, or
fail (leaving the cursor in place) when none is found. -/
def LineParser.until (lp : LineParser) (f : TokenKind → Bool) :
    Option (List Token) × LineParser :=
  let rest := lp.rest
  match rest.findIdx? (fun t => f t.kind) with
  | none => (none, lp)
  | some pos => (some (rest.take pos), { lp with current := lp.current + pos })

/-- `LineParser::consume_while`. -/
def LineParser.consume_while (lp : LineParser) (f : TokenKind → Bool) :
    List Token × LineParser :=
  let rest := lp.rest
  let pos := match rest.findIdx? (fun t => !f t.kind) with
    | some p => p
    | none => rest.length
  (rest.take pos, { lp with current := lp.current + pos })

/-- `LineParser::ws_comments`. -/
def LineParser.ws_comments (lp : LineParser) : List Token × LineParser :=
  lp.consume_while fun t => t == .ws || t == .lineComment || t == .blockComment

/-- `LineParser::consume`: advance only when the next token has the
expected kind. -/
def LineParser.consume (lp : LineParser) (expected : TokenKind) :
    Option Token × LineParser :=
  if lp.atKind expected then
    match lp.next_token with
    | (some t, lp) => (some t, lp)
    | (none, lp) => (none, lp)
  else
    (none, lp)

/-- `LineParser::error`. -/
def LineParser.error (lp : LineParser) (e : ParserError) : LineParser :=
  { lp with errors := lp.errors ++ [e] }

/-- `LineParser::warn`. -/
def LineParser.warn (lp : LineParser) (w : ParserWarning) : LineParser :=
  { lp with warnings := lp.warnings ++ [w] }

/-- `LineParser::as_str`. -/
def LineParser.as_str (lp : LineParser) (t : Token) : String :=
  strSlice lp.input t.span.start t.span.stop

/-- The loop of `LineParser::text`: accumulate `[start, stop)` runs,
flushing at comments (dropped entirely) and escapes (dropping the
backslash). -/
def textLoop (input : String) (t : Text) (start stop : Nat) :
    List Token → Text × Nat × Nat
  | [] => (t, start, stop)
  | token :: rest =>
    match token.kind with
    | .lineComment | .blockComment =>
      let t := t.append_str (strSlice input start stop) start
      textLoop input t token.span.stop token.span.stop rest
    | .escaped =>
      let t := t.append_str (strSlice input start stop) start
      textLoop input t (token.span.start + 1) token.span.stop rest
    | _ => textLoop input t start token.span.stop rest

/-- `LineParser::text`: synthesize a `Text` from a token slice, dropping
comments and escape markers (the Rust `assert_eq!(offset, start)` holds at
every call site and is not modelled). -/
def LineParser.text (lp : LineParser) (offset : Nat) (tokens : List Token) : Text :=
  let t := Text.empty offset
  match tokens with
  | [] => t
  | tok :: _ =>
    let start := tok.span.start
    let (t, start, stop) := textLoop lp.input t start start tokens
    t.append_str (strSlice lp.input start stop) start

/-- `LineParser::with_recover`: run a fallible sub-parse; on failure the
cursor (and only the cursor) is restored — emitted diagnostics remain. -/
def LineParser.with_recover {α : Type} (lp : LineParser)
    (f : LineParser → Except String (Option α × LineParser)) :
    Except String (Option α × LineParser) :=
  let old_current := lp.current
  match f lp with
  | .error m => .error m
  | .ok (none, lp') => .ok (none, { lp' with current := old_current })
  | .ok (some o, lp') => .ok (some o, lp')

namespace Parser

/-- `step::ParsedStep`. -/
structure ParsedStep where
  is_text : Bool
  items : List AstItem
deriving DecidableEq, Repr

/-- `step::Body`: a component body — name tokens, the closing-brace span
when the long form was used, and the quantity tokens. -/
structure Body where
  name : List Token
  close : Option Span
  quantity : Option (List Token)
deriving DecidableEq, Repr

/-- `step::comp_body`: long form (`name { quantity }`) under recovery,
falling back to the single-word short form. -/
def comp_body (lp : LineParser) : Except String (Option Body × LineParser) :=
  let long := lp.with_recover fun lp =>
    match lp.until (fun t => t == .openBrace || t == .atMark || t == .hashMark
        || t == .tildeMark) with
    | (none, lp) => .ok (none, lp)
    | (some name, lp) =>
      match lp.consume .openBrace with
      | (none, lp) => .ok (none, lp)
      | (some openTok, lp) =>
        let close_span_start := openTok.span.start
        match lp.until (fun t => t == .closeBrace) with
        | (none, lp) => .ok (none, lp)
        | (some quantity, lp) =>
          match lp.bump .closeBrace with
          | .error m => .error m
          | .ok (closeTok, lp) =>
            let close_span := Span.mk close_span_start closeTok.span.stop
            if quantity.any (fun t => !(t.kind == .ws || t.kind == .blockComment)) then
              .ok (some ⟨name, some close_span, some quantity⟩, lp)
            else
              .ok (some ⟨name, some close_span, none⟩, lp)
  match long with
  | .error m => .error m
  | .ok (some body, lp) => .ok (some body, lp)
  | .ok (none, lp) =>
    lp.with_recover fun lp =>
      let (tokens, lp) := lp.consume_while fun t =>
        t == .word || t == .intTok || t == .floatTok
      if tokens.isEmpty then .ok (none, lp)
      else .ok (some ⟨tokens, none, none⟩, lp)

/-- `step::modifiers`: consume the modifier sigil run. -/
def modifiers (lp : LineParser) : List Token × LineParser :=
  lp.consume_while fun t => t == .atMark || t == .ampMark || t == .questionMark
    || t == .plusMark || t == .minusMark

/-- `step::note`: a parenthesized note, gated by `COMPONENT_NOTE`. -/
def note (lp : LineParser) : Except String (Option Text × LineParser) :=
  if lp.extensions.component_note then
    lp.with_recover fun lp =>
      match lp.consume .openParen with
      | (none, lp) => .ok (none, lp)
      | (some _, lp) =>
        let offset := lp.current_offset
        match lp.until (fun t => t == .closeParen) with
        | (none, lp) => .ok (none, lp)
        | (some toks, lp) =>
          match lp.bump .closeParen with
          | .error m => .error m
          | .ok (_, lp) => .ok (some (lp.text offset toks), lp)
  else
    .ok (none, lp)

/-- Kind-to-flag map of the modifier fold (`unreachable!` for other
kinds). -/
def modifierFlag : TokenKind → Option Modifiers
  | .atMark => some .RECIPE
  | .ampMark => some .REF
  | .questionMark => some .OPT
  | .plusMark => some .NEW
  | .minusMark => some .HIDDEN
  | _ => none

/-- The `try_fold` of `step::parse_modifiers`: duplicate modifiers record
an error and yield the empty set. -/
def modsFold (span : Span) : LineParser → Modifiers → List Token →
    Except String (Option Modifiers × LineParser)
  | lp, acc, [] => .ok (some acc, lp)
  | lp, acc, m :: rest =>
    match modifierFlag m.kind with
    | none => .error "unreachable modifier token"
    | some new_m =>
      if acc.contains new_m then
        .ok (none, lp.error (.duplicateModifiers span (lp.as_str m)))
      else
        modsFold span lp (acc.union new_m) rest

/-- `step::parse_modifiers`: empty set when no tokens; an
`ExtensionNotEnabled` error when `COMPONENT_MODIFIERS` is off; otherwise
fold the sigils, rejecting duplicates. -/
def parse_modifiers (lp : LineParser) (modifiers_tokens : List Token)
    (modifiers_pos : Nat) : Except String (Located Modifiers × LineParser) :=
  if modifiers_tokens.isEmpty then
    .ok (⟨Modifiers.empty, Span.pos modifiers_pos⟩, lp)
  else if !lp.extensions.component_modifiers then
    let modifiers_span := tokens_span modifiers_tokens
    .ok (⟨Modifiers.empty, modifiers_span⟩,
      lp.error (.extensionNotEnabled modifiers_span "component modifiers"))
  else
    let modifiers_span := tokens_span modifiers_tokens
    match modsFold modifiers_span lp Modifiers.empty modifiers_tokens with
    | .error m => .error m
    | .ok (some m, lp) => .ok (⟨m, modifiers_span⟩, lp)
    | .ok (none, lp) => .ok (⟨Modifiers.empty, modifiers_span⟩, lp)

/-- `step::parse_alias`: split the name tokens at `|` when
`COMPONENT_ALIAS` is on; multiple or empty aliases are errors. -/
def parse_alias (container : String) (lp : LineParser) (tokens : List Token)
    (name_offset : Nat) : (Text × Option Text) × LineParser :=
  let alias_sep : Option Nat :=
    if lp.extensions.component_alias then
      tokens.findIdx? fun t => t.kind == .orMark
    else none
  match alias_sep with
  | none => ((lp.text name_offset tokens, none), lp)
  | some sep =>
    let name_tokens := tokens.take sep
    match tokens.drop sep with
    | [] => ((lp.text name_offset tokens, none), lp)
    | alias_sep_tok :: alias_text_tokens =>
      let alias_text := lp.text alias_sep_tok.span.stop alias_text_tokens
      if alias_text_tokens.any (fun t => t.kind == .orMark) then
        ((lp.text name_offset name_tokens, none),
          lp.error (.componentPartInvalid container "alias" "multiple aliases"))
      else if alias_text.is_text_empty then
        ((lp.text name_offset name_tokens, none),
          lp.error (.componentPartInvalid container "alias" "is empty"))
      else
        ((lp.text name_offset name_tokens, some alias_text), lp)

/-- `step::ParsedQuantity` (result of the quantity sub-parser). -/
structure ParsedQuantity where
  quantity : Located AstQuantity
  unit_separator : Option Span
deriving DecidableEq, Repr

/-- Modelled from the spec: one quantity value from its token slice
(`src/parser/quantity.rs` is not under `src/`): a lone integer token is a
number, anything else is a text value; spans follow the tokens. -/
def parse_one_value (lp : LineParser) (tokens : List Token) : Located Value :=
  let trimmed := (tokens.dropWhile (fun t => t.kind == .ws)).reverse
    |>.dropWhile (fun t => t.kind == .ws) |>.reverse
  let span := tokens_span trimmed
  match trimmed with
  | [t] =>
    match t.kind with
    | .intTok =>
      match strToNat? (lp.as_str t) with
      | some n => ⟨Value.number n, span⟩
      | none => ⟨Value.text (lp.as_str t), span⟩
    | _ => ⟨Value.text (lp.text (tokens_span trimmed).start trimmed).text, span⟩
  | _ => ⟨Value.text (lp.text (tokens_span trimmed).start trimmed).text, span⟩

/-- Split a token list at every separator kind. -/
def splitTokens (sep : TokenKind) : List Token → List (List Token)
  | [] => [[]]
  | t :: rest =>
    if t.kind == sep then [] :: splitTokens sep rest
    else
      match splitTokens sep rest with
      | [] => [[t]]
      | g :: gs => (t :: g) :: gs

/-- Modelled from the spec: the quantity grammar parser
(`src/parser/quantity.rs` is not under `src/`): values separated by `|`,
an optional `*` auto-scale marker on a single value (combining both is a
`QuantityScalingConflict`), and an optional `%`-separated unit.  Mixed
numbers, fractions and ranges are simplified to text values; no theorem
below exercises this parser. -/
def parse_quantity (lp : LineParser) (tokens : List Token) :
    ParsedQuantity × LineParser :=
  let whole_span := tokens_span tokens
  let sepIdx := tokens.findIdx? fun t => t.kind == .percentMark
  let value_tokens := match sepIdx with
    | some i => tokens.take i
    | none => tokens
  let unit_separator := match sepIdx with
    | some i => (tokens[i]?).map (·.span)
    | none => none
  let unit : Option Text := match sepIdx with
    | some i =>
      let ut := tokens.drop (i + 1)
      if ut.isEmpty then none else some (lp.text (tokens_span ut).start ut)
    | none => none
  let starIdx := value_tokens.findIdx? fun t => t.kind == .starMark
  let orIdx := value_tokens.findIdx? fun t => t.kind == .orMark
  let (value, lp) :=
    match starIdx, orIdx with
    | some si, some _ =>
      let lp := lp.error (.quantityScalingConflict whole_span)
      (AstQuantityValue.single (parse_one_value lp (value_tokens.take si)) none, lp)
    | some si, none =>
      let marker := ((value_tokens[si]?).map (·.span)).getD (Span.pos 0)
      (AstQuantityValue.single (parse_one_value lp (value_tokens.take si))
        (some marker), lp)
    | none, some _ =>
      (AstQuantityValue.many ((splitTokens .orMark value_tokens).map
        (parse_one_value lp)), lp)
    | none, none =>
      (AstQuantityValue.single (parse_one_value lp value_tokens) none, lp)
  (⟨⟨⟨value, unit⟩, whole_span⟩, unit_separator⟩, lp)

/-- `Recover` for a located AST quantity (used by the timer parser). -/
def recoverQuantity : Located AstQuantity :=
  ⟨⟨.single ⟨.number 1, Span.pos 0⟩ none, none⟩, Span.pos 0⟩

/-- `step::ingredient`. -/
def ingredient (lp : LineParser) : Except String (Option AstIngredient × LineParser) :=
  match lp.consume .atMark with
  | (none, lp) => .ok (none, lp)
  | (some _, lp) =>
    let modifiers_pos := lp.current_offset
    let (modifiers_tokens, lp) := modifiers lp
    let name_offset := lp.current_offset
    match comp_body lp with
    | .error m => .error m
    | .ok (none, lp) => .ok (none, lp)
    | .ok (some body, lp) =>
      match note lp with
      | .error m => .error m
      | .ok (noteText, lp) =>
        let ((name, aliasText), lp) := parse_alias "ingredient" lp body.name name_offset
        let lp :=
          if name.is_text_empty then
            lp.error (.componentPartInvalid "ingredient" "name" "is empty")
          else lp
        match parse_modifiers lp modifiers_tokens modifiers_pos with
        | .error m => .error m
        | .ok (mods, lp) =>
          let (quantity, lp) := match body.quantity with
            | some tokens =>
              let (q, lp) := parse_quantity lp tokens
              (some q.quantity, lp)
            | none => (none, lp)
          .ok (some { modifiers := mods, name := name, alias' := aliasText,
                      quantity := quantity, note := noteText,
                      intermediate_data := none }, lp)

/-- `step::cookware`: like `ingredient`, plus the unit / auto-scale
restrictions on the quantity and the recipe-modifier restriction; aliases
and the other modifiers are parsed and kept. -/
def cookware (lp : LineParser) : Except String (Option AstCookware × LineParser) :=
  match lp.consume .hashMark with
  | (none, lp) => .ok (none, lp)
  | (some _, lp) =>
    let modifiers_pos := lp.current_offset
    let (modifiers_tokens, lp) := modifiers lp
    let name_offset := lp.current_offset
    match comp_body lp with
    | .error m => .error m
    | .ok (none, lp) => .ok (none, lp)
    | .ok (some body, lp) =>
      match note lp with
      | .error m => .error m
      | .ok (noteText, lp) =>
        let ((name, aliasText), lp) := parse_alias "cookware" lp body.name name_offset
        let lp :=
          if name.is_text_empty then
            lp.error (.componentPartInvalid "cookware" "name" "is empty")
          else lp
        let (quantity, lp) := match body.quantity with
          | some tokens =>
            let (q, lp) := parse_quantity lp tokens
            let lp := match q.quantity.val.unit with
              | some unitText =>
                let span := match q.unit_separator with
                  | some sep => Span.mk sep.start unitText.span.stop
                  | none => unitText.span
                lp.error (.componentPartNotAllowed "cookware" "unit in quantity" span)
              | none => lp
            let lp := match q.quantity.val.value with
              | .single _ (some auto_scale) =>
                lp.error (.componentPartNotAllowed "cookware" "auto scale marker"
                  auto_scale)
              | _ => lp
            (some (Located.mk q.quantity.val.value q.quantity.span), lp)
          | none => (none, lp)
        match parse_modifiers lp modifiers_tokens modifiers_pos with
        | .error m => .error m
        | .ok (mods, lp) =>
          let lp :=
            if mods.val.contains Modifiers.RECIPE then
              match modifiers_tokens.find? (fun t => t.kind == .atMark) with
              | some t =>
                let _ := t
                lp.error (.componentPartInvalid "cookware" "modifiers"
                  "recipe modifier not allowed in cookware")
              | none => lp
            else lp
          .ok (some { name := name, alias' := aliasText, quantity := quantity,
                      modifiers := mods, note := noteText }, lp)

/-- `step::check_modifiers`: modifiers are only available in ingredients
(used by the timer parser). -/
def check_modifiers (lp : LineParser) (modifiers_tokens : List Token)
    (container : String) : LineParser :=
  if !modifiers_tokens.isEmpty then
    lp.error (.componentPartNotAllowed container "modifiers"
      (tokens_span modifiers_tokens))
  else lp

/-- `step::check_alias`: aliases are only available in ingredients (used
by the timer parser). -/
def check_alias (lp : LineParser) (name_tokens : List Token)
    (container : String) : LineParser :=
  match name_tokens.findIdx? (fun t => t.kind == .orMark) with
  | some sep =>
    let to_remove := Span.mk
      (((name_tokens[sep]?).map (fun t => t.span.start)).getD 0)
      ((name_tokens.getLast?.map (fun t => t.span.stop)).getD 0)
    lp.error (.componentPartNotAllowed container "alias" to_remove)
  | none => lp

/-- `step::check_note`: notes are only available in ingredients; a note on
a timer is warned about and ignored (the sub-parse always backtracks). -/
def check_note (lp : LineParser) (container : String) :
    Except String LineParser :=
  if !lp.extensions.component_note then
    .ok lp
  else
    let recovered := lp.with_recover (α := PUnit) fun lp =>
      match lp.consume .openParen with
      | (none, lp) => .ok (none, lp)
      | (some openTok, lp) =>
        match lp.until (fun t => t == .closeParen) with
        | (none, lp) => .ok (none, lp)
        | (some _, lp) =>
          match lp.bump .closeParen with
          | .error m => .error m
          | .ok (closeTok, lp) =>
            let lp := lp.warn (.componentPartIgnored container "note"
              (Span.mk openTok.span.start closeTok.span.stop))
            .ok (none, lp)
    match recovered with
    | .error m => .error m
    | .ok (_, lp) => .ok lp

/-- `step::timer`: no modifiers, no alias, no note; the unit is required,
and either a name or a quantity must be present (`TIMER_REQUIRES_TIME`
requires the quantity). -/
def timer (lp : LineParser) : Except String (Option AstTimer × LineParser) :=
  match lp.consume .tildeMark with
  | (none, lp) => .ok (none, lp)
  | (some _, lp) =>
    let (modifiers_tokens, lp) := modifiers lp
    let name_offset := lp.current_offset
    match comp_body lp with
    | .error m => .error m
    | .ok (none, lp) => .ok (none, lp)
    | .ok (some body, lp) =>
      let lp := check_modifiers lp modifiers_tokens "timer"
      let lp := check_alias lp body.name "timer"
      match check_note lp "timer" with
      | .error m => .error m
      | .ok lp =>
        let name := lp.text name_offset body.name
        let (quantity, lp) := match body.quantity with
          | some tokens =>
            let (q, lp) := parse_quantity lp tokens
            let lp := match q.quantity.val.value with
              | .single _ (some auto_scale) =>
                lp.error (.componentPartNotAllowed "timer" "auto scale marker"
                  auto_scale)
              | _ => lp
            let lp :=
              if q.quantity.val.unit.isNone then
                lp.error (.componentPartMissing "timer" "quantity unit"
                  (Span.pos q.quantity.val.value.span.stop))
              else lp
            (some q.quantity, lp)
          | none => (none, lp)
        let (quantity, lp) :=
          if quantity.isNone && lp.extensions.timer_requires_time then
            let span := body.close.getD (Span.pos name.span.stop)
            (some recoverQuantity,
              lp.error (.componentPartMissing "timer" "quantity" span))
          else (quantity, lp)
        let nameOpt := if name.is_text_empty then none else some name
        let (quantity, lp) :=
          if nameOpt.isNone && quantity.isNone then
            let span := match body.close with
              | some s => Span.mk name_offset s.stop
              | none => Span.pos name_offset
            (some recoverQuantity,
              lp.error (.componentPartMissing "timer" "quantity OR name" span))
          else (quantity, lp)
        .ok (some { name := nameOpt, quantity := quantity }, lp)

/-- The while-loop of `step::step`: alternate components and raw text,
advancing at least one token per iteration (the fuel argument bounds the
iterations by the remaining token count). -/
def stepLoop (lp : LineParser) (items : List AstItem) :
    Nat → Except String (List AstItem × LineParser)
  | 0 =>
    if lp.rest.isEmpty then .ok (items, lp)
    else .error "step loop did not advance"
  | fuel + 1 =>
    if lp.rest.isEmpty then .ok (items, lp)
    else
      let start := lp.current_offset
      let comp : Except String (Option AstComponent × LineParser) :=
        match lp.peek with
        | .atMark =>
          match lp.with_recover ingredient with
          | .error m => .error m
          | .ok (r, lp) => .ok (r.map AstComponent.ingredient, lp)
        | .hashMark =>
          match lp.with_recover cookware with
          | .error m => .error m
          | .ok (r, lp) => .ok (r.map AstComponent.cookware, lp)
        | .tildeMark =>
          match lp.with_recover timer with
          | .error m => .error m
          | .ok (r, lp) => .ok (r.map AstComponent.timer, lp)
        | _ => .ok (none, lp)
      match comp with
      | .error m => .error m
      | .ok (some component, lp) =>
        let stop := lp.current_offset
        stepLoop lp (items ++ [AstItem.component ⟨component, ⟨start, stop⟩⟩]) fuel
      | .ok (none, lp) =>
        let tokens_start := lp.tokens_consumed
        match lp.bump_any with
        | .error m => .error m
        | .ok (_, lp) =>
          let (_, lp) := lp.consume_while fun t =>
            !(t == .atMark || t == .hashMark || t == .tildeMark)
          let tokens_end := lp.tokens_consumed
          let tokens := (lp.tokens.drop tokens_start).take (tokens_end - tokens_start)
          stepLoop lp (items ++ [AstItem.text (lp.text start tokens)]) fuel

/-- `step::step`: a leading `>` (or forced text mode) makes the whole line
one text item; otherwise alternate components and text. -/
def step (lp : LineParser) (force_text : Bool) :
    Except String (ParsedStep × LineParser) :=
  match lp.consume .gtMark with
  | (gtTok, lp) =>
    let is_text := gtTok.isSome
    if is_text || force_text then
      let start := lp.current_offset
      let (tokens, lp) := lp.consume_rest
      .ok (⟨is_text, [AstItem.text (lp.text start tokens)]⟩, lp)
    else
      match stepLoop lp [] lp.rest.length with
      | .error m => .error m
      | .ok (items, lp) => .ok (⟨false, items⟩, lp)

/-- Modelled from the spec: `metadata_entry` (`src/parser/metadata.rs` is
not under `src/`): the `>>` marker, a key up to the colon, the value to
the end of the line; an empty value warns. -/
def metadata_entry (lp : LineParser) :
    Except String (Option (Text × Text) × LineParser) :=
  match lp.consume .metaMark with
  | (none, lp) => .ok (none, lp)
  | (some _, lp) =>
    let key_offset := lp.current_offset
    match lp.until (fun t => t == .colon) with
    | (none, lp) => .ok (none, lp)
    | (some key_toks, lp) =>
      match lp.bump .colon with
      | .error m => .error m
      | .ok (_, lp) =>
        let value_offset := lp.current_offset
        let (value_toks, lp) := lp.consume_rest
        let key := lp.text key_offset key_toks
        let value := lp.text value_offset value_toks
        let lp :=
          if value.is_text_empty then
            lp.warn (.emptyMetadataValue key.text_trimmed)
          else lp
        .ok (some (key, value), lp)

/-- Modelled from the spec: `section` (`src/parser/section.rs` is not
under `src/`): one or more `=`, an optional name, optional trailing `=`;
anything left afterwards rejects the line. -/
def sectionFn (lp : LineParser) :
    Except String (Option (Option Text) × LineParser) :=
  let (eqs, lp) := lp.consume_while (fun t => t == .eqMark)
  if eqs.isEmpty then .ok (none, lp)
  else
    let name_offset := lp.current_offset
    let (name_toks, lp) := lp.consume_while (fun t => !(t == .eqMark))
    let (_, lp) := lp.consume_while (fun t => t == .eqMark)
    if !lp.rest.isEmpty then .ok (none, lp)
    else
      let name := lp.text name_offset name_toks
      .ok (some (if name.is_text_empty then none else some name), lp)

/-- `parser::parse_line`: empty lines set the last-empty flag; metadata
and section markers are tried under recovery; otherwise the line is a
step, joined onto the previous step line under `MULTILINE_STEPS` (with
end/start whitespace trimming and a single-space fragment at the byte
position where the previous line ended), or emitted as a fresh line. -/
def parse_line (lp : LineParser) (lines : List Line) (last_empty : Bool) :
    Except String (LineParser × List Line × Bool) :=
  let is_empty := lp.tokens.all fun t =>
    t.kind == .ws || t.kind == .lineComment || t.kind == .blockComment
  if is_empty then
    let (_, lp) := lp.consume_rest
    .ok (lp, lines, true)
  else
    let meta_or_section : Except String (Option Line × LineParser) :=
      match lp.peek with
      | .metaMark =>
        match lp.with_recover metadata_entry with
        | .error m => .error m
        | .ok (r, lp) => .ok (r.map (fun e => Line.metadata e.1 e.2), lp)
      | .eqMark =>
        match lp.with_recover sectionFn with
        | .error m => .error m
        | .ok (r, lp) => .ok (r.map (fun name => Line.section' name), lp)
      | _ => .ok (none, lp)
    match meta_or_section with
    | .error m => .error m
    | .ok (some l, lp) => .ok (lp, lines ++ [l], false)
    | .ok (none, lp) =>
      if !last_empty && lp.extensions.multiline_steps then
        match lines.getLast? with
        | some (.step prev_is_text prevItems) =>
          match step lp prev_is_text with
          | .error m => .error m
          | .ok (parsed_step, lp) =>
            if parsed_step.items.isEmpty then
              .ok (lp, lines, last_empty)
            else
              match prevItems.getLast? with
              | none => .error "empty previous step items"
              | some lastItem =>
                let newline_pos := lastItem.span.stop
                let items := match prevItems.getLast? with
                  | some (AstItem.text text) =>
                    let text := text.trim_fragments_end
                    if text.fragments.isEmpty then prevItems.dropLast
                    else prevItems.dropLast ++ [AstItem.text text]
                  | _ => prevItems
                let parsed_items := match parsed_step.items with
                  | AstItem.text text :: restItems =>
                    let text := text.trim_fragments_start
                    if text.fragments.isEmpty then restItems
                    else AstItem.text text :: restItems
                  | other => other
                let items := items ++ [AstItem.text (Text.from_str " " newline_pos)]
                  ++ parsed_items
                .ok (lp, lines.dropLast ++ [Line.step prev_is_text items], last_empty)
        | _ =>
          match step lp false with
          | .error m => .error m
          | .ok (parsed_step, lp) =>
            .ok (lp, lines ++ [Line.step parsed_step.is_text parsed_step.items], false)
      else
        match step lp false with
        | .error m => .error m
        | .ok (parsed_step, lp) =>
          .ok (lp, lines ++ [Line.step parsed_step.is_text parsed_step.items], false)

end Parser


/-! ## Supporting definitions for the claim theorems -/

/-- A quantity value is scalable when it is `Linear` or `ByServings`. -/
def QuantityValue.isScalable : QuantityValue → Bool
  | .fixed _ => false
  | .linear _ => true
  | .byServings _ => true

/-- The sum of two non-text values, following the spec's words: numbers
add, a number shifts a range, ranges add endpoint-wise (arbitrary on text
operands, which the claims exclude). -/
def specValueSum : Value → Value → Value
  | .number a, .number b => .number (a + b)
  | .number n, .range s e | .range s e, .number n => .range (s + n) (e + n)
  | .range a b, .range s e => .range (a + s) (b + e)
  | v, _ => v

/-- Variant preservation between two quantity values: `Fixed` stays
`Fixed`, `Linear` stays `Linear`, `ByServings` stays `ByServings` with the
same number of values. -/
def variantPreserved : QuantityValue → QuantityValue → Prop
  | .fixed _, .fixed _ => True
  | .linear _, .linear _ => True
  | .byServings xs, .byServings ys => xs.length = ys.length
  | _, _ => False

/-- A metric temperature unit shaped like `°C` (ratio `1`, offset
`273.15` to the base). -/
def celsius : Unit :=
  ⟨["celsius"], ["°C"], [], 1, 27315/100, .temperature, some .metric⟩

/-- An imperial temperature unit shaped like `°F` (ratio `5/9`, offset
`459.67` to the base). -/
def fahrenheit : Unit :=
  ⟨["fahrenheit"], ["°F"], [], 5/9, 45967/100, .temperature, some .imperial⟩

/-- A converter knowing only the two temperature units above. -/
def tempConverter : Converter :=
  { Converter.empty with
    all_units := [celsius, fahrenheit]
    unit_index := [("°C", 0), ("°F", 1)] }

/-- `0 °C` with the unit already parsed (`Quantity::new_and_parse`). -/
def zeroCelsius : Quantity :=
  ⟨.fixed (.number 0), some ⟨"°C", some (.known celsius)⟩⟩

/-- `0 °F` with the unit already parsed (`Quantity::new_and_parse`). -/
def zeroFahrenheit : Quantity :=
  ⟨.fixed (.number 0), some ⟨"°F", some (.known fahrenheit)⟩⟩

/-- A concrete sub-parse for the `with_recover` witness: it eats one
token, records an error, and fails. -/
def c7f (lp : LineParser) : Except String (Option Nat × LineParser) :=
  match lp.next_token with
  | (some _, lp) =>
    .ok (none, lp.error (.divisionByZero (Span.pos 0)))
  | (none, lp) => .ok (none, lp)

/-- A concrete one-token line parser for the `with_recover` witness. -/
def c7lp : LineParser :=
  LineParser.new 0 [⟨.word, ⟨0, 3⟩⟩] "abc" Extensions.empty

/-- The parser state `with_recover c7f` leaves behind. -/
def c7res : LineParser :=
  match c7lp.with_recover c7f with
  | .ok (_, lp) => lp
  | .error _ => c7lp

/-- The result of converting a known-unit quantity, for the conversion
witness. -/
def c10res : Quantity :=
  match tempConverter.convert_ zeroFahrenheit (.toUnit celsius) with
  | .ok q => q
  | .error _ => zeroFahrenheit


/-- The parser state the `with_recover` witness sub-parse leaves behind. -/
def c7mid : LineParser :=
  match c7f c7lp with
  | .ok (_, lp) => lp
  | .error _ => c7lp


/-- The numbered steps of a section, in order. -/
def sectionNumbers (s : Section) : List Nat := s.steps.filterMap Step.number

/-- Fields of the walker state that component processing never touches:
the current section, the step counter, the flushed sections and the
define mode. -/
def CoreEq (st st' : WalkerSt) : Prop :=
  st'.current_section = st.current_section ∧
  st'.step_counter = st.step_counter ∧
  st'.content.sections = st.content.sections ∧
  st'.define_mode = st.define_mode

/-- The ingredient-list reference invariant: a component without the
`REF` modifier is a definition, and every same-kind reference targets an
in-bounds definition. -/
def IngInv (l : List Ingredient) : Prop :=
  (∀ i ∈ l, i.modifiers.ref = false → ∃ rf, i.relation = .definition rf) ∧
  (∀ i ∈ l, ∀ k, i.relation = .reference k .ingredientTarget →
    ∃ tgt, l[k]? = some tgt ∧ ∃ rf, tgt.relation = .definition rf)

/-- The cookware-list reference invariant. -/
def CwInv (l : List Cookware) : Prop :=
  (∀ c ∈ l, c.modifiers.ref = false → ∃ rf, c.relation = .definition rf) ∧
  (∀ c ∈ l, ∀ k, c.relation = .reference k →
    ∃ tgt, l[k]? = some tgt ∧ ∃ rf, tgt.relation = .definition rf)

/-- The combined reference invariant of a walker state. -/
def WInv (st : WalkerSt) : Prop :=
  IngInv st.content.ingredients ∧ CwInv st.content.cookware

/-- Reference integrity of a finished recipe content. -/
def RefIntegrity (content : RecipeContent) : Prop :=
  IngInv content.ingredients ∧ CwInv content.cookware

/-- The step-numbering invariant: the numbered steps of the current
section are exactly `1 .. step_counter - 1`, and all flushed sections
are contiguously numbered from `1`. -/
def NumInv (st : WalkerSt) : Prop :=
  sectionNumbers st.current_section = List.range' 1 (st.step_counter - 1) ∧
  1 ≤ st.step_counter ∧
  ∀ s ∈ st.content.sections,
    sectionNumbers s = List.range' 1 (sectionNumbers s).length

/-- A step line whose AST `is_text` flag is false processed while the
define mode is `Text`: the one situation in which the walker advances the
step counter while emitting an unnumbered step. -/
def textLeakAt (st : WalkerSt) : Line → Bool
  | .step is_text _ => st.define_mode == .text && !is_text
  | _ => false

/-- No text-mode leak along a run of the walker. -/
def noTextLeak : WalkerSt → List Line → Bool
  | _, [] => true
  | st, l :: ls =>
    !textLeakAt st l &&
    (match Walker.walkLine st l with
     | .ok st' => noTextLeak st' ls
     | .error _ => true)

/-- Extensions for the step-numbering counterexample: only `MODES`. -/
def c2ext : Extensions := { Extensions.empty with modes := true }

/-- The walker's initial state for the step-numbering counterexample. -/
def c2st0 : WalkerSt := initWalker c2ext Converter.empty none none

/-- The counterexample input: switch to text define mode, a step, switch
back to all, another step. -/
def c2lines : List Line :=
  [.metadata (Text.from_str "[mode]" 0) (Text.from_str "text" 10),
   .step false [.text (Text.from_str "hello" 20)],
   .metadata (Text.from_str "[mode]" 30) (Text.from_str "all" 40),
   .step false [.text (Text.from_str "world" 50)]]

/-- The walker state after the counterexample run. -/
def c2final : WalkerSt :=
  match Walker.ast c2st0 c2lines with
  | .ok st => st
  | .error _ => c2st0

/-- Lines of the C2 witness: two plain steps in a section. -/
def c2wlines : List Line :=
  [.step false [.text (Text.from_str "mix" 0)],
   .step false [.text (Text.from_str "bake" 10)]]

/-- The walker state after the witness run. -/
def c2wfinal : WalkerSt :=
  match Walker.ast c2st0 c2wlines with
  | .ok st => st
  | .error _ => c2st0


/-- C6 witness input: an intermediate reference with a negative value,
which makes the walker hit the `assert!` panic path (an `Except.error`
distinct from the reference-to-reference panic). -/
def c6badIgr : AstIngredient :=
  { modifiers := ⟨Modifiers.empty, Span.pos 0⟩
    name := Text.from_str "meat" 1
    alias' := none
    quantity := none
    note := none
    intermediate_data := some ⟨⟨.step, .index, -1⟩, ⟨0, 5⟩⟩ }

/-- C6 witness input lines for the panic part. -/
def c6badLines : List Line :=
  [.step false [.component ⟨.ingredient c6badIgr, ⟨0, 5⟩⟩]]

/-- A plain ingredient definition (for the C6 witness). -/
def c6defIgr : AstIngredient :=
  { modifiers := ⟨Modifiers.empty, Span.pos 0⟩
    name := Text.from_str "meat" 1
    alias' := none
    quantity := none
    note := none
    intermediate_data := none }

/-- A same-name ingredient with the `REF` modifier (for the C6 witness). -/
def c6refIgr : AstIngredient :=
  { modifiers := ⟨Modifiers.REF, ⟨6, 7⟩⟩
    name := Text.from_str "meat" 8
    alias' := none
    quantity := none
    note := none
    intermediate_data := none }

/-- C6 witness input lines producing an actual reference. -/
def c6okLines : List Line :=
  [.step false [.component ⟨.ingredient c6defIgr, ⟨0, 5⟩⟩,
                .component ⟨.ingredient c6refIgr, ⟨6, 12⟩⟩]]

/-- The walker state after the reference-producing C6 witness run. -/
def c6okFinal : WalkerSt :=
  match Walker.ast (initWalker Extensions.empty Converter.empty none none) c6okLines with
  | .ok st => st
  | .error _ => initWalker Extensions.empty Converter.empty none none


/-- Extensions for the C3 runs: component modifiers and aliases on. -/
def c3ext : Extensions :=
  { Extensions.empty with component_modifiers := true, component_alias := true }

/-- C3 counterexample input: `#&pot|pan{}` — cookware with a `&` modifier
and an alias. -/
def c3lp : LineParser :=
  LineParser.new 0
    [⟨.hashMark, ⟨0, 1⟩⟩, ⟨.ampMark, ⟨1, 2⟩⟩, ⟨.word, ⟨2, 5⟩⟩, ⟨.orMark, ⟨5, 6⟩⟩,
     ⟨.word, ⟨6, 9⟩⟩, ⟨.openBrace, ⟨9, 10⟩⟩, ⟨.closeBrace, ⟨10, 11⟩⟩]
    "#&pot|pan{}" c3ext

/-- The C3 counterexample cookware parse result. -/
def c3res : Option AstCookware × LineParser :=
  match Parser.cookware c3lp with
  | .ok r => r
  | .error _ => (none, c3lp)

/-- A one-modifier cookware input `#_pot` with the given sigil kind. -/
def c3mlp (k : TokenKind) : LineParser :=
  LineParser.new 0 [⟨.hashMark, ⟨0, 1⟩⟩, ⟨k, ⟨1, 2⟩⟩, ⟨.word, ⟨2, 5⟩⟩] "#&pot" c3ext

/-- The cookware parse result on `c3mlp`. -/
def c3mres (k : TokenKind) : Option AstCookware × LineParser :=
  match Parser.cookware (c3mlp k) with
  | .ok r => r
  | .error _ => (none, c3mlp k)

/-- A one-modifier timer input `~_pot` with the given sigil kind. -/
def c3tlp (k : TokenKind) : LineParser :=
  LineParser.new 0 [⟨.tildeMark, ⟨0, 1⟩⟩, ⟨k, ⟨1, 2⟩⟩, ⟨.word, ⟨2, 5⟩⟩] "~&pot" c3ext

/-- The timer parse result on `c3tlp`. -/
def c3tres (k : TokenKind) : Option AstTimer × LineParser :=
  match Parser.timer (c3tlp k) with
  | .ok r => r
  | .error _ => (none, c3tlp k)

/-- A timer with an alias in its (long form) name: `~pot|pan{1%h}`. -/
def c3alp : LineParser :=
  LineParser.new 0
    [⟨.tildeMark, ⟨0, 1⟩⟩, ⟨.word, ⟨1, 4⟩⟩, ⟨.orMark, ⟨4, 5⟩⟩, ⟨.word, ⟨5, 8⟩⟩,
     ⟨.openBrace, ⟨8, 9⟩⟩, ⟨.intTok, ⟨9, 10⟩⟩, ⟨.percentMark, ⟨10, 11⟩⟩,
     ⟨.word, ⟨11, 12⟩⟩, ⟨.closeBrace, ⟨12, 13⟩⟩]
    "~pot|pan{1%h}" c3ext

/-- The timer parse result on `c3alp`. -/
def c3ares : Option AstTimer × LineParser :=
  match Parser.timer c3alp with
  | .ok r => r
  | .error _ => (none, c3alp)

/-- Extensions for the C5 runs: multiline steps on. -/
def c5ext : Extensions := { Extensions.empty with multiline_steps := true }

/-- C5 counterexample: the previously emitted line is a TEXT step. -/
def c5lines : List Line :=
  [.step true [AstItem.text (Text.from_str "hello" 2)]]

/-- C5 counterexample: the next line is a plain word. -/
def c5lp : LineParser :=
  LineParser.new 8 [⟨.word, ⟨8, 13⟩⟩] "> hello\nworld" c5ext

/-- The C5 counterexample parse-line result. -/
def c5out : LineParser × List Line × Bool :=
  match Parser.parse_line c5lp c5lines false with
  | .ok r => r
  | .error _ => (c5lp, [], false)

/-- Follows the spec's words (C5): the items of a joined multiline step —
the previous items with trailing whitespace trimmed from a trailing text
item, a single-space fragment at the byte position where the previous
line originally ended, then the new items with leading whitespace trimmed
from a leading text item. -/
def specJoinItems (prevItems newItems : List AstItem) (newline_pos : Nat) :
    List AstItem :=
  let trimmedPrev :=
    match prevItems.getLast? with
    | some (AstItem.text text) =>
      let text := text.trim_fragments_end
      if text.fragments.isEmpty then prevItems.dropLast
      else prevItems.dropLast ++ [AstItem.text text]
    | _ => prevItems
  let trimmedNew :=
    match newItems with
    | AstItem.text text :: restItems =>
      let text := text.trim_fragments_start
      if text.fragments.isEmpty then restItems
      else AstItem.text text :: restItems
    | other => other
  trimmedPrev ++ [AstItem.text (Text.from_str " " newline_pos)] ++ trimmedNew

/-- C5 witness: the previous line is a non-text step. -/
def c5wlines : List Line :=
  [.step false [AstItem.text (Text.from_str "hello" 2)]]

/-- C5 witness: the next line. -/
def c5wlp : LineParser :=
  LineParser.new 8 [⟨.word, ⟨8, 13⟩⟩] "> hello\nworld" c5ext

/-- The C5 witness step parse of the next line. -/
def c5wres : Parser.ParsedStep × LineParser :=
  match Parser.step c5wlp false with
  | .ok r => r
  | .error _ => (⟨false, []⟩, c5wlp)

/-! ## Claim theorems -/

/-- C1 (code bug): `Walker::value` emits the `ScaleTextValue` error for
every `Single` whose `auto_scale` marker is set — also when the value is
numeric, not text — while still lowering it to `Linear`.  This
contradicts the spec ("A `Single` whose value is text but whose
`auto_scale` marker is set is an error") and the error's own message
("A text value cannot be scaled") and labels ("text can't be scaled"):
the `value.is_text()` guard is missing. -/
theorem c1_scale_text_value_fires_on_numeric_auto_scale :
    Walker.value (initWalker Extensions.empty Converter.empty none none)
      (.single ⟨.number 1, ⟨10, 11⟩⟩ (some ⟨11, 12⟩)) true
      = ({ initWalker Extensions.empty Converter.empty none none with
            errors := [.scaleTextValue ⟨10, 11⟩ ⟨11, 12⟩] },
         .linear (.number 1)) := by
  rfl

/-- C4 (counterexample): two unknown units whose texts differ only in
trailing whitespace have identical trimmed texts, yet `compatible_unit`
errors — the text comparison is verbatim, not trimmed. -/
theorem c4_counterexample_untrimmed_unknown_units :
    strTrim "cup " = strTrim "cup" ∧
    (Quantity.new (.fixed (.number 1)) (some "cup ")).compatible_unit
      (Quantity.new (.fixed (.number 1)) (some "cup")) Converter.empty
      = .error (.unknownDifferentUnits "cup " "cup") := by
  exact ⟨by decide, by rfl⟩

/-- C4 (amended): the full `compatible_unit` characterization — both
units missing gives `Ok(None)`; exactly one missing is a `MissingUnit`
error; both parsed known succeeds exactly when the physical quantities
match (returning the left unit); otherwise (at least one unknown) it
succeeds exactly when the unit texts are identical verbatim. -/
theorem c4_compatible_unit_characterization (a b : Quantity) (conv : Converter) :
    (a.unit = none → b.unit = none → a.compatible_unit b conv = .ok none) ∧
    (∀ ub, a.unit = none → b.unit = some ub →
      a.compatible_unit b conv = .error (.missingUnit (.inr ub))) ∧
    (∀ ua, a.unit = some ua → b.unit = none →
      a.compatible_unit b conv = .error (.missingUnit (.inl ua))) ∧
    (∀ ua ub au bu, a.unit = some ua → b.unit = some ub →
      ua.unit_info_or_parse conv = .known au →
      ub.unit_info_or_parse conv = .known bu →
      (au.physical_quantity = bu.physical_quantity →
        a.compatible_unit b conv = .ok (some au)) ∧
      (au.physical_quantity ≠ bu.physical_quantity →
        a.compatible_unit b conv = .error
          (.differentPhysicalQuantities au.physical_quantity bu.physical_quantity))) ∧
    (∀ ua ub, a.unit = some ua → b.unit = some ub →
      (ua.unit_info_or_parse conv = .unknown ∨
        ub.unit_info_or_parse conv = .unknown) →
      (ua.text = ub.text → a.compatible_unit b conv = .ok none) ∧
      (ua.text ≠ ub.text → a.compatible_unit b conv = .error
        (.unknownDifferentUnits ua.text ub.text))) := by
  refine ⟨?_, ?_, ?_, ?_, ?_⟩
  · intro ha hb
    simp [Quantity.compatible_unit, ha, hb]
  · intro ub ha hb
    simp [Quantity.compatible_unit, ha, hb]
  · intro ua ha hb
    simp [Quantity.compatible_unit, ha, hb]

  · intro ua ub au bu ha hb hau hbu
    constructor
    · intro hpq
      simp [Quantity.compatible_unit, ha, hb, hau, hbu, hpq]
    · intro hpq
      simp [Quantity.compatible_unit, ha, hb, hau, hbu, hpq]
  · intro ua ub ha hb hunk
    cases hua : ua.unit_info_or_parse conv with
    | known au =>
      cases hub : ub.unit_info_or_parse conv with
      | known bu =>
        rcases hunk with h | h
        · rw [hua] at h; cases h
        · rw [hub] at h; cases h
      | unknown =>
        constructor
        · intro ht; simp [Quantity.compatible_unit, ha, hb, hua, hub, ht]
        · intro ht; simp [Quantity.compatible_unit, ha, hb, hua, hub, ht]
    | unknown =>
      cases hub : ub.unit_info_or_parse conv with
      | known bu =>
        constructor
        · intro ht; simp [Quantity.compatible_unit, ha, hb, hua, hub, ht]
        · intro ht; simp [Quantity.compatible_unit, ha, hb, hua, hub, ht]
      | unknown =>
        constructor
        · intro ht; simp [Quantity.compatible_unit, ha, hb, hua, hub, ht]
        · intro ht; simp [Quantity.compatible_unit, ha, hb, hua, hub, ht]

/-- C4 (witness): two quantities with no units are compatible with no
common unit. -/
theorem c4_compatible_unit_characterization_witness :
    (Quantity.new (.fixed (.number 1)) none).compatible_unit
      (Quantity.new (.fixed (.number 2)) none) Converter.empty = .ok none :=
  (c4_compatible_unit_characterization
    (Quantity.new (.fixed (.number 1)) none)
    (Quantity.new (.fixed (.number 2)) none) Converter.empty).1 rfl rfl

/-- C7: `with_recover` rolls back only the token cursor.  When the
sub-parse fails (`none`) the cursor equals its position before the call
while the diagnostics (errors and warnings) are exactly those the
sub-parse left behind; when it succeeds, the parser state is exactly what
the sub-parse produced. -/
theorem c7_with_recover_frame {α : Type}
    (f : LineParser → Except String (Option α × LineParser))
    (lp lp' : LineParser) (r : Option α)
    (h : lp.with_recover f = .ok (r, lp')) :
    (r = none → ∃ lp'', f lp = .ok (none, lp'') ∧
      lp' = { lp'' with current := lp.current } ∧
      lp'.current = lp.current ∧ lp'.errors = lp''.errors ∧
      lp'.warnings = lp''.warnings) ∧
    (∀ o, r = some o → f lp = .ok (some o, lp')) := by
  unfold LineParser.with_recover at h
  cases hf : f lp with
  | error m =>
    rw [hf] at h
    exact absurd h (by simp)
  | ok p =>
    obtain ⟨ro, lpf⟩ := p
    rw [hf] at h
    cases ro with
    | none =>
      simp only [Except.ok.injEq, Prod.mk.injEq] at h
      obtain ⟨hr, hlp⟩ := h
      subst hr
      subst hlp
      exact ⟨fun _ => ⟨lpf, rfl, rfl, rfl, rfl, rfl⟩, fun o ho => by cases ho⟩
    | some o =>
      simp only [Except.ok.injEq, Prod.mk.injEq] at h
      obtain ⟨hr, hlp⟩ := h
      subst hlp
      refine ⟨fun hn => ?_, fun o' ho' => ?_⟩
      · rw [← hr] at hn; cases hn
      · rw [← hr] at ho'
        cases ho'
        rfl

/-- C7 (witness): at a concrete one-token parser whose sub-parse advances
the cursor, records an error, and fails, the rollback restores the cursor
to `0` while the error stays. -/
theorem c7_with_recover_frame_witness :
    c7f c7lp = .ok (none, c7mid) ∧
    c7res = { c7mid with current := c7lp.current } ∧
    c7res.current = c7lp.current ∧ c7res.errors = c7mid.errors ∧
    c7res.warnings = c7mid.warnings := by
  obtain ⟨lp'', h1, h2, h3, h4, h5⟩ :=
    (c7_with_recover_frame c7f c7lp c7res none (by rfl)).1 rfl
  have hm : c7f c7lp = .ok (none, c7mid) := by rfl
  rw [h1] at hm
  injection hm with hm
  injection hm with _ hm
  subst hm
  exact ⟨h1, h2, h3, h4, h5⟩


/-- C9 (counterexample): with affine units (temperature offsets),
`try_add` is not commutative even up to the retained unit and in exact
arithmetic: `0°C + 0°F` gives `-160/9 °C`, while `0°F + 0°C` gives
`32 °F`, which converts to `0 °C`. -/
theorem c9_counterexample_affine_units :
    zeroCelsius.try_add zeroFahrenheit tempConverter
      = .ok ⟨.fixed (.number (-160/9)), some ⟨"°C", some (.known celsius)⟩⟩ ∧
    zeroFahrenheit.try_add zeroCelsius tempConverter
      = .ok ⟨.fixed (.number 32), some ⟨"°F", some (.known fahrenheit)⟩⟩ ∧
    tempConverter.convert_ ⟨.fixed (.number 32), some ⟨"°F", some (.known fahrenheit)⟩⟩
      (.toUnit celsius)
      = .ok ⟨.fixed (.number 0), some ⟨"°C", some (.known celsius)⟩⟩ ∧
    Value.number (-160/9 : ℚ) ≠ Value.number 0 := by
  have hne : ¬(fahrenheit = celsius) := by simp [fahrenheit, celsius]
  have hne' : ¬(celsius = fahrenheit) := by simp [fahrenheit, celsius]
  refine ⟨?_, ?_, ?_, ?_⟩
  · simp only [zeroCelsius, zeroFahrenheit, Quantity.try_add,
      Quantity.compatible_unit, QuantityUnit.unit_info_or_parse,
      Converter.convert_, Converter.convert2, Converter.convert_to_unit,
      Converter.convert_value, Converter.convert_f64, convert_f64,
      ConvertValue.ofValue, ConvertValue.toValue, Quantity.with_known_unit,
      Unit.symbolStr, Value.try_add, QuantityValue.try_add,
      QuantityValue.extract_value, celsius, fahrenheit]
    norm_num
  · simp only [zeroCelsius, zeroFahrenheit, Quantity.try_add,
      Quantity.compatible_unit, QuantityUnit.unit_info_or_parse,
      Converter.convert_, Converter.convert2, Converter.convert_to_unit,
      Converter.convert_value, Converter.convert_f64, convert_f64,
      ConvertValue.ofValue, ConvertValue.toValue, Quantity.with_known_unit,
      Unit.symbolStr, Value.try_add, QuantityValue.try_add,
      QuantityValue.extract_value, celsius, fahrenheit]
    norm_num
  · simp only [Converter.convert_, Converter.convert2,
      Converter.convert_to_unit, Converter.convert_value,
      Converter.convert_f64, convert_f64, ConvertValue.ofValue,
      ConvertValue.toValue, Quantity.with_known_unit, Unit.symbolStr,
      QuantityUnit.unit_info_or_parse, celsius, fahrenheit]
    norm_num
  · intro h
    rw [Value.number.injEq] at h
    norm_num at h


/-- A successful `ConvertValue` extraction means the value was not text. -/
lemma ofValue_ok_not_text {v : Value} {cv : ConvertValue}
    (h : ConvertValue.ofValue v = .ok cv) : v.is_text = false := by
  cases v <;> simp [ConvertValue.ofValue, Value.is_text] at h ⊢

/-- A converted value is never text. -/
lemma toValue_not_text (cv : ConvertValue) : cv.toValue.is_text = false := by
  cases cv <;> simp [ConvertValue.toValue, Value.is_text]

/-- The `ByServings` conversion loop preserves the number of values and
only succeeds on text-free inputs (producing text-free outputs). -/
lemma convertServingsLoop_ok_shape {c : Converter} {u : Unit} {tgt : ConvertTo} :
    ∀ {values values' : List Value} {lastu : Option Unit},
    c.convertServingsLoop u tgt values = .ok (values', lastu) →
    values'.length = values.length ∧
    values.all (fun v => !v.is_text) = true ∧
    values'.all (fun v => !v.is_text) = true := by
  intro values
  induction values with
  | nil =>
    intro values' lastu h
    simp only [Converter.convertServingsLoop, Except.ok.injEq, Prod.mk.injEq] at h
    obtain ⟨h1, _⟩ := h
    subst h1
    simp
  | cons v rest ih =>
    intro values' lastu h
    unfold Converter.convertServingsLoop at h
    cases hcv : ConvertValue.ofValue v with
    | error t => rw [hcv] at h; simp at h
    | ok cv =>
      rw [hcv] at h
      try simp only [] at h
      cases hc2 : c.convert2 cv u tgt with
      | error e => rw [hc2] at h; simp at h
      | ok p =>
        obtain ⟨value, u'⟩ := p
        rw [hc2] at h
        try simp only [] at h
        cases hloop : c.convertServingsLoop u tgt rest with
        | error e => rw [hloop] at h; simp at h
        | ok p' =>
          obtain ⟨vs, last⟩ := p'
          rw [hloop] at h
          simp only [Except.ok.injEq, Prod.mk.injEq] at h
          obtain ⟨hv', _⟩ := h
          subst hv'
          obtain ⟨hlen, hall, hall'⟩ := ih hloop
          refine ⟨by simp [hlen], ?_, ?_⟩
          · simp [ofValue_ok_not_text hcv, hall]
          · simp [toValue_not_text, hall']

/-- Shape of a successful `Converter::convert_`: the value variant is
preserved (`ByServings` keeps its length), the result's unit is cached as
known, and neither the input nor the output value contains text. -/
lemma convert_ok_shape {c : Converter} {q : Quantity} {tgt : ConvertTo}
    {q' : Quantity} (h : c.convert_ q tgt = .ok q') :
    variantPreserved q.value q'.value ∧
    (∃ t u, q'.unit = some ⟨t, some (.known u)⟩) ∧
    q.value.contains_text_value = false ∧
    q'.value.contains_text_value = false := by
  unfold Converter.convert_ at h
  cases hu : q.unit with
  | none => rw [hu] at h; simp at h
  | some qu =>
    rw [hu] at h
    try simp only [] at h
    cases hinfo : qu.unit_info_or_parse c with
    | unknown => rw [hinfo] at h; simp at h
    | known u =>
      rw [hinfo] at h
      try simp only [] at h
      cases hv : q.value with
      | fixed v =>
        rw [hv] at h
        try simp only [] at h
        cases hcv : ConvertValue.ofValue v with
        | error t => rw [hcv] at h; simp at h
        | ok cv =>
          rw [hcv] at h
          try simp only [] at h
          cases hc2 : c.convert2 cv u tgt with
          | error e => rw [hc2] at h; simp at h
          | ok p =>
            obtain ⟨value, unit⟩ := p
            rw [hc2] at h
            try simp only [] at h
            cases hs : unit.symbolStr with
            | none => rw [hs] at h; simp at h
            | some text =>
              rw [hs] at h
              simp only [Except.ok.injEq] at h
              subst h
              refine ⟨?_, ⟨text, unit, rfl⟩, ?_, ?_⟩
              · simp [hv, Quantity.with_known_unit, variantPreserved]
              · simp [hv, QuantityValue.contains_text_value,
                  ofValue_ok_not_text hcv]
              · simp [Quantity.with_known_unit, QuantityValue.contains_text_value,
                  toValue_not_text]
      | linear v =>
        rw [hv] at h
        try simp only [] at h
        cases hcv : ConvertValue.ofValue v with
        | error t => rw [hcv] at h; simp at h
        | ok cv =>
          rw [hcv] at h
          try simp only [] at h
          cases hc2 : c.convert2 cv u tgt with
          | error e => rw [hc2] at h; simp at h
          | ok p =>
            obtain ⟨value, unit⟩ := p
            rw [hc2] at h
            try simp only [] at h
            cases hs : unit.symbolStr with
            | none => rw [hs] at h; simp at h
            | some text =>
              rw [hs] at h
              simp only [Except.ok.injEq] at h
              subst h
              refine ⟨?_, ⟨text, unit, rfl⟩, ?_, ?_⟩
              · simp [hv, Quantity.with_known_unit, variantPreserved]
              · simp [hv, QuantityValue.contains_text_value,
                  ofValue_ok_not_text hcv]
              · simp [Quantity.with_known_unit, QuantityValue.contains_text_value,
                  toValue_not_text]
      | byServings values =>
        rw [hv] at h
        try simp only [] at h
        cases hloop : c.convertServingsLoop u tgt values with
        | error e => rw [hloop] at h; simp at h
        | ok p =>
          obtain ⟨new_values, lastu⟩ := p
          rw [hloop] at h
          try simp only [] at h
          cases lastu with
          | none => simp at h
          | some unit =>
            try simp only [] at h
            cases hs : unit.symbolStr with
            | none => rw [hs] at h; simp at h
            | some text =>
              rw [hs] at h
              simp only [Except.ok.injEq] at h
              subst h
              obtain ⟨hlen, hall, hall'⟩ := convertServingsLoop_ok_shape hloop
              refine ⟨?_, ⟨text, unit, rfl⟩, ?_, ?_⟩
              · simp [hv, Quantity.with_known_unit, variantPreserved, hlen]
              · simp only [hv, QuantityValue.contains_text_value]
                cases hany : values.any Value.is_text with
                | false => rfl
                | true =>
                  obtain ⟨x, hx, hxt⟩ := List.any_eq_true.mp hany
                  have hax := List.all_eq_true.mp hall x hx
                  rw [hxt] at hax
                  simp at hax
              · simp only [Quantity.with_known_unit,
                  QuantityValue.contains_text_value]
                cases hany : new_values.any Value.is_text with
                | false => rfl
                | true =>
                  obtain ⟨x, hx, hxt⟩ := List.any_eq_true.mp hany
                  have hax := List.all_eq_true.mp hall' x hx
                  rw [hxt] at hax
                  simp at hax

/-- C10: when `Converter::convert` succeeds, the `QuantityValue` variant
of the input is preserved (`Fixed` stays `Fixed`, `Linear` stays `Linear`,
`ByServings` stays `ByServings` with the same number of values), and the
result always carries a unit whose parsed info is `Known`. -/
theorem c10_convert_preserves_variant_known_unit (c : Converter) (q : Quantity)
    (tgt : ConvertTo) (q' : Quantity) (h : c.convert_ q tgt = .ok q') :
    variantPreserved q.value q'.value ∧
    ∃ t u, q'.unit = some ⟨t, some (.known u)⟩ :=
  ⟨(convert_ok_shape h).1, (convert_ok_shape h).2.1⟩

/-- C10 (witness): converting `0 °F` to `°C` succeeds, keeps the `Fixed`
variant, and yields a known-unit quantity. -/
theorem c10_convert_preserves_variant_known_unit_witness :
    variantPreserved zeroFahrenheit.value c10res.value ∧
    ∃ t u, c10res.unit = some ⟨t, some (.known u)⟩ := by
  have hval : tempConverter.convert_ zeroFahrenheit (.toUnit celsius)
      = .ok ⟨.fixed (.number (-160/9)), some ⟨"°C", some (.known celsius)⟩⟩ := by
    simp only [zeroFahrenheit, Converter.convert_, Converter.convert2,
      Converter.convert_to_unit, Converter.convert_value, Converter.convert_f64,
      convert_f64, ConvertValue.ofValue, ConvertValue.toValue,
      Quantity.with_known_unit, Unit.symbolStr, QuantityUnit.unit_info_or_parse,
      celsius, fahrenheit]
    norm_num
  have h : tempConverter.convert_ zeroFahrenheit (.toUnit celsius) = .ok c10res := by
    simp only [c10res, hval]
  exact c10_convert_preserves_variant_known_unit tempConverter zeroFahrenheit
    (.toUnit celsius) c10res h


/-- Variant preservation entails equal scalability. -/
lemma variant_isScalable {v v' : QuantityValue} (h : variantPreserved v v') :
    v.isScalable = v'.isScalable := by
  cases v <;> cases v' <;>
    simp_all [variantPreserved, QuantityValue.isScalable]

/-- `QuantityValue::try_add` errors whenever either side is scalable or
contains a text value. -/
lemma qv_try_add_error {x y : QuantityValue}
    (h : (x.isScalable || y.isScalable || x.contains_text_value
      || y.contains_text_value) = true) :
    ∃ e, x.try_add y = .error e := by
  cases x with
  | linear v =>
    exact ⟨.notScaled (.linear v),
      by simp [QuantityValue.try_add, QuantityValue.extract_value]⟩
  | byServings vs =>
    exact ⟨.notScaled (.byServings vs),
      by simp [QuantityValue.try_add, QuantityValue.extract_value]⟩
  | fixed vx =>
    cases y with
    | linear v =>
      exact ⟨.notScaled (.linear v),
        by simp [QuantityValue.try_add, QuantityValue.extract_value]⟩
    | byServings vs =>
      exact ⟨.notScaled (.byServings vs),
        by simp [QuantityValue.try_add, QuantityValue.extract_value]⟩
    | fixed vy =>
      simp only [QuantityValue.isScalable, QuantityValue.contains_text_value,
        Bool.false_or] at h
      cases vx with
      | text t =>
        refine ⟨.textValue (.text t), ?_⟩
        cases vy <;>
          simp [QuantityValue.try_add, QuantityValue.extract_value, Value.try_add]
      | number n =>
        cases vy with
        | text t =>
          exact ⟨.textValue (.text t), by
            simp [QuantityValue.try_add, QuantityValue.extract_value, Value.try_add]⟩
        | number m => simp [Value.is_text] at h
        | range s e => simp [Value.is_text] at h
      | range s e =>
        cases vy with
        | text t =>
          exact ⟨.textValue (.text t), by
            simp [QuantityValue.try_add, QuantityValue.extract_value, Value.try_add]⟩
        | number m => simp [Value.is_text] at h
        | range s' e' => simp [Value.is_text] at h

/-- For non-text values, `Value::try_add` computes exactly the spec's
sum. -/
lemma value_try_add_eq_spec {va vb : Value} (ha : va.is_text = false)
    (hb : vb.is_text = false) :
    va.try_add vb = .ok (specValueSum va vb) := by
  cases va <;> cases vb <;>
    simp_all [Value.is_text, Value.try_add, specValueSum]

/-- Inversion of a `compatible_unit` success with a common unit: both
units are present and parse to known units of the same physical quantity,
the left one being the common unit. -/
lemma compatible_some_inv {a b : Quantity} {conv : Converter} {u : Unit}
    (h : a.compatible_unit b conv = .ok (some u)) :
    ∃ ua ub bu, a.unit = some ua ∧ b.unit = some ub ∧
      ua.unit_info_or_parse conv = .known u ∧
      ub.unit_info_or_parse conv = .known bu ∧
      u.physical_quantity = bu.physical_quantity := by
  unfold Quantity.compatible_unit at h
  cases hua : a.unit with
  | none =>
    rw [hua] at h
    cases hub : b.unit with
    | none => rw [hub] at h; simp at h
    | some ub => rw [hub] at h; simp at h
  | some ua =>
    rw [hua] at h
    cases hub : b.unit with
    | none => rw [hub] at h; simp at h
    | some ub =>
      rw [hub] at h
      try simp only [] at h
      cases hia : ua.unit_info_or_parse conv with
      | unknown =>
        rw [hia] at h
        try simp only [] at h
        split at h <;> simp at h
      | known au =>
        rw [hia] at h
        try simp only [] at h
        cases hib : ub.unit_info_or_parse conv with
        | unknown =>
          rw [hib] at h
          try simp only [] at h
          split at h <;> simp at h
        | known bu =>
          rw [hib] at h
          try simp only [] at h
          split at h
          · simp at h
          · simp only [Except.ok.injEq, Option.some.injEq] at h
            subst h
            rename_i hpq
            simp only [ne_eq, Decidable.not_not] at hpq
            exact ⟨ua, ub, bu, rfl, rfl, hia, hib, hpq⟩

/-- Converting a fixed, non-text, known-unit quantity to a known unit of
the same physical quantity succeeds and applies `convert_value`. -/
lemma convert_fixed_known_to_unit {conv : Converter} {b : Quantity}
    {ub : QuantityUnit} {bu u : Unit} {vb : Value} {cv : ConvertValue} {s : String}
    (hub : b.unit = some ub) (hinfo : ub.unit_info_or_parse conv = .known bu)
    (hv : b.value = .fixed vb) (hcv : ConvertValue.ofValue vb = .ok cv)
    (hpq : bu.physical_quantity = u.physical_quantity)
    (hs : u.symbolStr = some s) :
    conv.convert_ b (.toUnit u)
      = .ok (Quantity.with_known_unit
          (.fixed ((conv.convert_value cv bu u).toValue)) s (some u)) := by
  unfold Converter.convert_
  rw [hub]
  simp only []
  rw [hinfo]
  simp only []
  rw [hv]
  simp only []
  rw [hcv]
  simp only [Converter.convert2, Converter.convert_to_unit, hpq]
  simp [hs]


/-- Every non-text value extracts to a `ConvertValue`. -/
lemma ofValue_ok_of_not_text {v : Value} (h : v.is_text = false) :
    ∃ cv, ConvertValue.ofValue v = .ok cv := by
  cases v with
  | number n => exact ⟨.number n, rfl⟩
  | range s e => exact ⟨.range s e, rfl⟩
  | text t => simp [Value.is_text] at h

/-- C8: `Quantity::try_add` errors whenever either operand's value is
scalable (`Linear` or `ByServings`) or contains a text value; for
compatible `Fixed` non-text values it sums the values — converting the
right operand into the common unit when both units are known — and the
result retains the left operand's unit. -/
theorem c8_try_add_error_conditions_and_sum :
    (∀ (a b : Quantity) (conv : Converter),
      (a.value.isScalable || b.value.isScalable
        || a.value.contains_text_value || b.value.contains_text_value) = true →
      ∃ e, a.try_add b conv = .error e) ∧
    (∀ (a b : Quantity) (conv : Converter) (va vb : Value),
      a.value = .fixed va → b.value = .fixed vb →
      va.is_text = false → vb.is_text = false →
      (a.compatible_unit b conv = .ok none →
        a.try_add b conv = .ok ⟨.fixed (specValueSum va vb), a.unit⟩) ∧
      (∀ u s, a.compatible_unit b conv = .ok (some u) → u.symbolStr = some s →
        ∃ vb', vb'.is_text = false ∧
          conv.convert_ b (.toUnit u)
            = .ok (Quantity.with_known_unit (.fixed vb') s (some u)) ∧
          a.try_add b conv = .ok ⟨.fixed (specValueSum va vb'), a.unit⟩)) := by
  constructor
  · intro a b conv hcond
    cases hc : a.compatible_unit b conv with
    | error e =>
      refine ⟨.incompatibleUnits e, ?_⟩
      unfold Quantity.try_add
      rw [hc]
    | ok cu =>
      cases cu with
      | none =>
        obtain ⟨e, he⟩ := qv_try_add_error hcond
        refine ⟨e, ?_⟩
        unfold Quantity.try_add
        rw [hc]
        try simp only []
        rw [he]
      | some u =>
        cases hcv : conv.convert_ b (.toUnit u) with
        | error e =>
          refine ⟨.convert e, ?_⟩
          unfold Quantity.try_add
          rw [hc]
          try simp only []
          rw [hcv]
        | ok q'' =>
          obtain ⟨hvar, _, hbt, _⟩ := convert_ok_shape hcv
          have hse := variant_isScalable hvar
          have hsc : (a.value.isScalable || q''.value.isScalable
              || a.value.contains_text_value
              || q''.value.contains_text_value) = true := by
            have h1 := hcond
            rw [hbt, hse] at h1
            simp only [Bool.or_false] at h1
            simp only [Bool.or_eq_true] at h1 ⊢
            tauto
          obtain ⟨e, he⟩ := qv_try_add_error hsc
          refine ⟨e, ?_⟩
          unfold Quantity.try_add
          rw [hc]
          try simp only []
          rw [hcv]
          try simp only []
          rw [he]
  · intro a b conv va vb h1 h2 h3 h4
    constructor
    · intro hcomp
      have hadd := value_try_add_eq_spec h3 h4
      unfold Quantity.try_add
      rw [hcomp]
      try simp only []
      rw [h1, h2]
      simp only [QuantityValue.try_add, QuantityValue.extract_value]
      rw [value_try_add_eq_spec h3 h4]
    · intro u s hcomp hs
      obtain ⟨ua, ub, bu, hua, hub, hia, hib, hpq⟩ := compatible_some_inv hcomp
      obtain ⟨cv, hcv⟩ := ofValue_ok_of_not_text h4
      have hconv := convert_fixed_known_to_unit hub hib h2 hcv hpq.symm hs
      refine ⟨(conv.convert_value cv bu u).toValue,
        toValue_not_text _, hconv, ?_⟩
      unfold Quantity.try_add
      rw [hcomp]
      try simp only []
      rw [hconv]
      try simp only []
      simp only [Quantity.with_known_unit]
      rw [h1]
      simp only [QuantityValue.try_add, QuantityValue.extract_value]
      rw [value_try_add_eq_spec h3 (toValue_not_text _)]

/-- C8 (witness): two unit-less fixed numbers add to their sum, and the
error branch fires on a linear left operand. -/
theorem c8_try_add_error_conditions_and_sum_witness :
    (∃ e, (Quantity.new (.linear (.number 1)) none).try_add
      (Quantity.new (.fixed (.number 2)) none) Converter.empty = .error e) ∧
    (Quantity.new (.fixed (.number 1)) none).try_add
      (Quantity.new (.fixed (.number 2)) none) Converter.empty
      = .ok ⟨.fixed (specValueSum (.number 1) (.number 2)), none⟩ := by
  constructor
  · exact c8_try_add_error_conditions_and_sum.1
      (Quantity.new (.linear (.number 1)) none)
      (Quantity.new (.fixed (.number 2)) none) Converter.empty (by rfl)
  · exact ((c8_try_add_error_conditions_and_sum.2
      (Quantity.new (.fixed (.number 1)) none)
      (Quantity.new (.fixed (.number 2)) none) Converter.empty
      (.number 1) (.number 2) rfl rfl rfl rfl).1) (by rfl)


/-- The spec sum of two non-text values is symmetric. -/
lemma specValueSum_comm {va vb : Value} (ha : va.is_text = false)
    (hb : vb.is_text = false) : specValueSum va vb = specValueSum vb va := by
  cases va <;> cases vb <;>
    simp_all [Value.is_text, specValueSum, add_comm]

/-- The spec sum of two non-text values is not text. -/
lemma specValueSum_not_text {va vb : Value} (ha : va.is_text = false)
    (hb : vb.is_text = false) : (specValueSum va vb).is_text = false := by
  cases va <;> cases vb <;> simp_all [Value.is_text, specValueSum]

/-- `ConvertValue` extraction round-trips. -/
lemma ofValue_roundtrip {v : Value} {cv : ConvertValue}
    (h : ConvertValue.ofValue v = .ok cv) : cv.toValue = v := by
  cases v with
  | number n =>
    simp only [ConvertValue.ofValue, Except.ok.injEq] at h
    subst h
    rfl
  | range a b =>
    simp only [ConvertValue.ofValue, Except.ok.injEq] at h
    subst h
    rfl
  | text t => simp [ConvertValue.ofValue] at h

/-- Converting between identical units is the identity. -/
lemma convert_value_self (c : Converter) (cv : ConvertValue) (u : Unit) :
    c.convert_value cv u u = cv := by
  cases cv <;> simp [Converter.convert_value, Converter.convert_f64]

/-- `Quantity::try_add` on fixed non-text operands whose right side is
converted into the common unit: the result is the spec sum with the
converted right value, retaining the left unit. -/
lemma try_add_fixed_conv {a b : Quantity} {conv : Converter} {va vb : Value}
    {u bu : Unit} {ub : QuantityUnit} {s : String} {cv : ConvertValue}
    (h1 : a.value = .fixed va) (h2 : b.value = .fixed vb)
    (h3 : va.is_text = false)
    (hcomp : a.compatible_unit b conv = .ok (some u))
    (hub : b.unit = some ub) (hib : ub.unit_info_or_parse conv = .known bu)
    (hcv : ConvertValue.ofValue vb = .ok cv)
    (hpq : bu.physical_quantity = u.physical_quantity)
    (hs : u.symbolStr = some s) :
    a.try_add b conv
      = .ok ⟨.fixed (specValueSum va ((conv.convert_value cv bu u).toValue)),
             a.unit⟩ := by
  have hconv := convert_fixed_known_to_unit hub hib h2 hcv hpq hs
  unfold Quantity.try_add
  rw [hcomp]
  try simp only []
  rw [hconv]
  try simp only []
  simp only [Quantity.with_known_unit]
  rw [h1]
  simp only [QuantityValue.try_add, QuantityValue.extract_value]
  rw [value_try_add_eq_spec h3 (toValue_not_text _)]

/-- C9 (amended): `try_add` is commutative up to the retained unit for
compatible fixed non-text values, provided the units are non-affine: when
both units are missing or both are unknown with equal text, the two sums
are equal outright; when both units are known with the same physical
quantity, zero conversion offsets and nonzero ratios, converting the
swapped sum into the left unit gives the direct sum (exact-rational
arithmetic). -/
theorem c9_try_add_commutative_nonaffine :
    (∀ (a b : Quantity) (conv : Converter) (va vb : Value),
      a.unit = none → b.unit = none →
      a.value = .fixed va → b.value = .fixed vb →
      va.is_text = false → vb.is_text = false →
      a.try_add b conv = .ok ⟨.fixed (specValueSum va vb), none⟩ ∧
      b.try_add a conv = .ok ⟨.fixed (specValueSum va vb), none⟩) ∧
    (∀ (a b : Quantity) (conv : Converter) (ua ub : QuantityUnit) (va vb : Value),
      a.unit = some ua → b.unit = some ub →
      ua.unit_info_or_parse conv = .unknown →
      ub.unit_info_or_parse conv = .unknown →
      ua.text = ub.text →
      a.value = .fixed va → b.value = .fixed vb →
      va.is_text = false → vb.is_text = false →
      a.try_add b conv = .ok ⟨.fixed (specValueSum va vb), a.unit⟩ ∧
      b.try_add a conv = .ok ⟨.fixed (specValueSum va vb), b.unit⟩) ∧
    (∀ (a b : Quantity) (conv : Converter) (ua ub : QuantityUnit) (au bu : Unit)
      (va vb : Value) (sa sb : String),
      a.unit = some ua → b.unit = some ub →
      ua.unit_info_or_parse conv = .known au →
      ub.unit_info_or_parse conv = .known bu →
      au.physical_quantity = bu.physical_quantity →
      au.difference = 0 → bu.difference = 0 →
      au.ratio ≠ 0 → bu.ratio ≠ 0 →
      au.symbolStr = some sa → bu.symbolStr = some sb →
      a.value = .fixed va → b.value = .fixed vb →
      va.is_text = false → vb.is_text = false →
      ∃ vab vba, a.try_add b conv = .ok ⟨.fixed vab, a.unit⟩ ∧
        b.try_add a conv = .ok ⟨.fixed vba, b.unit⟩ ∧
        conv.convert_ ⟨.fixed vba, b.unit⟩ (.toUnit au)
          = .ok (Quantity.with_known_unit (.fixed vab) sa (some au))) := by
  refine ⟨?_, ?_, ?_⟩
  · intro a b conv va vb hua hub h1 h2 h3 h4
    have hc1 : a.compatible_unit b conv = .ok none := by
      unfold Quantity.compatible_unit
      rw [hua, hub]
    have hc2 : b.compatible_unit a conv = .ok none := by
      unfold Quantity.compatible_unit
      rw [hua, hub]
    constructor
    · unfold Quantity.try_add
      rw [hc1]
      try simp only []
      rw [h1, h2]
      simp only [QuantityValue.try_add, QuantityValue.extract_value]
      rw [value_try_add_eq_spec h3 h4, hua]
    · unfold Quantity.try_add
      rw [hc2]
      try simp only []
      rw [h1, h2]
      simp only [QuantityValue.try_add, QuantityValue.extract_value]
      rw [value_try_add_eq_spec h4 h3, hub, specValueSum_comm h4 h3]
  · intro a b conv ua ub va vb hua hub hia hib htext h1 h2 h3 h4
    have hc1 : a.compatible_unit b conv = .ok none := by
      unfold Quantity.compatible_unit
      rw [hua, hub]
      try simp only []
      rw [hia, hib]
      simp [htext]
    have hc2 : b.compatible_unit a conv = .ok none := by
      unfold Quantity.compatible_unit
      rw [hua, hub]
      try simp only []
      rw [hia, hib]
      simp [htext]
    constructor
    · unfold Quantity.try_add
      rw [hc1]
      try simp only []
      rw [h1, h2]
      simp only [QuantityValue.try_add, QuantityValue.extract_value]
      rw [value_try_add_eq_spec h3 h4]
    · unfold Quantity.try_add
      rw [hc2]
      try simp only []
      rw [h1, h2]
      simp only [QuantityValue.try_add, QuantityValue.extract_value]
      rw [value_try_add_eq_spec h4 h3, specValueSum_comm h4 h3]
  · intro a b conv ua ub au bu va vb sa sb hua hub hia hib hpq hd1 hd2 hr1 hr2
      hsa hsb h1 h2 h3 h4
    obtain ⟨cva, hcva⟩ := ofValue_ok_of_not_text h3
    obtain ⟨cvb, hcvb⟩ := ofValue_ok_of_not_text h4
    have hc1 : a.compatible_unit b conv = .ok (some au) := by
      unfold Quantity.compatible_unit
      rw [hua, hub]
      try simp only []
      rw [hia, hib]
      simp [hpq]
    have hc2 : b.compatible_unit a conv = .ok (some bu) := by
      unfold Quantity.compatible_unit
      rw [hua, hub]
      try simp only []
      rw [hia, hib]
      simp [hpq]
    have had1 := try_add_fixed_conv h1 h2 h3 hc1 hub hib hcvb hpq.symm hsa
    have had2 := try_add_fixed_conv h2 h1 h4 hc2 hua hia hcva hpq hsb
    have hvba_nt : (specValueSum vb ((conv.convert_value cva au bu).toValue)).is_text
        = false := specValueSum_not_text h4 (toValue_not_text _)
    obtain ⟨cvc, hcvc⟩ := ofValue_ok_of_not_text hvba_nt
    have hconv3 := convert_fixed_known_to_unit
      (b := ⟨.fixed (specValueSum vb ((conv.convert_value cva au bu).toValue)),
             b.unit⟩)
      hub hib rfl hcvc hpq.symm hsa
    refine ⟨specValueSum va ((conv.convert_value cvb bu au).toValue),
      specValueSum vb ((conv.convert_value cva au bu).toValue),
      had1, had2, ?_⟩
    rw [hconv3]
    simp only [Quantity.with_known_unit, Except.ok.injEq, Quantity.mk.injEq,
      QuantityValue.fixed.injEq, and_true, true_and]
    by_cases heq : au = bu
    · subst heq
      rw [convert_value_self, ofValue_roundtrip hcvc, convert_value_self,
        convert_value_self, ofValue_roundtrip hcva, ofValue_roundtrip hcvb]
      exact specValueSum_comm h4 h3
    · have hne1 : ¬(bu = au) := fun h => heq h.symm
      have hne2 : ¬(au = bu) := heq
      cases va with
      | text t => simp [Value.is_text] at h3
      | number na =>
        simp only [ConvertValue.ofValue, Except.ok.injEq] at hcva
        subst hcva
        cases vb with
        | text t => simp [Value.is_text] at h4
        | number nb =>
          simp only [ConvertValue.ofValue, Except.ok.injEq] at hcvb
          subst hcvb
          simp only [Converter.convert_value, ConvertValue.toValue, specValueSum,
            ConvertValue.ofValue, Except.ok.injEq] at hcvc
          subst hcvc
          simp only [Converter.convert_value, ConvertValue.toValue, specValueSum,
            Converter.convert_f64, convert_f64, hd1, hd2, hne1, hne2, if_false,
            Value.number.injEq, Value.range.injEq, add_zero, sub_zero]
          field_simp
          try ring
        | range sb' eb' =>
          simp only [ConvertValue.ofValue, Except.ok.injEq] at hcvb
          subst hcvb
          simp only [Converter.convert_value, ConvertValue.toValue, specValueSum,
            ConvertValue.ofValue, Except.ok.injEq] at hcvc
          subst hcvc
          simp only [Converter.convert_value, ConvertValue.toValue, specValueSum,
            Converter.convert_f64, convert_f64, hd1, hd2, hne1, hne2, if_false,
            Value.number.injEq, Value.range.injEq, add_zero, sub_zero]
          constructor <;> (field_simp; try ring)
      | range sa' ea' =>
        simp only [ConvertValue.ofValue, Except.ok.injEq] at hcva
        subst hcva
        cases vb with
        | text t => simp [Value.is_text] at h4
        | number nb =>
          simp only [ConvertValue.ofValue, Except.ok.injEq] at hcvb
          subst hcvb
          simp only [Converter.convert_value, ConvertValue.toValue, specValueSum,
            ConvertValue.ofValue, Except.ok.injEq] at hcvc
          subst hcvc
          simp only [Converter.convert_value, ConvertValue.toValue, specValueSum,
            Converter.convert_f64, convert_f64, hd1, hd2, hne1, hne2, if_false,
            Value.number.injEq, Value.range.injEq, add_zero, sub_zero]
          constructor <;> (field_simp; try ring)
        | range sb' eb' =>
          simp only [ConvertValue.ofValue, Except.ok.injEq] at hcvb
          subst hcvb
          simp only [Converter.convert_value, ConvertValue.toValue, specValueSum,
            ConvertValue.ofValue, Except.ok.injEq] at hcvc
          subst hcvc
          simp only [Converter.convert_value, ConvertValue.toValue, specValueSum,
            Converter.convert_f64, convert_f64, hd1, hd2, hne1, hne2, if_false,
            Value.number.injEq, Value.range.injEq, add_zero, sub_zero]
          constructor <;> (field_simp; try ring)


/-- C9 (witness): two unit-less fixed numbers add commutatively. -/
theorem c9_try_add_commutative_nonaffine_witness :
    (Quantity.new (.fixed (.number 1)) none).try_add
      (Quantity.new (.fixed (.number 2)) none) Converter.empty
      = .ok ⟨.fixed (specValueSum (.number 1) (.number 2)), none⟩ ∧
    (Quantity.new (.fixed (.number 2)) none).try_add
      (Quantity.new (.fixed (.number 1)) none) Converter.empty
      = .ok ⟨.fixed (specValueSum (.number 1) (.number 2)), none⟩ :=
  c9_try_add_commutative_nonaffine.1 (Quantity.new (.fixed (.number 1)) none)
    (Quantity.new (.fixed (.number 2)) none) Converter.empty
    (.number 1) (.number 2) rfl rfl rfl rfl rfl rfl


/-! ### Walker preservation lemmas, toward the step-numbering and
reference-integrity invariants -/

/-- `Walker::value` only appends diagnostics: the returned state is the
input state with (possibly) new errors and warnings. -/
lemma value_st (st : WalkerSt) (v : AstQuantityValue) (b : Bool)
    (st' : WalkerSt) (qv : QuantityValue) (h : Walker.value st v b = (st', qv)) :
    ∃ es ws, st' = { st with errors := es, warnings := ws } := by
  simp only [Walker.value] at h
  repeat' split at h
  all_goals (injection h with h1 h2; subst h1; exact ⟨_, _, rfl⟩)

/-- `Walker::quantity` only appends diagnostics. -/
lemma quantity_st (st : WalkerSt) (q : Located AstQuantity) (b : Bool)
    (st' : WalkerSt) (qq : Quantity) (h : Walker.quantity st q b = (st', qq)) :
    ∃ es ws, st' = { st with errors := es, warnings := ws } := by
  simp only [Walker.quantity] at h
  rcases hv : Walker.value st q.val.value b with ⟨st₁, v₁⟩
  rw [hv] at h
  simp only [] at h
  injection h with h1 h2
  subst h1
  exact value_st st q.val.value b st₁ v₁ hv

/-- `Walker::metadata` never touches the current section, the step
counter, the flushed sections, or the component lists. -/
lemma metadata_pres (st : WalkerSt) (k v : Text) :
    (Walker.metadata st k v).current_section = st.current_section ∧
    (Walker.metadata st k v).step_counter = st.step_counter ∧
    (Walker.metadata st k v).content.sections = st.content.sections ∧
    (Walker.metadata st k v).content.ingredients = st.content.ingredients ∧
    (Walker.metadata st k v).content.cookware = st.content.cookware := by
  simp only [Walker.metadata]
  repeat' split
  all_goals exact ⟨rfl, rfl, rfl, rfl, rfl⟩

/-- `rposition` returns the index of an element satisfying the
predicate. -/
lemma rposition_spec {α : Type} (p : α → Bool) :
    ∀ (l : List α) (i : Nat), rposition p l = some i →
      ∃ x, l[i]? = some x ∧ p x = true := by
  intro l
  induction l with
  | nil => intro i h; simp [rposition] at h
  | cons a tl ih =>
    intro i h
    unfold rposition at h
    cases htl : rposition p tl with
    | some j =>
      rw [htl] at h
      simp only [] at h
      simp only [Option.some.injEq] at h
      subst h
      obtain ⟨x, hx, hp⟩ := ih j htl
      exact ⟨x, by simpa using hx, hp⟩
    | none =>
      rw [htl] at h
      simp only [] at h
      split at h
      · simp only [Option.some.injEq] at h
        subst h
        exact ⟨a, by simp, by assumption⟩
      · exact Option.noConfusion h

/-- The only panic in `resolve_intermediate_ref` is the negative-value
assertion. -/
lemma resolve_intermediate_err (st : WalkerSt) (d : Located IntermediateData)
    (m : String) (h : Walker.resolve_intermediate_ref st d = .error m) :
    m = "negative intermediate reference value" := by
  simp only [Walker.resolve_intermediate_ref] at h
  repeat' split at h
  all_goals first
  | (injection h with h1; exact h1.symm)
  | exact Except.noConfusion h

/-- A successful intermediate-reference resolution never yields an
ingredient-kind reference. -/
lemma resolve_intermediate_ok (st : WalkerSt) (d : Located IntermediateData)
    (rel : IngredientRelation) (h : Walker.resolve_intermediate_ref st d = .ok (.ok rel)) :
    ∀ k, rel ≠ .reference k .ingredientTarget := by
  simp only [Walker.resolve_intermediate_ref] at h
  repeat' split at h
  all_goals (try exact Except.noConfusion h)
  all_goals simp only [Except.ok.injEq] at h
  all_goals (try exact Except.noConfusion h)
  all_goals (subst h; intro k; simp)

/-- `set_referenced_from` on a definition target succeeds and pushes the
back-link. -/
lemma ing_set_ref_ok (all : List Ingredient) (k : Nat) (tgt : Ingredient)
    (rf : List Nat) (h1 : all[k]? = some tgt) (h2 : tgt.relation = .definition rf) :
    Ingredient.set_referenced_from all k =
      .ok (all.set k { tgt with relation := .definition (rf ++ [all.length]) }) := by
  unfold Ingredient.set_referenced_from
  rw [h1]
  simp only []
  rw [h2]

/-- Cookware version of `ing_set_ref_ok`. -/
lemma cw_set_ref_ok (all : List Cookware) (k : Nat) (tgt : Cookware)
    (rf : List Nat) (h1 : all[k]? = some tgt) (h2 : tgt.relation = .definition rf) :
    Cookware.set_referenced_from all k =
      .ok (all.set k { tgt with relation := .definition (rf ++ [all.length]) }) := by
  unfold Cookware.set_referenced_from
  rw [h1]
  simp only []
  rw [h2]


/-- Overwriting an index with a definition preserves the ingredient-list
invariant. -/
lemma IngInv_set (l : List Ingredient) (k : Nat) (tgt : Ingredient)
    (rf' : List Nat) (h1 : l[k]? = some tgt) (hinv : IngInv l) :
    IngInv (l.set k { tgt with relation := .definition rf' }) := by
  obtain ⟨hdef, href⟩ := hinv
  have hk : k < l.length := (List.getElem?_eq_some.mp h1).1
  constructor
  · intro i hi hri
    rcases List.mem_or_eq_of_mem_set hi with hmem | rfl
    · exact hdef i hmem hri
    · exact ⟨rf', rfl⟩
  · intro i hi k' hk'
    have hrel : ∃ tgt2, l[k']? = some tgt2 ∧ ∃ rf2, tgt2.relation = .definition rf2 := by
      rcases List.mem_or_eq_of_mem_set hi with hmem | rfl
      · exact href i hmem k' hk'
      · exact absurd hk' (by simp)
    obtain ⟨t2, ht2, rf2, hd2⟩ := hrel
    by_cases hkk : k = k'
    · subst hkk
      exact ⟨_, List.getElem?_set_self hk, rf', rfl⟩
    · exact ⟨t2, by rw [List.getElem?_set_ne hkk]; exact ht2, rf2, hd2⟩

/-- Overwriting an index with a definition preserves the cookware-list
invariant. -/
lemma CwInv_set (l : List Cookware) (k : Nat) (tgt : Cookware)
    (rf' : List Nat) (h1 : l[k]? = some tgt) (hinv : CwInv l) :
    CwInv (l.set k { tgt with relation := .definition rf' }) := by
  obtain ⟨hdef, href⟩ := hinv
  have hk : k < l.length := (List.getElem?_eq_some.mp h1).1
  constructor
  · intro i hi hri
    rcases List.mem_or_eq_of_mem_set hi with hmem | rfl
    · exact hdef i hmem hri
    · exact ⟨rf', rfl⟩
  · intro i hi k' hk'
    have hrel : ∃ tgt2, l[k']? = some tgt2 ∧ ∃ rf2, tgt2.relation = .definition rf2 := by
      rcases List.mem_or_eq_of_mem_set hi with hmem | rfl
      · exact href i hmem k' hk'
      · exact absurd hk' (by simp)
    obtain ⟨t2, ht2, rf2, hd2⟩ := hrel
    by_cases hkk : k = k'
    · subst hkk
      exact ⟨_, List.getElem?_set_self hk, rf', rfl⟩
    · exact ⟨t2, by rw [List.getElem?_set_ne hkk]; exact ht2, rf2, hd2⟩

/-- Appending a well-formed component preserves the ingredient-list
invariant. -/
lemma IngInv_append (l : List Ingredient) (x : Ingredient) (hinv : IngInv l)
    (hx1 : x.modifiers.ref = false → ∃ rf, x.relation = .definition rf)
    (hx2 : ∀ k, x.relation = .reference k .ingredientTarget →
      ∃ tgt, l[k]? = some tgt ∧ ∃ rf, tgt.relation = .definition rf) :
    IngInv (l ++ [x]) := by
  obtain ⟨hdef, href⟩ := hinv
  constructor
  · intro i hi hri
    rcases List.mem_append.mp hi with hmem | hmem
    · exact hdef i hmem hri
    · rcases List.mem_singleton.mp hmem with rfl
      exact hx1 hri
  · intro i hi k hk
    have hrel : ∃ tgt, l[k]? = some tgt ∧ ∃ rf, tgt.relation = .definition rf := by
      rcases List.mem_append.mp hi with hmem | hmem
      · exact href i hmem k hk
      · rcases List.mem_singleton.mp hmem with rfl
        exact hx2 k hk
    obtain ⟨t2, ht2, hd2⟩ := hrel
    have hlt : k < l.length := (List.getElem?_eq_some.mp ht2).1
    exact ⟨t2, by rw [List.getElem?_append_left hlt]; exact ht2, hd2⟩

/-- Appending a well-formed component preserves the cookware-list
invariant. -/
lemma CwInv_append (l : List Cookware) (x : Cookware) (hinv : CwInv l)
    (hx1 : x.modifiers.ref = false → ∃ rf, x.relation = .definition rf)
    (hx2 : ∀ k, x.relation = .reference k →
      ∃ tgt, l[k]? = some tgt ∧ ∃ rf, tgt.relation = .definition rf) :
    CwInv (l ++ [x]) := by
  obtain ⟨hdef, href⟩ := hinv
  constructor
  · intro i hi hri
    rcases List.mem_append.mp hi with hmem | hmem
    · exact hdef i hmem hri
    · rcases List.mem_singleton.mp hmem with rfl
      exact hx1 hri
  · intro i hi k hk
    have hrel : ∃ tgt, l[k]? = some tgt ∧ ∃ rf, tgt.relation = .definition rf := by
      rcases List.mem_append.mp hi with hmem | hmem
      · exact href i hmem k hk
      · rcases List.mem_singleton.mp hmem with rfl
        exact hx2 k hk
    obtain ⟨t2, ht2, hd2⟩ := hrel
    have hlt : k < l.length := (List.getElem?_eq_some.mp ht2).1
    exact ⟨t2, by rw [List.getElem?_append_left hlt]; exact ht2, hd2⟩

/-- `resolve_reference` characterization for ingredients: with no
resolved reference the component comes back unchanged; with one, the
target is in bounds without the `REF` flag and the returned component is
a same-kind reference carrying `REF`. -/
lemma resolve_reference_ing (all : List Ingredient) (dm : DefineMode)
    (dup : DuplicateMode) (new : Ingredient) (loc mloc : Span)
    (new' : Ingredient) (res : Option (Nat × Bool)) (errs : List AnalysisError)
    (warns : List AnalysisWarning)
    (h : Walker.resolve_reference ingredientOps all dm dup new loc mloc
      = (new', res, errs, warns)) :
    (match res with
     | none => new' = new
     | some ki =>
         (∃ tgt, all[ki.1]? = some tgt ∧ tgt.modifiers.ref = false) ∧
         new'.modifiers.ref = true ∧
         new'.relation = .reference ki.1 .ingredientTarget) := by
  simp only [Walker.resolve_reference] at h
  repeat' split at h
  all_goals (simp only [Prod.mk.injEq] at h
             obtain ⟨h1, h2, h3, h4⟩ := h
             subst h1
             subst h2
             simp only [])
  all_goals first
  | rfl
  | (obtain ⟨x, hx, hp⟩ := rposition_spec _ _ _ (by assumption)
     simp only [ingredientOps, Bool.and_eq_true, Bool.not_eq_true'] at hp
     exact ⟨⟨x, hx, hp.1⟩, by simp [ingredientOps, Modifiers.union, Modifiers.REF], rfl⟩)

/-- `resolve_reference` characterization for cookware. -/
lemma resolve_reference_cw (all : List Cookware) (dm : DefineMode)
    (dup : DuplicateMode) (new : Cookware) (loc mloc : Span)
    (new' : Cookware) (res : Option (Nat × Bool)) (errs : List AnalysisError)
    (warns : List AnalysisWarning)
    (h : Walker.resolve_reference cookwareOps all dm dup new loc mloc
      = (new', res, errs, warns)) :
    (match res with
     | none => new' = new
     | some ki =>
         (∃ tgt, all[ki.1]? = some tgt ∧ tgt.modifiers.ref = false) ∧
         new'.modifiers.ref = true ∧
         new'.relation = .reference ki.1) := by
  simp only [Walker.resolve_reference] at h
  repeat' split at h
  all_goals (simp only [Prod.mk.injEq] at h
             obtain ⟨h1, h2, h3, h4⟩ := h
             subst h1
             subst h2
             simp only [])
  all_goals first
  | rfl
  | (obtain ⟨x, hx, hp⟩ := rposition_spec _ _ _ (by assumption)
     simp only [cookwareOps, Bool.and_eq_true, Bool.not_eq_true'] at hp
     exact ⟨⟨x, hx, hp.1⟩, by simp [cookwareOps, Modifiers.union, Modifiers.REF], rfl⟩)

/-- `pushIngredient` appends the component and the location, leaving the
core fields and the cookware untouched. -/
lemma pushIngredient_spec (st : WalkerSt) (x : Located AstIngredient)
    (n : Ingredient) (loc : Span) (st' : WalkerSt) (i : Nat)
    (h : Walker.pushIngredient st x n loc = (st', i)) :
    CoreEq st st' ∧ st'.content.cookware = st.content.cookware ∧
    st'.content.ingredients = st.content.ingredients ++ [n] := by
  simp only [Walker.pushIngredient] at h
  repeat' split at h
  all_goals injection h with h1 h2
  all_goals subst h1
  all_goals exact ⟨⟨rfl, rfl, rfl, rfl⟩, rfl, rfl⟩

/-- `pushCookware` appends the component, leaving the core fields and the
ingredients untouched. -/
lemma pushCookware_spec (st : WalkerSt) (n : Cookware) (st' : WalkerSt) (i : Nat)
    (h : Walker.pushCookware st n = (st', i)) :
    CoreEq st st' ∧ st'.content.ingredients = st.content.ingredients ∧
    st'.content.cookware = st.content.cookware ++ [n] := by
  simp only [Walker.pushCookware] at h
  injection h with h1 h2
  subst h1
  exact ⟨⟨rfl, rfl, rfl, rfl⟩, rfl, rfl⟩


/-- `CoreEq` is transitive. -/
lemma CoreEq.trans {a b c : WalkerSt} (h1 : CoreEq a b) (h2 : CoreEq b c) :
    CoreEq a c :=
  ⟨h2.1.trans h1.1, h2.2.1.trans h1.2.1, h2.2.2.1.trans h1.2.2.1,
   h2.2.2.2.trans h1.2.2.2⟩

/-- `CoreEq` is reflexive. -/
lemma CoreEq.refl (a : WalkerSt) : CoreEq a a := ⟨rfl, rfl, rfl, rfl⟩

/-- A fold whose step only appends a warning (or does nothing) only
changes the warnings field. -/
lemma warnFold_st {α : Type} (g : WalkerSt → α → WalkerSt)
    (hg : ∀ st a, (∃ w, g st a = st.warn w) ∨ g st a = st) :
    ∀ (l : List α) (st : WalkerSt), ∃ ws, l.foldl g st = { st with warnings := ws } := by
  intro l
  induction l with
  | nil => intro st; exact ⟨st.warnings, rfl⟩
  | cons a tl ih =>
    intro st
    rcases hg st a with ⟨w, hw⟩ | hw
    · obtain ⟨ws, hws⟩ := ih (g st a)
      refine ⟨ws, ?_⟩
      rw [List.foldl_cons, hws, hw]
      rfl
    · obtain ⟨ws, hws⟩ := ih (g st a)
      refine ⟨ws, ?_⟩
      rw [List.foldl_cons, hws, hw]

/-- One `incompatWarnStep` only warns or does nothing. -/
lemma incompatWarnStep_st (igr : AstIngredient) (loc : Span) (nq : Quantity)
    (st : WalkerSt) (p : Nat × Quantity) :
    (∃ w, Walker.incompatWarnStep igr loc nq st p = st.warn w) ∨
    Walker.incompatWarnStep igr loc nq st p = st := by
  simp only [Walker.incompatWarnStep]
  repeat' split
  all_goals first
  | exact .inr rfl
  | exact .inl ⟨_, rfl⟩

/-- The unit-compatibility fold only changes the warnings field. -/
lemma incompatFold_st (igr : AstIngredient) (loc : Span) (nq : Quantity)
    (l : List (Nat × Quantity)) (st : WalkerSt) :
    ∃ ws, List.foldl (Walker.incompatWarnStep igr loc nq) st l
      = { st with warnings := ws } :=
  warnFold_st _ (incompatWarnStep_st igr loc nq) l st

/-- The unit-compatibility fold does not change the content. -/
lemma incompatFold_content (igr : AstIngredient) (loc : Span) (nq : Quantity)
    (l : List (Nat × Quantity)) (st : WalkerSt) :
    (List.foldl (Walker.incompatWarnStep igr loc nq) st l).content = st.content := by
  obtain ⟨ws, h⟩ := incompatFold_st igr loc nq l st
  rw [h]

/-- The unit-compatibility fold does not change the current section. -/
lemma incompatFold_cursec (igr : AstIngredient) (loc : Span) (nq : Quantity)
    (l : List (Nat × Quantity)) (st : WalkerSt) :
    (List.foldl (Walker.incompatWarnStep igr loc nq) st l).current_section
      = st.current_section := by
  obtain ⟨ws, h⟩ := incompatFold_st igr loc nq l st
  rw [h]

/-- The unit-compatibility fold does not change the step counter. -/
lemma incompatFold_counter (igr : AstIngredient) (loc : Span) (nq : Quantity)
    (l : List (Nat × Quantity)) (st : WalkerSt) :
    (List.foldl (Walker.incompatWarnStep igr loc nq) st l).step_counter
      = st.step_counter := by
  obtain ⟨ws, h⟩ := incompatFold_st igr loc nq l st
  rw [h]

/-- The unit-compatibility fold does not change the define mode. -/
lemma incompatFold_dmode (igr : AstIngredient) (loc : Span) (nq : Quantity)
    (l : List (Nat × Quantity)) (st : WalkerSt) :
    (List.foldl (Walker.incompatWarnStep igr loc nq) st l).define_mode
      = st.define_mode := by
  obtain ⟨ws, h⟩ := incompatFold_st igr loc nq l st
  rw [h]

/-- A modifier set containing `REF` has the `ref` flag. -/
lemma contains_REF_ref (a : Modifiers) (h : a.contains Modifiers.REF = true) :
    a.ref = true := by
  simp only [Modifiers.contains, Modifiers.REF, Bool.not_false, Bool.not_true,
    Bool.true_or, Bool.false_or, Bool.and_eq_true] at h
  tauto

/-- Pushing a definition preserves the ingredient-list invariant. -/
lemma IngInv_append_def (l : List Ingredient) (x : Ingredient) (rf : List Nat)
    (hinv : IngInv l) (hx : x.relation = .definition rf) : IngInv (l ++ [x]) := by
  refine IngInv_append l x hinv (fun _ => ⟨rf, hx⟩) (fun k hk => ?_)
  rw [hx] at hk
  exact absurd hk (by simp)

/-- Pushing a `REF`-flagged component that is not an ingredient-kind
reference preserves the ingredient-list invariant. -/
lemma IngInv_append_nonIng (l : List Ingredient) (x : Ingredient)
    (hinv : IngInv l) (href : x.modifiers.ref = true)
    (hnon : ∀ k, x.relation ≠ .reference k .ingredientTarget) :
    IngInv (l ++ [x]) := by
  refine IngInv_append l x hinv (fun hr => ?_) (fun k hk => absurd hk (hnon k))
  rw [href] at hr
  exact absurd hr (by simp)

/-- Pushing a `REF`-flagged ingredient-kind reference with a definition
target preserves the ingredient-list invariant. -/
lemma IngInv_append_ref (l : List Ingredient) (x : Ingredient) (k : Nat)
    (hinv : IngInv l) (href : x.modifiers.ref = true)
    (hrel : x.relation = .reference k .ingredientTarget)
    (htgt : ∃ tgt, l[k]? = some tgt ∧ ∃ rf, tgt.relation = .definition rf) :
    IngInv (l ++ [x]) := by
  refine IngInv_append l x hinv (fun hr => ?_) (fun k' hk' => ?_)
  · rw [href] at hr
    exact absurd hr (by simp)
  · rw [hrel] at hk'
    obtain ⟨h1, h2⟩ := IngredientRelation.reference.inj hk'
    subst h1
    exact htgt

/-- Pushing a definition preserves the cookware-list invariant. -/
lemma CwInv_append_def (l : List Cookware) (x : Cookware) (rf : List Nat)
    (hinv : CwInv l) (hx : x.relation = .definition rf) : CwInv (l ++ [x]) := by
  refine CwInv_append l x hinv (fun _ => ⟨rf, hx⟩) (fun k hk => ?_)
  rw [hx] at hk
  exact absurd hk (by simp)

/-- Pushing a `REF`-flagged cookware reference with a definition target
preserves the cookware-list invariant. -/
lemma CwInv_append_ref (l : List Cookware) (x : Cookware) (k : Nat)
    (hinv : CwInv l) (href : x.modifiers.ref = true)
    (hrel : x.relation = .reference k)
    (htgt : ∃ tgt, l[k]? = some tgt ∧ ∃ rf, tgt.relation = .definition rf) :
    CwInv (l ++ [x]) := by
  refine CwInv_append l x hinv (fun hr => ?_) (fun k' hk' => ?_)
  · rw [href] at hr
    exact absurd hr (by simp)
  · rw [hrel] at hk'
    obtain h1 := ComponentRelation.reference.inj hk'
    subst h1
    exact htgt


/-- `pushIngredient` result state: current section. -/
lemma pushIngredient_cursec (st : WalkerSt) (x : Located AstIngredient)
    (n : Ingredient) (loc : Span) :
    (Walker.pushIngredient st x n loc).1.current_section = st.current_section := by
  rcases hpi : Walker.pushIngredient st x n loc with ⟨st', i⟩
  exact (pushIngredient_spec st x n loc st' i hpi).1.1

/-- `pushIngredient` result state: step counter. -/
lemma pushIngredient_counter (st : WalkerSt) (x : Located AstIngredient)
    (n : Ingredient) (loc : Span) :
    (Walker.pushIngredient st x n loc).1.step_counter = st.step_counter := by
  rcases hpi : Walker.pushIngredient st x n loc with ⟨st', i⟩
  exact (pushIngredient_spec st x n loc st' i hpi).1.2.1

/-- `pushIngredient` result state: flushed sections. -/
lemma pushIngredient_sections (st : WalkerSt) (x : Located AstIngredient)
    (n : Ingredient) (loc : Span) :
    (Walker.pushIngredient st x n loc).1.content.sections = st.content.sections := by
  rcases hpi : Walker.pushIngredient st x n loc with ⟨st', i⟩
  exact (pushIngredient_spec st x n loc st' i hpi).1.2.2.1

/-- `pushIngredient` result state: define mode. -/
lemma pushIngredient_dmode (st : WalkerSt) (x : Located AstIngredient)
    (n : Ingredient) (loc : Span) :
    (Walker.pushIngredient st x n loc).1.define_mode = st.define_mode := by
  rcases hpi : Walker.pushIngredient st x n loc with ⟨st', i⟩
  exact (pushIngredient_spec st x n loc st' i hpi).1.2.2.2

/-- `pushIngredient` result state: cookware. -/
lemma pushIngredient_cookware (st : WalkerSt) (x : Located AstIngredient)
    (n : Ingredient) (loc : Span) :
    (Walker.pushIngredient st x n loc).1.content.cookware = st.content.cookware := by
  rcases hpi : Walker.pushIngredient st x n loc with ⟨st', i⟩
  exact (pushIngredient_spec st x n loc st' i hpi).2.1

/-- `pushIngredient` result state: ingredients. -/
lemma pushIngredient_ingredients (st : WalkerSt) (x : Located AstIngredient)
    (n : Ingredient) (loc : Span) :
    (Walker.pushIngredient st x n loc).1.content.ingredients
      = st.content.ingredients ++ [n] := by
  rcases hpi : Walker.pushIngredient st x n loc with ⟨st', i⟩
  exact (pushIngredient_spec st x n loc st' i hpi).2.2

/-- `pushCookware` result state: current section. -/
lemma pushCookware_cursec (st : WalkerSt) (n : Cookware) :
    (Walker.pushCookware st n).1.current_section = st.current_section := rfl

/-- `pushCookware` result state: step counter. -/
lemma pushCookware_counter (st : WalkerSt) (n : Cookware) :
    (Walker.pushCookware st n).1.step_counter = st.step_counter := rfl

/-- `pushCookware` result state: flushed sections. -/
lemma pushCookware_sections (st : WalkerSt) (n : Cookware) :
    (Walker.pushCookware st n).1.content.sections = st.content.sections := rfl

/-- `pushCookware` result state: define mode. -/
lemma pushCookware_dmode (st : WalkerSt) (n : Cookware) :
    (Walker.pushCookware st n).1.define_mode = st.define_mode := rfl

/-- `pushCookware` result state: ingredients. -/
lemma pushCookware_ingredients (st : WalkerSt) (n : Cookware) :
    (Walker.pushCookware st n).1.content.ingredients = st.content.ingredients := rfl

/-- `pushCookware` result state: cookware. -/
lemma pushCookware_cookware (st : WalkerSt) (n : Cookware) :
    (Walker.pushCookware st n).1.content.cookware = st.content.cookware ++ [n] := rfl


set_option maxRecDepth 4096 in
lemma ingredient_tail (st0 st1 : WalkerSt) (x : Located AstIngredient)
    (qopt : Option Quantity) (es : List AnalysisError) (ws : List AnalysisWarning)
    (hst1 : st1 = { st0 with errors := es, warnings := ws })
    (hinv : WInv st0) (r : Except String (WalkerSt × Nat))
    (h : (let location := x.span
          let igr := x.val
          let name := igr.name.text_trimmed
          let new_igr : Ingredient :=
            { name := name
              alias' := igr.alias'.map (·.text_trimmed)
              quantity := qopt
              note := igr.note.map (·.text_trimmed)
              modifiers := igr.modifiers.val
              relation := .definition []
              defined_in_step := st1.define_mode != .components }
          match igr.intermediate_data with
          | some inter_data =>
            match Walker.resolve_intermediate_ref st1 inter_data with
            | .error msg => .error msg
            | .ok (.ok relation) =>
              let new_igr := { new_igr with relation := relation }
              if !new_igr.modifiers.contains Modifiers.REF then
                .error "intermediate reference without REF modifier"
              else
                let invalid_modifiers :=
                  (Modifiers.RECIPE.union Modifiers.HIDDEN).union Modifiers.NEW
                let st :=
                  if new_igr.modifiers.intersects invalid_modifiers then
                    st1.error (.invalidIntermediateReference igr.modifiers.span
                      "Invalid combination of modifiers")
                  else st1
                .ok (Walker.pushIngredient st x new_igr location)
            | .ok (.error e) =>
              .ok (Walker.pushIngredient (st1.error e) x new_igr location)
          | none =>
            let (new_igr, res, errs, warns) :=
              Walker.resolve_reference ingredientOps st1.content.ingredients
                st1.define_mode st1.duplicate_mode new_igr location igr.modifiers.span
            let st := { st1 with errors := st1.errors ++ errs,
                                 warnings := st1.warnings ++ warns }
            match res with
            | none => .ok (Walker.pushIngredient st x new_igr location)
            | some (references_to, implicit) =>
              match st.content.ingredients[references_to]? with
              | none => .error "index out of bounds"
              | some referenced =>
                let st :=
                  if referenced.quantity.isSome && new_igr.quantity.isSome
                      && !referenced.defined_in_step then
                    let definition_span :=
                      ((st.ingredient_locations[references_to]?).map (·.span)).getD
                        (Span.pos 0)
                    st.error (.conflictingReferenceQuantities new_igr.name
                      definition_span location)
                  else st
                let st :=
                  if st.extensions.advanced_units then
                    match new_igr.quantity with
                    | some new_quantity =>
                      let all_quantities :=
                        (references_to :: (referenced.relation.referencedFrom.getD [])).filterMap
                          fun index =>
                            (st.content.ingredients[index]?).bind fun i =>
                              i.quantity.map fun q => (index, q)
                      all_quantities.foldl (Walker.incompatWarnStep igr location new_quantity) st
                    | none => st
                  else st
                let st :=
                  match igr.note with
                  | some note =>
                    st.error (.componentPartNotAllowedInReference "ingredient" "note"
                      note.span implicit)
                  | none => st
                let st :=
                  match new_igr.quantity with
                  | some quantity =>
                    if quantity.value.contains_text_value then
                      let qspan := match igr.quantity with
                        | some q => q.span
                        | none => Span.pos 0
                      st.warn (.textValueInReference qspan)
                    else st
                  | none => st
                match Ingredient.set_referenced_from st.content.ingredients references_to with
                | .error msg => .error msg
                | .ok ingredients =>
                  let st := { st with content :=
                    { st.content with ingredients := ingredients } }
                  .ok (Walker.pushIngredient st x new_igr location)) = r) :
    (∀ p, r = .ok p → CoreEq st0 p.1 ∧ WInv p.1) ∧
    (∀ m, r = .error m → m ≠ referenceToReferencePanic) := by
  have h01cs : st1.current_section = st0.current_section := by rw [hst1]
  have h01sc : st1.step_counter = st0.step_counter := by rw [hst1]
  have h01ct : st1.content = st0.content := by rw [hst1]
  have h01dm : st1.define_mode = st0.define_mode := by rw [hst1]
  have hinv1 : IngInv st1.content.ingredients := by rw [h01ct]; exact hinv.1
  have hcwv1 : CwInv st1.content.cookware := by rw [h01ct]; exact hinv.2
  simp only [] at h
  cases hid : x.val.intermediate_data with
  | some inter =>
    rw [hid] at h
    simp only [] at h
    cases hri : Walker.resolve_intermediate_ref st1 inter with
    | error msg =>
      rw [hri] at h
      simp only [] at h
      subst h
      refine ⟨fun p hp => Except.noConfusion hp, fun m hm => ?_⟩
      obtain rfl := Except.error.inj hm
      rw [resolve_intermediate_err st1 inter msg hri]
      decide
    | ok inner =>
      cases inner with
      | error e =>
        rw [hri] at h
        simp only [] at h
        subst h
        refine ⟨fun p hp => ?_, fun m hm => Except.noConfusion hm⟩
        obtain rfl := Except.ok.inj hp
        refine ⟨⟨?_, ?_, ?_, ?_⟩, ?_, ?_⟩ <;>
          simp only [pushIngredient_cursec, pushIngredient_counter,
            pushIngredient_sections, pushIngredient_dmode,
            pushIngredient_ingredients, pushIngredient_cookware,
            WalkerSt.error, WalkerSt.warn, h01cs, h01sc, h01ct, h01dm]
        · exact IngInv_append_def _ _ [] hinv.1 rfl
        · exact hinv.2
      | ok rel =>
        rw [hri] at h
        simp only [] at h
        split at h
        · subst h
          refine ⟨fun p hp => Except.noConfusion hp, fun m hm => ?_⟩
          obtain rfl := Except.error.inj hm
          decide
        · rename_i hcont
          have href : x.val.modifiers.val.ref = true := by
            apply contains_REF_ref
            revert hcont
            cases x.val.modifiers.val.contains Modifiers.REF <;> simp
          have hnon := resolve_intermediate_ok st1 inter rel hri
          split at h
          all_goals subst h
          all_goals refine ⟨fun p hp => ?_, fun m hm => Except.noConfusion hm⟩
          all_goals obtain rfl := Except.ok.inj hp
          all_goals refine ⟨⟨?_, ?_, ?_, ?_⟩, ?_, ?_⟩ <;>
            simp only [pushIngredient_cursec, pushIngredient_counter,
              pushIngredient_sections, pushIngredient_dmode,
              pushIngredient_ingredients, pushIngredient_cookware,
              WalkerSt.error, WalkerSt.warn, h01cs, h01sc, h01ct, h01dm]
          · exact IngInv_append_nonIng _ _ hinv.1 href hnon
          · exact hinv.2
          · exact IngInv_append_nonIng _ _ hinv.1 href hnon
          · exact hinv.2
  | none =>
    rw [hid] at h
    simp only [] at h
    rcases hrr : Walker.resolve_reference ingredientOps st1.content.ingredients
        st1.define_mode st1.duplicate_mode
        { name := x.val.name.text_trimmed
          alias' := x.val.alias'.map (fun t => t.text_trimmed)
          quantity := qopt
          note := x.val.note.map (fun t => t.text_trimmed)
          modifiers := x.val.modifiers.val
          relation := .definition []
          defined_in_step := st1.define_mode != .components }
        x.span x.val.modifiers.span with ⟨new', res, errs2, warns2⟩
    rw [hrr] at h
    simp only [] at h
    have hspec := resolve_reference_ing _ _ _ _ _ _ _ _ _ _ hrr
    cases res with
    | none =>
      simp only [] at hspec h
      subst h
      refine ⟨fun p hp => ?_, fun m hm => Except.noConfusion hm⟩
      obtain rfl := Except.ok.inj hp
      refine ⟨⟨?_, ?_, ?_, ?_⟩, ?_, ?_⟩ <;>
        simp only [pushIngredient_cursec, pushIngredient_counter,
          pushIngredient_sections, pushIngredient_dmode,
          pushIngredient_ingredients, pushIngredient_cookware,
          WalkerSt.error, WalkerSt.warn, h01cs, h01sc, h01ct, h01dm]
      · exact IngInv_append_def _ _ [] hinv.1 (by rw [hspec])
      · exact hinv.2
    | some ki =>
      simp only [] at hspec h
      obtain ⟨⟨tgt, htgt, hrefF⟩, hnref, hnrel⟩ := hspec
      rw [htgt] at h
      simp only [] at h
      obtain ⟨rf, hdef⟩ := hinv1.1 tgt (List.getElem?_mem htgt) hrefF
      have hki : ki.1 < st1.content.ingredients.length := (List.getElem?_eq_some.mp htgt).1
      have htgt0 : st0.content.ingredients[ki.1]? = some tgt := by
        rw [← h01ct]; exact htgt
      have hki0 : ki.1 < st0.content.ingredients.length := (List.getElem?_eq_some.mp htgt0).1
      cases hnq : new'.quantity
      all_goals rw [hnq] at h
      all_goals simp only [] at h
      all_goals cases hnote : x.val.note
      all_goals rw [hnote] at h
      all_goals cases htq : tgt.quantity
      all_goals rw [htq] at h
      all_goals cases hdis : tgt.defined_in_step
      all_goals rw [hdis] at h
      all_goals simp [WalkerSt.error, WalkerSt.warn] at h
      all_goals cases hadv : st1.extensions.advanced_units
      all_goals try rw [hadv] at h
      all_goals simp [WalkerSt.error, WalkerSt.warn, incompatFold_content, apply_ite, ite_self,
        ing_set_ref_ok st1.content.ingredients ki.1 tgt rf htgt hdef] at h
      all_goals subst h
      all_goals refine ⟨fun p hp => ?_, fun m hm => Except.noConfusion hm⟩
      all_goals obtain rfl := Except.ok.inj hp
      all_goals refine ⟨⟨?_, ?_, ?_, ?_⟩, ?_, ?_⟩ <;>
        simp only [pushIngredient_cursec, pushIngredient_counter, pushIngredient_sections,
          pushIngredient_dmode, pushIngredient_ingredients, pushIngredient_cookware,
          WalkerSt.error, WalkerSt.warn, incompatFold_content, incompatFold_cursec,
          incompatFold_counter, incompatFold_dmode, apply_ite, ite_self, h01cs, h01sc,
          h01ct, h01dm]
      all_goals first
      | exact hinv.2
      | exact IngInv_append_ref _ _ ki.1 (IngInv_set _ _ _ _ htgt0 hinv.1) hnref hnrel
          ⟨_, List.getElem?_set_self hki0, _, rfl⟩


lemma ingredient_qstep_st (st : WalkerSt) (x : Located AstIngredient) :
    ∃ es ws, (match x.val.quantity with
      | some q => ((Walker.quantity st q true).1, some (Walker.quantity st q true).2)
      | none => (st, none)).1 = { st with errors := es, warnings := ws } := by
  cases hq : x.val.quantity with
  | none => exact ⟨st.errors, st.warnings, rfl⟩
  | some q =>
    obtain ⟨es, ws, hh⟩ := quantity_st st q true (Walker.quantity st q true).1
      (Walker.quantity st q true).2 rfl
    exact ⟨es, ws, hh⟩

set_option maxRecDepth 16384 in
lemma ingredient_good (st : WalkerSt) (x : Located AstIngredient) (hinv : WInv st) :
    (∀ p, Walker.ingredient st x = .ok p → CoreEq st p.1 ∧ WInv p.1) ∧
    (∀ m, Walker.ingredient st x = .error m → m ≠ referenceToReferencePanic) := by
  obtain ⟨es, ws, hst1⟩ := ingredient_qstep_st st x
  refine ingredient_tail st ((match x.val.quantity with
      | some q => ((Walker.quantity st q true).1, some (Walker.quantity st q true).2)
      | none => (st, none)).1) x ((match x.val.quantity with
      | some q => ((Walker.quantity st q true).1, some (Walker.quantity st q true).2)
      | none => (st, none)).2) es ws hst1 hinv (Walker.ingredient st x) ?_
  rfl


set_option maxRecDepth 4096 in
lemma cookware_tail (st0 st1 : WalkerSt) (x : Located AstCookware)
    (qopt : Option QuantityValue) (es : List AnalysisError) (ws : List AnalysisWarning)
    (hst1 : st1 = { st0 with errors := es, warnings := ws })
    (hinv : WInv st0) (r : Except String (WalkerSt × Nat))
    (h : (let location := x.span
          let cw := x.val
          let new_cw : Cookware :=
            { name := cw.name.text_trimmed
              alias' := cw.alias'.map (·.text_trimmed)
              quantity := qopt
              note := cw.note.map (·.text_trimmed)
              modifiers := cw.modifiers.val
              relation := .definition [] }
          let (new_cw, res, errs, warns) :=
            Walker.resolve_reference cookwareOps st1.content.cookware st1.define_mode
              st1.duplicate_mode new_cw location cw.modifiers.span
          let st := { st1 with errors := st1.errors ++ errs,
                               warnings := st1.warnings ++ warns }
          match res with
          | none => .ok (Walker.pushCookware st new_cw)
          | some (references_to, implicit) =>
            let st :=
              match cw.note with
              | some note =>
                st.error (.componentPartNotAllowedInReference "cookware" "note"
                  note.span implicit)
              | none => st
            let st :=
              match cw.quantity with
              | some q =>
                st.error (.componentPartNotAllowedInReference "cookware" "quantity"
                  q.span implicit)
              | none => st
            match Cookware.set_referenced_from st.content.cookware references_to with
            | .error msg => .error msg
            | .ok cws =>
              let st := { st with content := { st.content with cookware := cws } }
              .ok (Walker.pushCookware st new_cw)) = r) :
    (∀ p, r = .ok p → CoreEq st0 p.1 ∧ WInv p.1) ∧
    (∀ m, r = .error m → m ≠ referenceToReferencePanic) := by
  have h01cs : st1.current_section = st0.current_section := by rw [hst1]
  have h01sc : st1.step_counter = st0.step_counter := by rw [hst1]
  have h01ct : st1.content = st0.content := by rw [hst1]
  have h01dm : st1.define_mode = st0.define_mode := by rw [hst1]
  have hinv1 : IngInv st1.content.ingredients := by rw [h01ct]; exact hinv.1
  have hcwv1 : CwInv st1.content.cookware := by rw [h01ct]; exact hinv.2
  simp only [] at h
  rcases hrr : Walker.resolve_reference cookwareOps st1.content.cookware
      st1.define_mode st1.duplicate_mode
      { name := x.val.name.text_trimmed
        alias' := x.val.alias'.map (fun t => t.text_trimmed)
        quantity := qopt
        note := x.val.note.map (fun t => t.text_trimmed)
        modifiers := x.val.modifiers.val
        relation := .definition [] }
      x.span x.val.modifiers.span with ⟨new', res, errs2, warns2⟩
  rw [hrr] at h
  simp only [] at h
  have hspec := resolve_reference_cw _ _ _ _ _ _ _ _ _ _ hrr
  cases res with
  | none =>
    simp only [] at hspec h
    subst h
    refine ⟨fun p hp => ?_, fun m hm => Except.noConfusion hm⟩
    obtain rfl := Except.ok.inj hp
    refine ⟨⟨?_, ?_, ?_, ?_⟩, ?_, ?_⟩ <;>
      simp only [pushCookware_cursec, pushCookware_counter, pushCookware_sections,
        pushCookware_dmode, pushCookware_ingredients, pushCookware_cookware,
        WalkerSt.error, WalkerSt.warn, h01cs, h01sc, h01ct, h01dm]
    · exact hinv.1
    · exact CwInv_append_def _ _ [] hinv.2 (by rw [hspec])
  | some ki =>
    simp only [] at hspec h
    obtain ⟨⟨tgt, htgt, hrefF⟩, hnref, hnrel⟩ := hspec
    obtain ⟨rf, hdef⟩ := hcwv1.1 tgt (List.getElem?_mem htgt) hrefF
    have htgt0 : st0.content.cookware[ki.1]? = some tgt := by
      rw [← h01ct]; exact htgt
    have hki0 : ki.1 < st0.content.cookware.length := (List.getElem?_eq_some.mp htgt0).1
    cases hnote : x.val.note
    all_goals rw [hnote] at h
    all_goals cases hq2 : x.val.quantity
    all_goals rw [hq2] at h
    all_goals simp [WalkerSt.error, WalkerSt.warn,
      cw_set_ref_ok st1.content.cookware ki.1 tgt rf htgt hdef] at h
    all_goals subst h
    all_goals refine ⟨fun p hp => ?_, fun m hm => Except.noConfusion hm⟩
    all_goals obtain rfl := Except.ok.inj hp
    all_goals refine ⟨⟨?_, ?_, ?_, ?_⟩, ?_, ?_⟩ <;>
      simp only [pushCookware_cursec, pushCookware_counter, pushCookware_sections,
        pushCookware_dmode, pushCookware_ingredients, pushCookware_cookware,
        WalkerSt.error, WalkerSt.warn, h01cs, h01sc, h01ct, h01dm]
    all_goals first
    | exact hinv.1
    | exact CwInv_append_ref _ _ ki.1 (CwInv_set _ _ _ _ htgt0 hinv.2) hnref hnrel
        ⟨_, List.getElem?_set_self hki0, _, rfl⟩

lemma cookware_qstep_st (st : WalkerSt) (x : Located AstCookware) :
    ∃ es ws, (match x.val.quantity with
      | some q => ((Walker.value st q.val false).1, some (Walker.value st q.val false).2)
      | none => (st, none)).1 = { st with errors := es, warnings := ws } := by
  cases hq : x.val.quantity with
  | none => exact ⟨st.errors, st.warnings, rfl⟩
  | some q =>
    obtain ⟨es, ws, hh⟩ := value_st st q.val false (Walker.value st q.val false).1
      (Walker.value st q.val false).2 rfl
    exact ⟨es, ws, hh⟩

set_option maxRecDepth 16384 in
lemma cookware_good (st : WalkerSt) (x : Located AstCookware) (hinv : WInv st) :
    (∀ p, Walker.cookware st x = .ok p → CoreEq st p.1 ∧ WInv p.1) ∧
    (∀ m, Walker.cookware st x = .error m → m ≠ referenceToReferencePanic) := by
  obtain ⟨es, ws, hst1⟩ := cookware_qstep_st st x
  refine cookware_tail st ((match x.val.quantity with
      | some q => ((Walker.value st q.val false).1, some (Walker.value st q.val false).2)
      | none => (st, none)).1) x ((match x.val.quantity with
      | some q => ((Walker.value st q.val false).1, some (Walker.value st q.val false).2)
      | none => (st, none)).2) es ws hst1 hinv (Walker.cookware st x) ?_
  rfl


/-- `Walker::timer` only appends diagnostics and a timer. -/
lemma timer_st (st : WalkerSt) (t : Located AstTimer) (st' : WalkerSt) (i : Nat)
    (h : Walker.timer st t = (st', i)) :
    CoreEq st st' ∧ st'.content.ingredients = st.content.ingredients ∧
    st'.content.cookware = st.content.cookware := by
  simp only [Walker.timer] at h
  cases hq : t.val.quantity with
  | none =>
    rw [hq] at h
    simp only [] at h
    injection h with h1 h2
    subst h1
    exact ⟨⟨rfl, rfl, rfl, rfl⟩, rfl, rfl⟩
  | some q =>
    rw [hq] at h
    simp only [] at h
    rcases hwq : Walker.quantity st q false with ⟨st1, q1⟩
    rw [hwq] at h
    simp only [] at h
    obtain ⟨es, ws, hst1⟩ := quantity_st st q false st1 q1 hwq
    repeat' split at h
    all_goals injection h with h1 h2
    all_goals subst h1
    all_goals subst hst1
    all_goals exact ⟨⟨rfl, rfl, rfl, rfl⟩, rfl, rfl⟩

/-- `Walker::component` dispatch: preserves the core fields, maps the
invariant, and never panics with the reference-to-reference message. -/
lemma component_good (st : WalkerSt) (c : Located AstComponent) (hinv : WInv st) :
    (∀ q, Walker.component st c = .ok q → CoreEq st q.1 ∧ WInv q.1) ∧
    (∀ m, Walker.component st c = .error m → m ≠ referenceToReferencePanic) := by
  cases hc : c.val with
  | ingredient i =>
    refine ⟨fun q hq => ?_, fun m hm => ?_⟩
    · simp only [Walker.component, hc] at hq
      cases hing : Walker.ingredient st ⟨i, c.span⟩ with
      | error m2 => rw [hing] at hq; exact Except.noConfusion hq
      | ok p =>
        rw [hing] at hq
        simp only [] at hq
        obtain rfl := Except.ok.inj hq
        exact (ingredient_good st ⟨i, c.span⟩ hinv).1 p hing
    · simp only [Walker.component, hc] at hm
      cases hing : Walker.ingredient st ⟨i, c.span⟩ with
      | error m2 =>
        rw [hing] at hm
        simp only [] at hm
        obtain rfl := Except.error.inj hm
        exact (ingredient_good st ⟨i, c.span⟩ hinv).2 m2 hing
      | ok p => rw [hing] at hm; simp only [] at hm; exact Except.noConfusion hm
  | cookware cw =>
    refine ⟨fun q hq => ?_, fun m hm => ?_⟩
    · simp only [Walker.component, hc] at hq
      cases hcw : Walker.cookware st ⟨cw, c.span⟩ with
      | error m2 => rw [hcw] at hq; exact Except.noConfusion hq
      | ok p =>
        rw [hcw] at hq
        simp only [] at hq
        obtain rfl := Except.ok.inj hq
        exact (cookware_good st ⟨cw, c.span⟩ hinv).1 p hcw
    · simp only [Walker.component, hc] at hm
      cases hcw : Walker.cookware st ⟨cw, c.span⟩ with
      | error m2 =>
        rw [hcw] at hm
        simp only [] at hm
        obtain rfl := Except.error.inj hm
        exact (cookware_good st ⟨cw, c.span⟩ hinv).2 m2 hcw
      | ok p => rw [hcw] at hm; simp only [] at hm; exact Except.noConfusion hm
  | timer tm =>
    refine ⟨fun q hq => ?_, fun m hm => ?_⟩
    · simp only [Walker.component, hc] at hq
      obtain rfl := Except.ok.inj hq
      obtain ⟨hcore, hing, hcw⟩ := timer_st st ⟨tm, c.span⟩
        (Walker.timer st ⟨tm, c.span⟩).1 (Walker.timer st ⟨tm, c.span⟩).2 rfl
      exact ⟨hcore, by rw [hing]; exact hinv.1, by rw [hcw]; exact hinv.2⟩
    · simp only [Walker.component, hc] at hm
      exact Except.noConfusion hm

/-- One item of a step: preserves the core fields, maps the invariant,
and never panics with the reference-to-reference message. -/
lemma walkOneItem_good (st : WalkerSt) (b : Bool) (it : AstItem) (hinv : WInv st) :
    (∀ p, Walker.walkOneItem st b it = .ok p → CoreEq st p.1 ∧ WInv p.1) ∧
    (∀ m, Walker.walkOneItem st b it = .error m → m ≠ referenceToReferencePanic) := by
  cases it with
  | text tx =>
    refine ⟨fun p hp => ?_, fun m hm => ?_⟩
    · simp only [Walker.walkOneItem] at hp
      repeat' split at hp
      all_goals obtain rfl := Except.ok.inj hp
      all_goals exact ⟨⟨rfl, rfl, rfl, rfl⟩, hinv.1, hinv.2⟩
    · simp only [Walker.walkOneItem] at hm
      repeat' split at hm
      all_goals exact Except.noConfusion hm
  | component c =>
    refine ⟨fun p hp => ?_, fun m hm => ?_⟩
    · simp only [Walker.walkOneItem] at hp
      split at hp
      · obtain rfl := Except.ok.inj hp
        exact ⟨⟨rfl, rfl, rfl, rfl⟩, hinv.1, hinv.2⟩
      · cases hcomp : Walker.component st c with
        | error m2 => rw [hcomp] at hp; exact Except.noConfusion hp
        | ok q =>
          rw [hcomp] at hp
          simp only [] at hp
          obtain rfl := Except.ok.inj hp
          exact (component_good st c hinv).1 q hcomp
    · simp only [Walker.walkOneItem] at hm
      split at hm
      · exact Except.noConfusion hm
      · cases hcomp : Walker.component st c with
        | error m2 =>
          rw [hcomp] at hm
          simp only [] at hm
          obtain rfl := Except.error.inj hm
          exact (component_good st c hinv).2 m2 hcomp
        | ok q => rw [hcomp] at hm; simp only [] at hm; exact Except.noConfusion hm

/-- The item loop: preserves the core fields, maps the invariant, and
never panics with the reference-to-reference message. -/
lemma walkItems_good (b : Bool) (items : List AstItem) :
    ∀ (st : WalkerSt), WInv st →
    (∀ p, Walker.walkItems st b items = .ok p → CoreEq st p.1 ∧ WInv p.1) ∧
    (∀ m, Walker.walkItems st b items = .error m → m ≠ referenceToReferencePanic) := by
  induction items with
  | nil =>
    intro st hinv
    refine ⟨fun p hp => ?_, fun m hm => Except.noConfusion hm⟩
    simp only [Walker.walkItems] at hp
    obtain rfl := Except.ok.inj hp
    exact ⟨CoreEq.refl st, hinv⟩
  | cons it rest ih =>
    intro st hinv
    refine ⟨fun p hp => ?_, fun m hm => ?_⟩
    · simp only [Walker.walkItems] at hp
      cases h1 : Walker.walkOneItem st b it with
      | error m2 => rw [h1] at hp; exact Except.noConfusion hp
      | ok p1 =>
        rw [h1] at hp
        simp only [] at hp
        obtain ⟨hc1, hv1⟩ := (walkOneItem_good st b it hinv).1 p1 h1
        cases h2 : Walker.walkItems p1.1 b rest with
        | error m2 => rw [h2] at hp; exact Except.noConfusion hp
        | ok p2 =>
          rw [h2] at hp
          simp only [] at hp
          obtain rfl := Except.ok.inj hp
          obtain ⟨hc2, hv2⟩ := (ih p1.1 hv1).1 p2 h2
          exact ⟨CoreEq.trans hc1 hc2, hv2⟩
    · simp only [Walker.walkItems] at hm
      cases h1 : Walker.walkOneItem st b it with
      | error m2 =>
        rw [h1] at hm
        simp only [] at hm
        obtain rfl := Except.error.inj hm
        exact (walkOneItem_good st b it hinv).2 m2 h1
      | ok p1 =>
        rw [h1] at hm
        simp only [] at hm
        obtain ⟨hc1, hv1⟩ := (walkOneItem_good st b it hinv).1 p1 h1
        cases h2 : Walker.walkItems p1.1 b rest with
        | error m2 =>
          rw [h2] at hm
          simp only [] at hm
          obtain rfl := Except.error.inj hm
          exact (ih p1.1 hv1).2 m2 h2
        | ok p2 => rw [h2] at hm; simp only [] at hm; exact Except.noConfusion hm

/-- `Walker::step`: preserves the core fields, maps the invariant, never
panics with the reference-to-reference message, and numbers the step from
the pre-step counter exactly when the effective text mode is off. -/
lemma step_good (st : WalkerSt) (b : Bool) (items : List AstItem) (hinv : WInv st) :
    (∀ p : WalkerSt × Step, Walker.step st b items = .ok p →
       CoreEq st p.1 ∧ WInv p.1 ∧
       p.2.number = (if !(b || st.define_mode == DefineMode.text) then
         some st.step_counter else none)) ∧
    (∀ m, Walker.step st b items = .error m → m ≠ referenceToReferencePanic) := by
  refine ⟨fun p hp => ?_, fun m hm => ?_⟩
  · simp only [Walker.step] at hp
    cases hw : Walker.walkItems st (b || st.define_mode == DefineMode.text) items with
    | error m2 => rw [hw] at hp; exact Except.noConfusion hp
    | ok p1 =>
      rw [hw] at hp
      simp only [] at hp
      obtain ⟨hc, hv⟩ := walkItems_good _ items st hinv |>.1 p1 hw
      obtain rfl := Except.ok.inj hp
      refine ⟨hc, hv, ?_⟩
      simp only [hc.2.1]
  · simp only [Walker.step] at hm
    cases hw : Walker.walkItems st (b || st.define_mode == DefineMode.text) items with
    | error m2 =>
      rw [hw] at hm
      simp only [] at hm
      obtain rfl := Except.error.inj hm
      exact (walkItems_good _ items st hinv).2 m2 hw
    | ok p1 => rw [hw] at hm; simp only [] at hm; exact Except.noConfusion hm


/-- One line of the walker: a successful line keeps the reference
invariant, and keeps the numbering invariant unless a non-text AST step
is processed in text define mode; a failing line never panics with the
reference-to-reference message. -/
lemma walkLine_good (st : WalkerSt) (l : Line) (hinv : WInv st) :
    (∀ st', Walker.walkLine st l = .ok st' →
       WInv st' ∧ (NumInv st → textLeakAt st l = false → NumInv st')) ∧
    (∀ m, Walker.walkLine st l = .error m → m ≠ referenceToReferencePanic) := by
  cases l with
  | metadata k v =>
    refine ⟨fun st' hp => ?_, fun m hm => ?_⟩
    · simp only [Walker.walkLine] at hp
      obtain rfl := Except.ok.inj hp
      obtain ⟨hcs, hsc, hsec, hing, hcw⟩ := metadata_pres st k v
      refine ⟨⟨by rw [hing]; exact hinv.1, by rw [hcw]; exact hinv.2⟩, fun hni _ => ?_⟩
      obtain ⟨hn1, hn2, hn3⟩ := hni
      exact ⟨by rw [hcs, hsc]; exact hn1, by rw [hsc]; exact hn2,
             fun s hs2 => hn3 s (by rw [← hsec]; exact hs2)⟩
    · simp only [Walker.walkLine] at hm
      exact Except.noConfusion hm
  | step bt items =>
    refine ⟨fun st' hp => ?_, fun m hm => ?_⟩
    · simp only [Walker.walkLine] at hp
      cases hs : Walker.step st bt items with
      | error m2 => rw [hs] at hp; exact Except.noConfusion hp
      | ok p =>
        rw [hs] at hp
        simp only [] at hp
        obtain ⟨hc, hv, hnum⟩ := (step_good st bt items hinv).1 p hs
        split at hp
        · split at hp
          · -- counter increments: the AST step is not text
            rename_i hbt
            have hbtf : bt = false := by revert hbt; cases bt <;> simp
            subst hbtf
            obtain rfl := Except.ok.inj hp
            refine ⟨⟨hv.1, hv.2⟩, fun hni hleak => ?_⟩
            simp only [textLeakAt, Bool.not_false, Bool.and_true] at hleak
            simp [hleak] at hnum
            obtain ⟨hn1, hn2, hn3⟩ := hni
            simp only [sectionNumbers] at hn1
            refine ⟨?_, ?_, ?_⟩
            · simp only [sectionNumbers, List.filterMap_append, List.filterMap_cons,
                List.filterMap_nil, hnum, hc.1, hc.2.1, hn1]
              have h3 : st.step_counter - 1 + 1 = st.step_counter := by omega
              have h4 : 1 + (st.step_counter - 1) = st.step_counter := by omega
              have hconcat := List.range'_1_concat 1 (st.step_counter - 1)
              rw [h3, h4] at hconcat
              rw [Nat.add_sub_cancel, ← hconcat]
            · simp only []
              omega
            · intro s hs2
              refine hn3 s ?_
              rw [← hc.2.2.1]
              exact hs2
          · -- text AST step: no number, no increment
            rename_i hbt
            have hbtt : bt = true := by revert hbt; cases bt <;> simp
            subst hbtt
            obtain rfl := Except.ok.inj hp
            refine ⟨⟨hv.1, hv.2⟩, fun hni hleak => ?_⟩
            simp at hnum
            obtain ⟨hn1, hn2, hn3⟩ := hni
            simp only [sectionNumbers] at hn1
            refine ⟨?_, ?_, ?_⟩
            · simp only [sectionNumbers, List.filterMap_append, List.filterMap_cons,
                List.filterMap_nil, hnum, hc.1, hc.2.1, hn1, List.append_nil]
            · simp only [hc.2.1]
              exact hn2
            · intro s hs2
              refine hn3 s ?_
              rw [← hc.2.2.1]
              exact hs2
        · -- components define mode: the step is dropped
          obtain rfl := Except.ok.inj hp
          refine ⟨hv, fun hni hleak => ?_⟩
          obtain ⟨hn1, hn2, hn3⟩ := hni
          exact ⟨by rw [hc.1, hc.2.1]; exact hn1, by rw [hc.2.1]; exact hn2,
                 fun s hs2 => hn3 s (by rw [← hc.2.2.1]; exact hs2)⟩
    · simp only [Walker.walkLine] at hm
      cases hs : Walker.step st bt items with
      | error m2 =>
        rw [hs] at hm
        simp only [] at hm
        obtain rfl := Except.error.inj hm
        exact (step_good st bt items hinv).2 m2 hs
      | ok p =>
        rw [hs] at hm
        simp only [] at hm
        split at hm
        · split at hm
          all_goals exact Except.noConfusion hm
        · exact Except.noConfusion hm
  | section' name =>
    refine ⟨fun st' hp => ?_, fun m hm => ?_⟩
    · simp only [Walker.walkLine] at hp
      split at hp
      · -- the current section is flushed
        obtain rfl := Except.ok.inj hp
        refine ⟨⟨hinv.1, hinv.2⟩, fun hni _ => ?_⟩
        obtain ⟨hn1, hn2, hn3⟩ := hni
        refine ⟨rfl, le_refl 1, ?_⟩
        intro s hs2
        simp only [] at hs2
        rcases List.mem_append.mp hs2 with hmem | hmem
        · exact hn3 s hmem
        · rcases List.mem_singleton.mp hmem with rfl
          rw [hn1, List.length_range']
      · -- empty section, not flushed
        obtain rfl := Except.ok.inj hp
        refine ⟨⟨hinv.1, hinv.2⟩, fun hni _ => ?_⟩
        obtain ⟨hn1, hn2, hn3⟩ := hni
        exact ⟨rfl, le_refl 1, fun s hs2 => hn3 s hs2⟩
    · simp only [Walker.walkLine] at hm
      split at hm
      all_goals exact Except.noConfusion hm


/-- The line loop: keeps the reference invariant, keeps the numbering
invariant in the absence of text-mode leaks, and never panics with the
reference-to-reference message. -/
lemma walkLines_good (ls : List Line) :
    ∀ (st : WalkerSt), WInv st →
    (∀ st', Walker.walkLines st ls = .ok st' →
       WInv st' ∧ (NumInv st → noTextLeak st ls = true → NumInv st')) ∧
    (∀ m, Walker.walkLines st ls = .error m → m ≠ referenceToReferencePanic) := by
  induction ls with
  | nil =>
    intro st hinv
    refine ⟨fun st' hp => ?_, fun m hm => Except.noConfusion hm⟩
    obtain rfl := Except.ok.inj hp
    exact ⟨hinv, fun hni _ => hni⟩
  | cons l rest ih =>
    intro st hinv
    refine ⟨fun st' hp => ?_, fun m hm => ?_⟩
    · simp only [Walker.walkLines] at hp
      cases hl : Walker.walkLine st l with
      | error m2 => rw [hl] at hp; exact Except.noConfusion hp
      | ok st1 =>
        rw [hl] at hp
        simp only [] at hp
        obtain ⟨hv1, hnum1⟩ := (walkLine_good st l hinv).1 st1 hl
        obtain ⟨hv', hni'⟩ := (ih st1 hv1).1 st' hp
        refine ⟨hv', fun hni hleak => ?_⟩
        simp only [noTextLeak, hl, Bool.and_eq_true, Bool.not_eq_true'] at hleak
        exact hni' (hnum1 hni hleak.1) hleak.2
    · simp only [Walker.walkLines] at hm
      cases hl : Walker.walkLine st l with
      | error m2 =>
        rw [hl] at hm
        simp only [] at hm
        obtain rfl := Except.error.inj hm
        exact (walkLine_good st l hinv).2 m2 hl
      | ok st1 =>
        rw [hl] at hm
        simp only [] at hm
        obtain ⟨hv1, hnum1⟩ := (walkLine_good st l hinv).1 st1 hl
        exact (ih st1 hv1).2 m hm

/-- `Walker::ast`: the whole walk keeps the reference invariant, numbers
the sections contiguously in the absence of text-mode leaks, and never
panics with the reference-to-reference message. -/
lemma ast_good (st : WalkerSt) (lines : List Line) (hinv : WInv st) :
    (∀ st', Walker.ast st lines = .ok st' →
       WInv st' ∧ (NumInv st → noTextLeak st lines = true →
         ∀ s ∈ st'.content.sections,
           sectionNumbers s = List.range' 1 (sectionNumbers s).length)) ∧
    (∀ m, Walker.ast st lines = .error m → m ≠ referenceToReferencePanic) := by
  refine ⟨fun st' hp => ?_, fun m hm => ?_⟩
  · simp only [Walker.ast] at hp
    cases hw : Walker.walkLines st lines with
    | error m2 => rw [hw] at hp; exact Except.noConfusion hp
    | ok st1 =>
      rw [hw] at hp
      simp only [] at hp
      obtain rfl := Except.ok.inj hp
      obtain ⟨hv1, hni1⟩ := (walkLines_good lines st hinv).1 st1 hw
      refine ⟨?_, fun hni hleak => ?_⟩
      · simp only [Walker.finishContent]
        split
        · exact ⟨hv1.1, hv1.2⟩
        · exact hv1
      · obtain ⟨hn1, hn2, hn3⟩ := hni1 hni hleak
        simp only [Walker.finishContent]
        split
        · intro s hs2
          simp only [] at hs2
          rcases List.mem_append.mp hs2 with hmem | hmem
          · exact hn3 s hmem
          · rcases List.mem_singleton.mp hmem with rfl
            rw [hn1, List.length_range']
        · exact hn3
  · simp only [Walker.ast] at hm
    cases hw : Walker.walkLines st lines with
    | error m2 =>
      rw [hw] at hm
      simp only [] at hm
      obtain rfl := Except.error.inj hm
      exact (walkLines_good lines st hinv).2 m2 hw
    | ok st1 => rw [hw] at hm; simp only [] at hm; exact Except.noConfusion hm

/-- The reference invariant holds in the walker's initial state. -/
lemma WInv_init (ext : Extensions) (conv : Converter)
    (tf : Option (String → Option (String × Quantity × String)))
    (rc : Option (String → Bool)) : WInv (initWalker ext conv tf rc) :=
  ⟨⟨fun i hi => absurd hi (by simp [initWalker, RecipeContent.default]),
    fun i hi => absurd hi (by simp [initWalker, RecipeContent.default])⟩,
   ⟨fun i hi => absurd hi (by simp [initWalker, RecipeContent.default]),
    fun i hi => absurd hi (by simp [initWalker, RecipeContent.default])⟩⟩

/-- The numbering invariant holds in the walker's initial state. -/
lemma NumInv_init (ext : Extensions) (conv : Converter)
    (tf : Option (String → Option (String × Quantity × String)))
    (rc : Option (String → Bool)) : NumInv (initWalker ext conv tf rc) :=
  ⟨rfl, le_refl 1,
   fun s hs => absurd hs (by simp [initWalker, RecipeContent.default])⟩

/-- **C6.** Reference integrity of the analyzer's output: on every
successful run, every ingredient or cookware `Reference{index k}` targets
a component whose relation is a `Definition`, and a failing run never
fails with the `"Reference to reference"` panic message — the panic
branches of `set_referenced_from` are unreachable. -/
theorem c6_reference_integrity_no_ref_to_ref_panic
    (lines : List Line) (ext : Extensions) (conv : Converter)
    (tf : Option (String → Option (String × Quantity × String)))
    (rc : Option (String → Bool)) :
    (∀ st', Walker.ast (initWalker ext conv tf rc) lines = .ok st' →
       RefIntegrity st'.content) ∧
    (∀ m, Walker.ast (initWalker ext conv tf rc) lines = .error m →
       m ≠ referenceToReferencePanic) := by
  obtain ⟨hok, herr⟩ := ast_good (initWalker ext conv tf rc) lines
    (WInv_init ext conv tf rc)
  exact ⟨fun st' h => (hok st' h).1, herr⟩

/-- C6 (witness): a run that panics on a negative intermediate reference
does not carry the reference-to-reference message, and a run that
resolves an actual `&`-reference yields reference-integral content. -/
theorem c6_reference_integrity_no_ref_to_ref_panic_witness :
    Walker.ast (initWalker Extensions.empty Converter.empty none none) c6badLines
      = .error "negative intermediate reference value" ∧
    "negative intermediate reference value" ≠ referenceToReferencePanic ∧
    Walker.ast (initWalker Extensions.empty Converter.empty none none) c6okLines
      = .ok c6okFinal ∧
    RefIntegrity c6okFinal.content :=
  ⟨rfl,
   (c6_reference_integrity_no_ref_to_ref_panic c6badLines Extensions.empty
     Converter.empty none none).2 _ rfl,
   rfl,
   (c6_reference_integrity_no_ref_to_ref_panic c6okLines Extensions.empty
     Converter.empty none none).1 c6okFinal rfl⟩

/-- **C2 (counterexample).** Claim C2 as stated is false: switching the
define mode to `text`, emitting one step, switching back and emitting
another yields an error-free recipe whose single section has numbered
steps `[2]`, not the contiguous `1..N` sequence `[1]`. -/
theorem c2_counterexample_text_mode_numbering_gap :
    Walker.ast c2st0 c2lines = .ok c2final ∧
    c2final.errors = [] ∧
    c2final.content.sections.map sectionNumbers = [[2]] ∧
    [2] ≠ List.range' 1 1 :=
  ⟨rfl, rfl, rfl, by decide⟩

/-- **C2 (amended).** Within each emitted section the numbered (non-text)
steps are exactly `1, 2, …, N`, provided no step line with a non-text AST
flag is processed while the define mode is `text` (the `noTextLeak`
condition); the counter increment on the AST flag combined with a number
based on the effective flag breaks the claim otherwise. -/
theorem c2_step_numbers_contiguous
    (lines : List Line) (ext : Extensions) (conv : Converter)
    (tf : Option (String → Option (String × Quantity × String)))
    (rc : Option (String → Bool)) (st' : WalkerSt)
    (hleak : noTextLeak (initWalker ext conv tf rc) lines = true)
    (h : Walker.ast (initWalker ext conv tf rc) lines = .ok st') :
    ∀ s ∈ st'.content.sections,
      sectionNumbers s = List.range' 1 (sectionNumbers s).length :=
  ((ast_good (initWalker ext conv tf rc) lines (WInv_init ext conv tf rc)).1
    st' h).2 (NumInv_init ext conv tf rc) hleak

/-- C2 (witness): a two-step leak-free run has contiguously numbered
sections. -/
theorem c2_step_numbers_contiguous_witness :
    noTextLeak c2st0 c2wlines = true ∧
    Walker.ast c2st0 c2wlines = .ok c2wfinal ∧
    ∀ s ∈ c2wfinal.content.sections,
      sectionNumbers s = List.range' 1 (sectionNumbers s).length :=
  ⟨rfl, rfl,
   c2_step_numbers_contiguous c2wlines c2ext Converter.empty none none c2wfinal
     rfl rfl⟩


/-- **C3 (counterexample).** Claim C3 as stated is false: the cookware
`#&pot|pan{}` (with `COMPONENT_MODIFIERS` and `COMPONENT_ALIAS` enabled)
parses successfully, keeps the `&` (reference) modifier and the alias,
and emits no error and no warning at all. -/
theorem c3_counterexample_cookware_modifiers_alias_accepted :
    Parser.cookware c3lp = .ok c3res ∧
    (c3res.1.map fun cw => (cw.modifiers.val, cw.alias'))
      = some (Modifiers.REF, some (Text.from_str "pan" 6)) ∧
    c3res.2.errors = [] ∧
    c3res.2.warnings = [] :=
  ⟨rfl, rfl, rfl, rfl⟩

/-- **C3 (amended).** Only timers reject modifiers and aliases: the
timer-side `check_modifiers` errors on every nonempty modifier run and
`check_alias` errors on every `|` in the name tokens (and concrete timer
parses carry exactly those diagnostics), whereas cookware accepts each of
the `& ? + -` modifiers and keeps it without any diagnostic — only the
`@` (recipe) modifier on cookware produces an error. -/
theorem c3_only_timers_reject_modifiers_and_aliases :
    (∀ (lp : LineParser) (toks : List Token) (container : String), toks ≠ [] →
       Parser.check_modifiers lp toks container
         = lp.error (.componentPartNotAllowed container "modifiers"
             (tokens_span toks))) ∧
    (∀ (lp : LineParser) (toks : List Token) (container : String) (i : Nat),
       toks.findIdx? (fun t => t.kind == .orMark) = some i →
       Parser.check_alias lp toks container
         = lp.error (.componentPartNotAllowed container "alias"
             (Span.mk (((toks[i]?).map (fun t => t.span.start)).getD 0)
               ((toks.getLast?.map (fun t => t.span.stop)).getD 0)))) ∧
    (∀ k, k = TokenKind.ampMark ∨ k = TokenKind.questionMark ∨
        k = TokenKind.plusMark ∨ k = TokenKind.minusMark →
      Parser.cookware (c3mlp k) = .ok (c3mres k) ∧
      (c3mres k).2.errors = [] ∧ (c3mres k).2.warnings = [] ∧
      ((c3mres k).1.map fun cw => some cw.modifiers.val)
        = some (Parser.modifierFlag k)) ∧
    (Parser.cookware (c3mlp .atMark) = .ok (c3mres .atMark) ∧
      (c3mres .atMark).2.errors
        = [.componentPartInvalid "cookware" "modifiers"
            "recipe modifier not allowed in cookware"]) ∧
    (∀ k, k = TokenKind.ampMark ∨ k = TokenKind.questionMark ∨
        k = TokenKind.plusMark ∨ k = TokenKind.minusMark →
      Parser.timer (c3tlp k) = .ok (c3tres k) ∧
      (c3tres k).2.errors
        = [.componentPartNotAllowed "timer" "modifiers" ⟨1, 2⟩]) ∧
    (Parser.timer c3alp = .ok c3ares ∧
      c3ares.2.errors = [.componentPartNotAllowed "timer" "alias" ⟨4, 8⟩]) := by
  refine ⟨?_, ?_, ?_, ⟨rfl, rfl⟩, ?_, ⟨rfl, rfl⟩⟩
  · intro lp toks container hne
    cases toks with
    | nil => exact absurd rfl hne
    | cons a l => rfl
  · intro lp toks container i h
    simp only [Parser.check_alias, h]
  · rintro k (rfl | rfl | rfl | rfl) <;> exact ⟨rfl, rfl, rfl, rfl⟩
  · rintro k (rfl | rfl | rfl | rfl) <;> exact ⟨rfl, rfl⟩

/-- C3 (witness): the general `check_modifiers` law applied to a concrete
nonempty modifier run, and a concrete timer parse carrying the
modifiers-not-allowed error. -/
theorem c3_only_timers_reject_modifiers_and_aliases_witness :
    Parser.check_modifiers c3lp [⟨.ampMark, ⟨1, 2⟩⟩] "timer"
      = c3lp.error (.componentPartNotAllowed "timer" "modifiers"
          (tokens_span [⟨.ampMark, ⟨1, 2⟩⟩])) ∧
    Parser.timer (c3tlp .ampMark) = .ok (c3tres .ampMark) :=
  ⟨c3_only_timers_reject_modifiers_and_aliases.1 c3lp [⟨.ampMark, ⟨1, 2⟩⟩] "timer"
     (by decide),
   (c3_only_timers_reject_modifiers_and_aliases.2.2.2.2.1 TokenKind.ampMark
     (Or.inl rfl)).1⟩


/-- **C5 (counterexample).** Claim C5 as stated is false: with
`MULTILINE_STEPS` on and a non-empty previous line, a new step line is
joined onto the previously emitted step even when that step is a TEXT
step (the new line is then parsed in text mode); no fresh line is
emitted. -/
theorem c5_counterexample_join_onto_text_step :
    Parser.parse_line c5lp c5lines false = .ok c5out ∧
    c5out.2.1 = [Line.step true
      [AstItem.text (Text.from_str "hello" 2),
       AstItem.text (Text.from_str " " 7),
       AstItem.text (Text.from_str "world" 8)]] ∧
    c5out.2.1.length ≠ c5lines.length + 1 :=
  ⟨rfl, rfl, by decide⟩

/-- **C5 (amended).** The multiline-step join characterized: when
`MULTILINE_STEPS` is on, the previous line was non-empty, the current
line is neither blank nor metadata nor a section mark, and the previously
emitted line is ANY step (text or not), the new line is parsed as a step
in the previous step's text mode and, if it has items, spliced onto the
previous step: trailing whitespace is trimmed from the previous step's
last text item, leading whitespace from the new step's first text item,
and a single-space text fragment is inserted at the byte position where
the previous line originally ended. -/
theorem c5_multiline_join_characterization
    (lp lp' : LineParser) (lines : List Line) (prev_is_text : Bool)
    (prevItems : List AstItem) (parsed : Parser.ParsedStep)
    (lastItem : AstItem)
    (hml : lp.extensions.multiline_steps = true)
    (hne : (lp.tokens.all fun t => t.kind == .ws || t.kind == .lineComment
      || t.kind == .blockComment) = false)
    (hp1 : lp.peek ≠ .metaMark) (hp2 : lp.peek ≠ .eqMark)
    (hlast : lines.getLast? = some (.step prev_is_text prevItems))
    (hstep : Parser.step lp prev_is_text = .ok (parsed, lp'))
    (hitems : parsed.items ≠ [])
    (hprev : prevItems.getLast? = some lastItem) :
    Parser.parse_line lp lines false = .ok (lp', lines.dropLast ++
      [Line.step prev_is_text
        (specJoinItems prevItems parsed.items lastItem.span.stop)], false) := by
  have hitems' : parsed.items.isEmpty = false := by
    cases hpi : parsed.items with
    | nil => exact absurd hpi hitems
    | cons a l => rfl
  cases hk : lp.peek
  case metaMark => exact absurd hk hp1
  case eqMark => exact absurd hk hp2
  all_goals
    simp only [Parser.parse_line, hne, hk, hml, hlast, hstep, hitems', hprev,
      specJoinItems, Bool.false_eq_true, Bool.not_false, Bool.true_and,
      if_false, if_true, reduceCtorEq, ite_false, ite_true]

/-- C5 (witness): the join law applied to a concrete non-text previous
step and a concrete next line. -/
theorem c5_multiline_join_characterization_witness :
    Parser.parse_line c5wlp c5wlines false = .ok (c5wres.2,
      c5wlines.dropLast ++ [Line.step false
        (specJoinItems [AstItem.text (Text.from_str "hello" 2)]
          c5wres.1.items 7)], false) :=
  c5_multiline_join_characterization c5wlp c5wres.2 c5wlines false
    [AstItem.text (Text.from_str "hello" 2)] c5wres.1
    (AstItem.text (Text.from_str "hello" 2))
    rfl rfl (by decide) (by decide) rfl rfl (by decide) rfl

end Cooklang

